import Mathlib

/-!
# CLAUDE-PUNK backend: session manager, protocol validation and realtime hub

A shallow embedding of the Go packages `internal/session`, `internal/protocol`
and `internal/realtime`, followed by theorems about the embedded definitions.

Conventions of the embedding:

* a Go map is an association list (keys are unique by construction);
* a buffered Go channel is a record of its pending items, its capacity and a
  closed flag; a non-blocking send (`select { case ch <- v: default: }`) appends
  when there is room and does nothing otherwise;
* a Go panic is the result `none`;
* the operating system (stat, PATH lookup, pipe creation, process start, the
  UUID generator, the clock) is an explicit environment record.
-/

namespace ClaudePunk

/-! ## session/session.go -/

/-- Go: `type State string`. -/
abbrev State := String

def StateCreating : State := "creating"
def StateActive : State := "active"
def StateIdle : State := "idle"
def StateTerminated : State := "terminated"

/-- Go: `type Session struct`. `CreatedAt` is a clock reading. -/
structure Session where
  ID : String
  State : State
  WorkDir : String
  CreatedAt : Nat
  Label : String
deriving DecidableEq, Repr

/-- Go: `type OutputEventType string`. -/
abbrev OutputEventType := String

def OutputStdout : OutputEventType := "stdout"
def OutputStderr : OutputEventType := "stderr"
def OutputExit : OutputEventType := "exit"

/-- Go: `type OutputEvent struct`; the field `Type` is spelled `Typ`, as `Type`
is reserved. -/
structure OutputEvent where
  SessionID : String
  Typ : OutputEventType
  Data : String
  Timestamp : Nat
deriving DecidableEq, Repr

/-- The Go zero value of `OutputEvent`, which fills a freshly made slice. -/
def OutputEvent.zero : OutputEvent := ⟨"", "", "", 0⟩

/-! ## session/ring_buffer.go -/

/-- Go: `type RingBuffer struct` (the lock is not modelled: every method body
is one atomic step). -/
structure RingBuffer where
  buf : List OutputEvent
  capacity : Nat
  pos : Nat
  full : Bool
deriving DecidableEq, Repr

/-- Go: `NewRingBuffer(capacity)`. -/
def NewRingBuffer (capacity : Nat) : RingBuffer :=
  { buf := List.replicate capacity OutputEvent.zero, capacity := capacity, pos := 0, full := false }

/-- Go: `rb.Write(event)`. The index expression `rb.buf[rb.pos]` panics when
`pos` is out of range and `% rb.capacity` panics when the capacity is zero. -/
def RingBuffer.Write (rb : RingBuffer) (event : OutputEvent) : Option RingBuffer :=
  if rb.pos < rb.buf.length then
    if rb.capacity = 0 then none
    else
      let pos := (rb.pos + 1) % rb.capacity
      some { buf := rb.buf.set rb.pos event, capacity := rb.capacity, pos := pos,
             full := if pos = 0 then true else rb.full }
  else none

/-- Go builtin `copy(dst, src)`: overwrites the first `min (len dst) (len src)`
elements of `dst`. -/
def copySlice {α : Type} (dst src : List α) : List α :=
  src.take dst.length ++ dst.drop src.length

/-- Go: `rb.ReadAll()`. -/
def RingBuffer.ReadAll (rb : RingBuffer) : List OutputEvent :=
  if !rb.full then
    copySlice (List.replicate rb.pos OutputEvent.zero) (rb.buf.take rb.pos)
  else
    let result := List.replicate rb.capacity OutputEvent.zero
    let result := copySlice result (rb.buf.drop rb.pos)
    result.take (rb.capacity - rb.pos) ++
      copySlice (result.drop (rb.capacity - rb.pos)) (rb.buf.take rb.pos)

/-- A sequence of `Write` calls, in order. -/
def RingBuffer.writeAll (rb : RingBuffer) : List OutputEvent → Option RingBuffer
  | [] => some rb
  | e :: es => (rb.Write e).bind (fun rb1 => rb1.writeAll es)

/-- The last `k` elements of a list, in order. -/
def lastN {α : Type} (k : Nat) (l : List α) : List α := l.drop (l.length - k)

/-- Representation invariant of a ring buffer: the slot array has `capacity`
slots and the cursor points at one of them. -/
def RingBuffer.WF (rb : RingBuffer) : Prop :=
  rb.buf.length = rb.capacity ∧ rb.pos < rb.capacity

/-- The ring buffer `rb` holds the history `prev` of all writes so far. -/
def RingBuffer.Holds (rb : RingBuffer) (prev : List OutputEvent) : Prop :=
  rb.WF ∧
  (rb.full = false → rb.buf.take rb.pos = prev) ∧
  (rb.full = true → rb.capacity ≤ prev.length ∧
      rb.buf.drop rb.pos ++ rb.buf.take rb.pos = lastN rb.capacity prev)

/-! ## Go maps and channels -/

/-- Go: `v, ok := m[k]`. -/
def mapGet {β : Type} (k : String) (m : List (String × β)) : Option β :=
  (m.find? (fun p => p.1 == k)).map (fun p => p.2)

/-- Go: `delete(m, k)`. -/
def mapDelete {β : Type} (k : String) (m : List (String × β)) : List (String × β) :=
  m.filter (fun p => p.1 != k)

/-- Go: `m[k] = v`. -/
def mapInsert {β : Type} (k : String) (v : β) (m : List (String × β)) : List (String × β) :=
  (k, v) :: mapDelete k m

/-- A buffered Go channel: pending items (oldest first), capacity, closed flag. -/
structure Chan (α : Type) where
  items : List α
  cap : Nat
  closed : Bool
deriving DecidableEq, Repr

/-- Go: `make(chan T, cap)`. -/
def Chan.make {α : Type} (cap : Nat) : Chan α := { items := [], cap := cap, closed := false }

/-- Go: `select { case ch <- v: default: }`. A send on a closed channel panics;
otherwise the value is buffered when there is room and dropped when not. -/
def Chan.trySend {α : Type} (ch : Chan α) (v : α) : Option (Chan α) :=
  if ch.closed then none
  else if ch.items.length < ch.cap then some { ch with items := ch.items ++ [v] }
  else some ch

/-- Go: `close(ch)`; closing a closed channel panics. -/
def Chan.close {α : Type} (ch : Chan α) : Option (Chan α) :=
  if ch.closed then none else some { ch with closed := true }

/-- Go: one receive of `for v := range ch` when an item is pending. -/
def Chan.recv {α : Type} (ch : Chan α) : Option (α × Chan α) :=
  match ch.items with
  | [] => none
  | v :: rest => some (v, { ch with items := rest })

/-! ## session/manager.go -/

def defaultRingBufCapacity : Nat := 1000
def defaultSubscriberBufCap : Nat := 100
def claudeCommand : String := "claude"

/-- The write end of the stdin pipe (`*os.File`): the chunks passed to the
operating system so far, whether the file is closed, how many times `Close`
was called on it, and whether the read end is gone (a write then fails). -/
structure OSFile where
  written : List String
  closed : Bool
  closeCalls : Nat
  readerGone : Bool
deriving DecidableEq, Repr

/-- Go: `f.Write(data)` on the pipe; returns the error, if any. -/
def OSFile.Write (f : OSFile) (data : String) : OSFile × Option String :=
  if f.closed then (f, some "write |1: file already closed")
  else if f.readerGone then (f, some "write |1: broken pipe")
  else ({ f with written := f.written ++ [data] }, none)

/-- Go: `f.Close()`. -/
def OSFile.Close (f : OSFile) : OSFile :=
  { f with closed := true, closeCalls := f.closeCalls + 1 }

/-- Go: `type stdinWriter struct`. -/
structure stdinWriter where
  writer : OSFile
  closed : Bool
deriving DecidableEq, Repr

/-- Go: `sw.Write(data)`. -/
def stdinWriter.Write (sw : stdinWriter) (data : String) : stdinWriter × Option String :=
  if sw.closed then (sw, some "stdin pipe closed")
  else
    let r := sw.writer.Write data
    ({ sw with writer := r.1 }, r.2)

/-- Go: `sw.Close()`. -/
def stdinWriter.Close (sw : stdinWriter) : stdinWriter :=
  if !sw.closed then { writer := sw.writer.Close, closed := true } else sw

/-- The parts of `*exec.Cmd` and of the cancel function that the manager uses:
whether the process was started (`cmd.Process != nil`), the interrupt signals
sent to it, the deferred force-kill tasks scheduled by `Kill`, and whether the
context was cancelled. -/
structure Cmd where
  Path : String
  Dir : String
  started : Bool
  interrupts : Nat
  killTimers : Nat
  cancelled : Bool
deriving DecidableEq, Repr

/-- Go: `type managedSession struct`. `detached` holds the queues that
`Unsubscribe` closed and removed from the table; their receiver still holds
them. -/
structure managedSession where
  Session : Session
  cmd : Cmd
  stdin : stdinWriter
  ringBuf : RingBuffer
  subscribers : List (String × Chan OutputEvent)
  detached : List (String × Chan OutputEvent)
deriving DecidableEq, Repr

/-- Go: `type Manager struct`. -/
structure Manager where
  sessions : List (String × managedSession)
  maxSessions : Int
deriving DecidableEq, Repr

/-- Go: `NewManager(maxSessions)`. -/
def NewManager (maxSessions : Int) : Manager := { sessions := [], maxSessions := maxSessions }

/-- Write back a session that a task mutated through its pointer. -/
def Manager.setSession (m : Manager) (id : String) (ms : managedSession) : Manager :=
  { m with sessions := mapInsert id ms m.sessions }

/-- The test `ms.Session.State != StateTerminated` on a map entry. -/
def isActive (p : String × managedSession) : Bool := p.2.Session.State != StateTerminated

/-- The counting loop of `Create`: sessions whose state is not `terminated`. -/
def Manager.activeCount (m : Manager) : Nat :=
  m.sessions.countP isActive

/-- Result of `os.Stat(workDir)` as `Create` inspects it. -/
inductive StatResult where
  | missing
  | file
  | dir
deriving DecidableEq, Repr

/-- What the operating system answers during one `Create` call. -/
structure CreateEnv where
  stat : String → StatResult
  lookPath : Option String
  newID : String
  now : Nat
  stdinPipeErr : Option String
  stdoutPipeErr : Option String
  stderrPipeErr : Option String
  startErr : Option String

/-- Go: `Create`, from the `os.Stat` check to the release of the manager lock
after `m.sessions[id] = ms`. Returns the id of the inserted session. -/
def Manager.createLocked (m : Manager) (env : CreateEnv) (workDir label : String) :
    Except String (Manager × String) :=
  match env.stat workDir with
  | .missing => .error ("working directory does not exist: " ++ workDir)
  | .file => .error ("path is not a directory: " ++ workDir)
  | .dir =>
    if (m.activeCount : Int) ≥ m.maxSessions then
      .error ("maximum session limit reached (" ++ toString m.maxSessions ++ ")")
    else
      match env.lookPath with
      | none => .error "claude CLI not found in PATH"
      | some binaryPath =>
        let id := env.newID
        let sess : Session :=
          { ID := id, State := StateCreating, WorkDir := workDir, CreatedAt := env.now,
            Label := label }
        match env.stdinPipeErr with
        | some e => .error ("create stdin pipe: " ++ e)
        | none =>
          match env.stdoutPipeErr with
          | some e => .error ("create stdout pipe: " ++ e)
          | none =>
            match env.stderrPipeErr with
            | some e => .error ("create stderr pipe: " ++ e)
            | none =>
              let ms : managedSession :=
                { Session := sess
                  cmd := { Path := binaryPath, Dir := workDir, started := false,
                           interrupts := 0, killTimers := 0, cancelled := false }
                  stdin := { writer := { written := [], closed := false, closeCalls := 0,
                                         readerGone := false },
                             closed := false }
                  ringBuf := NewRingBuffer defaultRingBufCapacity
                  subscribers := []
                  detached := [] }
              .ok (m.setSession id ms, id)

/-- Go: `Create`, from `cmd.Start()` to the return. On a start error the entry
is deleted again; otherwise the state becomes `active`. `Create` holds a
pointer to the session it inserted, so the lookup below always succeeds when
`id` is the id returned by `createLocked`; the `none` branch only makes the
function total. -/
def Manager.createStart (m : Manager) (id : String) (startErr : Option String) :
    Manager × Except String Session :=
  match startErr with
  | some e =>
    ({ m with sessions := mapDelete id m.sessions },
      .error ("failed to start claude CLI: " ++ e))
  | none =>
    match mapGet id m.sessions with
    | none => (m, .error "session vanished")
    | some ms =>
      let sess := { ms.Session with State := StateActive }
      (m.setSession id { ms with Session := sess, cmd := { ms.cmd with started := true } },
        .ok sess)

/-- Go: `m.Create(workDir, label)`, run without interference. -/
def Manager.Create (m : Manager) (env : CreateEnv) (workDir label : String) :
    Manager × Except String Session :=
  match m.createLocked env workDir label with
  | .error e => (m, .error e)
  | .ok (m1, id) => m1.createStart id env.startErr

/-- Go: the loop of `fanOut` over the subscriber table. -/
def sendAll (e : OutputEvent) :
    List (String × Chan OutputEvent) → Option (List (String × Chan OutputEvent))
  | [] => some []
  | (subID, ch) :: rest =>
    match ch.trySend e with
    | none => none
    | some ch1 =>
      match sendAll e rest with
      | none => none
      | some rest1 => some ((subID, ch1) :: rest1)

/-- Go: `m.fanOut(ms, event)`. -/
def fanOut (ms : managedSession) (event : OutputEvent) : Option managedSession :=
  (sendAll event ms.subscribers).map (fun subs => { ms with subscribers := subs })

/-- Go: `ms.ringBuf.Write(event)` on the session `id`. -/
def Manager.ringWrite (m : Manager) (id : String) (event : OutputEvent) : Option Manager :=
  match mapGet id m.sessions with
  | none => some m
  | some ms => (ms.ringBuf.Write event).map (fun rb => m.setSession id { ms with ringBuf := rb })

/-- Go: `m.fanOut(ms, event)` on the session `id`. -/
def Manager.fanOutAt (m : Manager) (id : String) (event : OutputEvent) : Option Manager :=
  match mapGet id m.sessions with
  | none => some m
  | some ms => (fanOut ms event).map (fun ms1 => m.setSession id ms1)

/-- Go: the event built by one iteration of the `scanOutput` loop. -/
def scanEvent (ms : managedSession) (stream : OutputEventType) (line : String) (now : Nat) :
    OutputEvent :=
  { SessionID := ms.Session.ID, Typ := stream, Data := line, Timestamp := now }

/-- Outcome of `ms.cmd.Wait()`: no error, an `*exec.ExitError` carrying the
value of `ExitCode()`, or any other error. -/
inductive WaitResult where
  | ok
  | exitError (code : Int)
  | otherError
deriving DecidableEq, Repr

/-- Go: the computation of `exitCode` at the head of `waitForExit`. -/
def waitExitCode : WaitResult → Int
  | .ok => 0
  | .exitError code => code
  | .otherError => 0

/-- Go: `ms.stdin.Close()` in `waitForExit`. -/
def Manager.reaperCloseStdin (m : Manager) (id : String) : Manager :=
  match mapGet id m.sessions with
  | none => m
  | some ms => m.setSession id { ms with stdin := ms.stdin.Close }

/-- Go: `ms.Session.State = StateTerminated` under the manager lock. -/
def Manager.reaperSetTerminated (m : Manager) (id : String) : Manager :=
  match mapGet id m.sessions with
  | none => m
  | some ms =>
    m.setSession id { ms with Session := { ms.Session with State := StateTerminated } }

/-- Go: the `exitEvent` built by `waitForExit`. -/
def exitEvent (ms : managedSession) (exitCode : Int) (now : Nat) : OutputEvent :=
  { SessionID := ms.Session.ID, Typ := OutputExit,
    Data := "exit_code:" ++ toString exitCode, Timestamp := now }

/-- Go: `m.Get(id)`. -/
def Manager.Get (m : Manager) (id : String) : Except String Session :=
  match mapGet id m.sessions with
  | none => .error ("session not found: " ++ id)
  | some ms => .ok ms.Session

/-- Go: `m.List()` (named `listSessions`, as `Manager.List` would hide `List`). -/
def Manager.listSessions (m : Manager) : List Session :=
  m.sessions.map (fun p => p.2.Session)

/-- Go: `m.GetWorkDir(id)`. -/
def Manager.GetWorkDir (m : Manager) (id : String) : Except String String :=
  match mapGet id m.sessions with
  | none => .error ("session not found: " ++ id)
  | some ms => .ok ms.Session.WorkDir

/-- Go: `m.SendPrompt(id, prompt)`; returns the error, if any. -/
def Manager.SendPrompt (m : Manager) (id prompt : String) : Manager × Option String :=
  match mapGet id m.sessions with
  | none => (m, some ("session not found: " ++ id))
  | some ms =>
    if ms.Session.State == StateTerminated then (m, some ("session terminated: " ++ id))
    else
      let r := ms.stdin.Write (prompt ++ "\n")
      (m.setSession id { ms with stdin := r.1 }, r.2)

/-- Go: `m.Kill(id)`; returns the error, if any. -/
def Manager.Kill (m : Manager) (id : String) : Manager × Option String :=
  match mapGet id m.sessions with
  | none => (m, some ("session not found: " ++ id))
  | some ms =>
    if ms.Session.State == StateTerminated then (m, none)
    else if ms.cmd.started then
      (m.setSession id
        { ms with cmd := { ms.cmd with interrupts := ms.cmd.interrupts + 1,
                                       killTimers := ms.cmd.killTimers + 1 } }, none)
    else (m, none)

/-- Go: `m.Subscribe(id)` up to and including the snapshot
`history := ms.ringBuf.ReadAll()`. -/
def Manager.subscribeSnapshot (m : Manager) (id : String) : Except String (List OutputEvent) :=
  match mapGet id m.sessions with
  | none => .error ("session not found: " ++ id)
  | some ms => .ok ms.ringBuf.ReadAll

/-- Go: `ms.subscribers[subID] = ch` in `Subscribe`, with a fresh queue of
capacity `defaultSubscriberBufCap`. -/
def Manager.subscribeRegister (m : Manager) (id subID : String) : Manager :=
  match mapGet id m.sessions with
  | none => m
  | some ms =>
    m.setSession id
      { ms with subscribers := mapInsert subID (Chan.make defaultSubscriberBufCap) ms.subscribers }

/-- Go: `m.Subscribe(id)`, run without interference; `subID` is the fresh UUID.
The returned queue is the one registered under `subID`. -/
def Manager.Subscribe (m : Manager) (id subID : String) :
    Manager × Except String (String × List OutputEvent) :=
  match m.subscribeSnapshot id with
  | .error e => (m, .error e)
  | .ok history => (m.subscribeRegister id subID, .ok (subID, history))

/-- Go: `m.Unsubscribe(sessionID, subID)`. -/
def Manager.Unsubscribe (m : Manager) (sessionID subID : String) : Option Manager :=
  match mapGet sessionID m.sessions with
  | none => some m
  | some ms =>
    match mapGet subID ms.subscribers with
    | none => some m
    | some ch =>
      (ch.close).map (fun ch1 =>
        m.setSession sessionID
          { ms with subscribers := mapDelete subID ms.subscribers,
                    detached := (subID, ch1) :: ms.detached })

/-- The receiver of subscription `subID` takes the oldest pending event from
its queue (one iteration of `for event := range ch`). -/
def Manager.recvAt (m : Manager) (id subID : String) : Option (OutputEvent × Manager) :=
  match mapGet id m.sessions with
  | none => none
  | some ms =>
    match mapGet subID ms.subscribers with
    | none => none
    | some ch =>
      (ch.recv).map (fun r =>
        (r.1, m.setSession id { ms with subscribers := mapInsert subID r.2 ms.subscribers }))

/-! ## The manager as a transition system -/

/-- One atomic step of the manager or of a task acting on it. Program order is
kept by the side conditions: `Create` starts a process only for the session it
has just inserted (state `creating`), scanners and the reaper run only after
the session was started, scanners exist for the streams `stdout` and `stderr`
only, and the reaper closes stdin and sets `terminated` while the state is
still `active`. Steps that would panic are not steps. -/
inductive Manager.Step : Manager → Manager → Prop where
  | createLocked (m m1 : Manager) (env : CreateEnv) (workDir label id : String) :
      m.createLocked env workDir label = .ok (m1, id) → Manager.Step m m1
  | createStart (m : Manager) (id : String) (ms : managedSession) (startErr : Option String) :
      mapGet id m.sessions = some ms → ms.Session.State = StateCreating →
      Manager.Step m (m.createStart id startErr).1
  | scanWrite (m m1 : Manager) (id : String) (ms : managedSession)
      (stream : OutputEventType) (line : String) (now : Nat) :
      mapGet id m.sessions = some ms → ms.Session.State ≠ StateCreating →
      (stream = OutputStdout ∨ stream = OutputStderr) →
      m.ringWrite id (scanEvent ms stream line now) = some m1 → Manager.Step m m1
  | fanOut (m m1 : Manager) (id : String) (e : OutputEvent) :
      m.fanOutAt id e = some m1 → Manager.Step m m1
  | reaperCloseStdin (m : Manager) (id : String) (ms : managedSession) :
      mapGet id m.sessions = some ms → ms.Session.State = StateActive →
      Manager.Step m (m.reaperCloseStdin id)
  | reaperSetTerminated (m : Manager) (id : String) (ms : managedSession) :
      mapGet id m.sessions = some ms → ms.Session.State = StateActive →
      Manager.Step m (m.reaperSetTerminated id)
  | reaperWrite (m m1 : Manager) (id : String) (ms : managedSession) (code : Int) (now : Nat) :
      mapGet id m.sessions = some ms → ms.Session.State = StateTerminated →
      m.ringWrite id (exitEvent ms code now) = some m1 → Manager.Step m m1
  | sendPrompt (m : Manager) (id prompt : String) : Manager.Step m (m.SendPrompt id prompt).1
  | kill (m : Manager) (id : String) : Manager.Step m (m.Kill id).1
  | subscribe (m : Manager) (id subID : String) : Manager.Step m (m.Subscribe id subID).1
  | unsubscribe (m m1 : Manager) (id subID : String) :
      m.Unsubscribe id subID = some m1 → Manager.Step m m1
  | recv (m m1 : Manager) (id subID : String) (e : OutputEvent) :
      m.recvAt id subID = some (e, m1) → Manager.Step m m1

/-- States reachable from `NewManager maxSessions`. -/
inductive Manager.Reachable (maxSessions : Int) : Manager → Prop where
  | init : Manager.Reachable maxSessions (NewManager maxSessions)
  | step (m m1 : Manager) :
      Manager.Reachable maxSessions m → Manager.Step m m1 → Manager.Reachable maxSessions m1

/-- A registered subscriber queue is open, has the default capacity and holds
no more items than that. -/
def chanOK (ch : Chan OutputEvent) : Prop :=
  ch.closed = false ∧ ch.cap = defaultSubscriberBufCap ∧
    ch.items.length ≤ defaultSubscriberBufCap

/-- Per-session invariant: the ring buffer is well formed and every registered
queue is `chanOK`. -/
def managedSession.OK (ms : managedSession) : Prop :=
  ms.ringBuf.WF ∧ ∀ p ∈ ms.subscribers, chanOK p.2

/-- The manager invariant. -/
def Manager.Inv (maxSessions : Int) (m : Manager) : Prop :=
  m.maxSessions = maxSessions ∧ (m.activeCount : Int) ≤ maxSessions ∧
    ∀ p ∈ m.sessions, p.2.OK

/-- The error text `Create` returns at the session limit. -/
def sessionLimitError (maxSessions : Int) : String :=
  "maximum session limit reached (" ++ toString maxSessions ++ ")"

/-! ## JSON values and the `encoding/json` decoder -/

/-- A JSON value; a number keeps its literal text, an object keeps its members
in document order (duplicate keys included). `str s` is a string literal
written without escape sequences, so the text between its quotes is its value
`s`; `strEsc raw s` is a string literal written with escape sequences: `raw`
is the text between the quotes as it stands in the document, `s` the value it
decodes to. -/
inductive JSON where
  | null : JSON
  | bool (b : Bool) : JSON
  | num (lit : String) : JSON
  | str (s : String) : JSON
  | strEsc (raw s : String) : JSON
  | arr (items : List JSON) : JSON
  | obj (members : List (String × JSON)) : JSON

mutual
/-- The nesting depth of a JSON value: the largest number of arrays and
objects open at once while the document is scanned. -/
def JSON.depth : JSON → Nat
  | .arr items => depthList items + 1
  | .obj members => depthMembers members + 1
  | _ => 0
/-- The largest nesting depth among the items of an array. -/
def depthList : List JSON → Nat
  | [] => 0
  | v :: rest => max v.depth (depthList rest)
/-- The largest nesting depth among the member values of an object. -/
def depthMembers : List (String × JSON) → Nat
  | [] => 0
  | kv :: rest => max kv.2.depth (depthMembers rest)
end

/-- Go: `maxNestingDepth` of `encoding/json`: the scanner, which
`json.Unmarshal` runs over the whole input first, fails with
"exceeded max depth" when more arrays and objects than this are open at
once. -/
def maxNestingDepth : Nat := 10000

/-- A raw frame received from a client: bytes that do not parse as JSON, or
the JSON value they spell. -/
inductive Raw where
  | malformed : Raw
  | json (v : JSON) : Raw

/-- Simple case folding as `encoding/json` applies it to object keys,
restricted to the runes that fold to an ASCII letter: the lower-case letters,
the long s (U+017F) and the Kelvin sign (U+212A). -/
def foldRune (c : Char) : Char :=
  if 'a' ≤ c ∧ c ≤ 'z' then Char.ofNat (c.toNat - 32)
  else if c = Char.ofNat 0x17F then 'S'
  else if c = Char.ofNat 0x212A then 'K'
  else c

/-- Go: `foldName`. -/
def foldName (s : String) : String := String.mk (s.data.map foldRune)

/-- Whether the object key `key` selects the struct field tagged `field`: an
exact match, or else a match after case folding. -/
def keyMatches (field key : String) : Bool :=
  key == field || foldName key == foldName field

/-- Whether a JSON value can be stored in a Go `string` field without error:
a string is stored, `null` leaves the field as it is. -/
def JSON.storableAsString : JSON → Bool
  | .str _ => true
  | .strEsc _ _ => true
  | .null => true
  | _ => false

/-- The value of the `string` field tagged `field` after decoding the members
in order: each matching member with a string value overwrites the field. -/
def stringField (field : String) (members : List (String × JSON)) : String :=
  members.foldl (fun cur kv =>
    if keyMatches field kv.1 then
      match kv.2 with
      | .str s => s
      | .strEsc _ s => s
      | _ => cur
    else cur) ""

/-- Whether decoding reports a type error for the `string` field tagged
`field`: some matching member is neither a string nor `null`. -/
def stringFieldError (field : String) (members : List (String × JSON)) : Bool :=
  members.any (fun kv => keyMatches field kv.1 && !kv.2.storableAsString)

/-- The value of a `json.RawMessage` field tagged `field`: the last matching
member, whatever its value (`null` included); `none` is the nil slice. -/
def rawField (field : String) (members : List (String × JSON)) : Option JSON :=
  members.foldl (fun cur kv => if keyMatches field kv.1 then some kv.2 else cur) none

/-- Go: whether `(*time.Time).UnmarshalJSON` accepts the bytes of a JSON value:
`null` is ignored; of a string literal the text between the quotes is parsed
as RFC 3339 as it stands, without unescaping; anything else is an error.
`parseTime` is the library parser. -/
def timeAccepts (parseTime : String → Option Nat) : JSON → Bool
  | .null => true
  | .str s => (parseTime s).isSome
  | .strEsc raw _ => (parseTime raw).isSome
  | _ => false

/-- The value of a `time.Time` field tagged `field`; `none` is the zero time. -/
def timeField (parseTime : String → Option Nat) (field : String)
    (members : List (String × JSON)) : Option Nat :=
  members.foldl (fun cur kv =>
    if keyMatches field kv.1 then
      match kv.2 with
      | .str s => parseTime s
      | .strEsc raw _ => parseTime raw
      | _ => cur
    else cur) none

/-- Whether decoding fails on the `time.Time` field tagged `field`. -/
def timeFieldError (parseTime : String → Option Nat) (field : String)
    (members : List (String × JSON)) : Bool :=
  members.any (fun kv => keyMatches field kv.1 && !timeAccepts parseTime kv.2)

/-! ## protocol/message.go -/

/-- Go: `type Message struct`. -/
structure Message where
  Typ : String
  Payload : Option JSON
  Timestamp : Option Nat

def TypeSessionUpdate : String := "session.update"
def TypeSessionOutput : String := "session.output"
def TypeSessionTerminated : String := "session.terminated"
def TypeFilesUpdate : String := "files.update"
def TypeFilesTree : String := "files.tree"
def TypeClaudeConfig : String := "claude.config"
def TypeError : String := "error"

def TypeSessionCreate : String := "session.create"
def TypeSessionPrompt : String := "session.prompt"
def TypeSessionKill : String := "session.kill"
def TypeFilesRequestTree : String := "files.requestTree"
def TypeClaudeRequestConfig : String := "claude.requestConfig"

def ErrSessionNotFound : String := "SESSION_NOT_FOUND"
def ErrSessionTerminated : String := "SESSION_TERMINATED"
def ErrInvalidMessage : String := "INVALID_MESSAGE"
def ErrMaxSessions : String := "MAX_SESSIONS"
def ErrSpawnFailed : String := "SPAWN_FAILED"

/-- Go: `type SessionCreatePayload struct`. -/
structure SessionCreatePayload where
  WorkDir : String
  Label : String
deriving DecidableEq, Repr

/-- Go: `type SessionPromptPayload struct`. -/
structure SessionPromptPayload where
  SessionID : String
  Prompt : String
deriving DecidableEq, Repr

/-- Go: `type SessionKillPayload struct` and `type SessionIDPayload struct`,
which have the same single field. -/
structure SessionIDPayload where
  SessionID : String
deriving DecidableEq, Repr

/-- Go: `json.Unmarshal(raw, &msg)` for `msg` of type `Message`: the scan of
the whole input, which fails on bytes that are not JSON and on a document
nested deeper than `maxNestingDepth`, and then the decoding. -/
def unmarshalMessage (parseTime : String → Option Nat) : Raw → Except String Message
  | .malformed => .error "invalid character"
  | .json v =>
    if maxNestingDepth < v.depth then .error "exceeded max depth"
    else
      match v with
      | .null => .ok { Typ := "", Payload := none, Timestamp := none }
      | .obj members =>
        if timeFieldError parseTime "timestamp" members then .error "Time.UnmarshalJSON"
        else if stringFieldError "type" members then
          .error "json: cannot unmarshal into Go struct field Message.type of type string"
        else
          .ok { Typ := stringField "type" members
                Payload := rawField "payload" members
                Timestamp := timeField parseTime "timestamp" members }
      | _ => .error "json: cannot unmarshal into Go value of type protocol.Message"

/-- Go: `json.Unmarshal(msg.Payload, &p)` for `p` of type
`SessionCreatePayload`. -/
def unmarshalSessionCreatePayload (payload : JSON) : Except String SessionCreatePayload :=
  if maxNestingDepth < payload.depth then .error "exceeded max depth"
  else
    match payload with
    | .null => .ok { WorkDir := "", Label := "" }
    | .obj members =>
      if stringFieldError "workDir" members || stringFieldError "label" members then
        .error "json: cannot unmarshal into Go struct field of type string"
      else
        .ok { WorkDir := stringField "workDir" members, Label := stringField "label" members }
    | _ => .error "json: cannot unmarshal into Go value of type protocol.SessionCreatePayload"

/-- Go: `json.Unmarshal(msg.Payload, &p)` for `p` of type
`SessionPromptPayload`. -/
def unmarshalSessionPromptPayload (payload : JSON) : Except String SessionPromptPayload :=
  if maxNestingDepth < payload.depth then .error "exceeded max depth"
  else
    match payload with
    | .null => .ok { SessionID := "", Prompt := "" }
    | .obj members =>
      if stringFieldError "sessionId" members || stringFieldError "prompt" members then
        .error "json: cannot unmarshal into Go struct field of type string"
      else
        .ok { SessionID := stringField "sessionId" members,
              Prompt := stringField "prompt" members }
    | _ => .error "json: cannot unmarshal into Go value of type protocol.SessionPromptPayload"

/-- Go: `json.Unmarshal(msg.Payload, &p)` for `p` of type `SessionKillPayload`
or `SessionIDPayload`. -/
def unmarshalSessionIDPayload (payload : JSON) : Except String SessionIDPayload :=
  if maxNestingDepth < payload.depth then .error "exceeded max depth"
  else
    match payload with
    | .null => .ok { SessionID := "" }
    | .obj members =>
      if stringFieldError "sessionId" members then
        .error "json: cannot unmarshal into Go struct field of type string"
      else .ok { SessionID := stringField "sessionId" members }
    | _ => .error "json: cannot unmarshal into Go value of type protocol.SessionIDPayload"

/-! ## protocol/validate.go -/

/-- Go: `validClientTypes`. -/
def validClientTypes : List String :=
  [TypeSessionCreate, TypeSessionPrompt, TypeSessionKill, TypeFilesRequestTree,
   TypeClaudeRequestConfig]

/-- Go: the `switch msg.Type` of `ValidateClientMessage`, on a payload that is
not nil: `none` when the payload passes, otherwise the error text. -/
def validatePayload (msgType : String) (payload : JSON) : Option String :=
  if msgType = TypeSessionCreate then
    match unmarshalSessionCreatePayload payload with
    | .error e => some ("invalid payload for " ++ msgType ++ ": " ++ e)
    | .ok p =>
      if p.WorkDir = "" then
        some ("missing required field 'workDir' in " ++ msgType ++ " payload")
      else none
  else if msgType = TypeSessionPrompt then
    match unmarshalSessionPromptPayload payload with
    | .error e => some ("invalid payload for " ++ msgType ++ ": " ++ e)
    | .ok p =>
      if p.SessionID = "" then
        some ("missing required field 'sessionId' in " ++ msgType ++ " payload")
      else if p.Prompt = "" then
        some ("missing required field 'prompt' in " ++ msgType ++ " payload")
      else none
  else if msgType = TypeSessionKill then
    match unmarshalSessionIDPayload payload with
    | .error e => some ("invalid payload for " ++ msgType ++ ": " ++ e)
    | .ok p =>
      if p.SessionID = "" then
        some ("missing required field 'sessionId' in " ++ msgType ++ " payload")
      else none
  else if msgType = TypeFilesRequestTree ∨ msgType = TypeClaudeRequestConfig then
    match unmarshalSessionIDPayload payload with
    | .error e => some ("invalid payload for " ++ msgType ++ ": " ++ e)
    | .ok p =>
      if p.SessionID = "" then
        some ("missing required field 'sessionId' in " ++ msgType ++ " payload")
      else none
  else none

/-- Go: `ValidateClientMessage(raw)`. -/
def ValidateClientMessage (parseTime : String → Option Nat) (raw : Raw) :
    Except String Message :=
  match unmarshalMessage parseTime raw with
  | .error e => .error ("invalid JSON: " ++ e)
  | .ok msg =>
    if msg.Typ = "" then .error "missing 'type' field"
    else if !validClientTypes.contains msg.Typ then
      .error ("unknown message type: " ++ msg.Typ)
    else
      match msg.Payload with
      | none => .error "missing 'payload' field"
      | some payload =>
        match validatePayload msg.Typ payload with
        | some e => .error e
        | none => .ok msg

/-! ## The directory observer, as far as the hub drives it -/

/-- Go: `type sessionWatcher struct` (the native handle and the cancellation
channel are left out). -/
structure sessionWatcher where
  sessionID : String
  workDir : String
  lastCount : Int
deriving DecidableEq, Repr

/-- Go: `type Watcher struct`. The field `callback` tells whether the callback
is set (`w.callback != nil`), as it is in `main`; its invocations are the
`UpdateCall` values the counting functions return. -/
structure Watcher where
  watchers : List (String × sessionWatcher)
  fileCountRatio : Int
  callback : Bool := true
deriving DecidableEq, Repr

/-- Go: `w.Watch(sessionID, workDir)`, the synchronous part: `setupErr` is the
error of `fsnotify.NewWatcher` or `addDirsRecursive`, if any; on success the
entry is registered with `lastCount = -1`. -/
def Watcher.Watch (w : Watcher) (setupErr : Option String) (sessionID workDir : String) :
    Watcher × Option String :=
  match setupErr with
  | some e => (w, some e)
  | none =>
    let sw : sessionWatcher := { sessionID := sessionID, workDir := workDir, lastCount := -1 }
    ({ w with watchers := mapInsert sessionID sw w.watchers }, none)

/-! ## watcher/watcher.go: counting files -/

/-- A directory tree as `filepath.WalkDir` sees it. `file` is an entry that is
not a directory, with the size `Info()` reports and the bytes `os.ReadFile`
returns (`none`: the read fails). `dir` is a directory that `os.ReadDir`
lists without an error, with the entries it returns, in that order. The name
of the root is the base name of the walked path. -/
inductive FsNode where
  | file (name : String) (size : Int) (content : Option String)
  | dir (name : String) (entries : List FsNode)

/-- Go: `d.Name()`. -/
def FsNode.Name : FsNode → String
  | .file name _ _ => name
  | .dir name _ => name

/-- Go: `d.IsDir()`. -/
def FsNode.IsDir : FsNode → Bool
  | .file .. => false
  | .dir .. => true

/-- What the walk functions of this program return: `nil` or
`filepath.SkipDir`. -/
inductive WalkResult where
  | nil
  | SkipDir
deriving DecidableEq, Repr

mutual
/-- Go: `walkDir(path, d, walkDirFn)` of `path/filepath`. The entry is visited;
for a directory that was not skipped the entries are walked in order. `below`
lists the names on the way from the root of the walk to the entry, so `path`
is the root path joined with `below`. -/
def walkDir {σ : Type} (fn : List String → FsNode → σ → σ × WalkResult)
    (below : List String) (d : FsNode) (st : σ) : σ × WalkResult :=
  match d with
  | .file name size content => fn below (.file name size content) st
  | .dir name entries =>
    match fn below (.dir name entries) st with
    | (st1, .SkipDir) => (st1, .nil)
    | (st1, .nil) => (walkEntries fn below entries st1, .nil)
/-- Go: the loop `for _, d1 := range dirs` of `walkDir`; `SkipDir` returned
for an entry ends the loop. -/
def walkEntries {σ : Type} (fn : List String → FsNode → σ → σ × WalkResult)
    (below : List String) (dirs : List FsNode) (st : σ) : σ :=
  match dirs with
  | [] => st
  | d1 :: rest =>
    match walkDir fn (below ++ [d1.Name]) d1 st with
    | (st1, .SkipDir) => st1
    | (st1, .nil) => walkEntries fn below rest st1
end

/-- Go: `filepath.WalkDir(root, fn)`. `root` is what `os.Lstat` finds at the
path; when it finds nothing the walk function is called once with the error,
which the walk functions of this program answer with `nil` and no effect. -/
def WalkDir {σ : Type} (fn : List String → FsNode → σ → σ × WalkResult)
    (root : Option FsNode) (st : σ) : σ :=
  match root with
  | none => st
  | some d => (walkDir fn [] d st).1

/-- Go: `var excludedDirs = map[string]bool{...}`, as the lookup
`excludedDirs[name]`. -/
def excludedDirs (name : String) : Bool :=
  name == "node_modules" || name == ".git" || name == "vendor"

/-- Go: `isHidden(name)`: `len(name) > 0 && name[0] == '.'`. -/
def isHidden (name : String) : Bool :=
  match name.data with
  | [] => false
  | c :: _ => c == '.'

/-- Go: `filepath.Rel(dir, path)` for a path reached by the walk from `dir`
through the names `below`. -/
def relPath (below : List String) : String :=
  if below = [] then "." else String.intercalate "/" below

/-- Go: `strings.HasPrefix(s, p)`. -/
def HasPrefix (s p : String) : Bool := p.data.isPrefixOf s.data

/-- Go: the function literal `CountFiles` passes to `filepath.WalkDir`, for
`err == nil`; the state is the variable `count`. The test `path != dir` is
`below != []`. -/
def countFilesFn (below : List String) (d : FsNode) (count : Int) : Int × WalkResult :=
  let name := d.Name
  if d.IsDir then
    if excludedDirs name then (count, .SkipDir)
    else if isHidden name && name != ".claude" && below != [] then (count, .SkipDir)
    else (count, .nil)
  else
    let rel := relPath below
    if isHidden name && !(HasPrefix rel ".claude") then (count, .nil)
    else (count + 1, .nil)

/-- Go: `CountFiles(dir)`; `root` is the tree at `dir`. -/
def CountFiles (root : Option FsNode) : Int :=
  WalkDir countFilesFn root 0

/-- Go: `a / b` on `int` (64 bits): a zero divisor panics (`none`); otherwise
the quotient truncated toward zero, and the one quotient that does not fit,
`math.MinInt64 / -1`, is the dividend. -/
def goDiv (a b : Int) : Option Int :=
  if b = 0 then none
  else if a = -9223372036854775808 ∧ b = -1 then some a
  else some (Int.tdiv a b)

/-- Go: one invocation `w.callback(sessionID, fileCount, drinkCount)`. -/
structure UpdateCall where
  sessionID : String
  fileCount : Int
  drinkCount : Int
deriving DecidableEq, Repr

/-- Go: the task `Watch(sessionID, workDir)` starts to compute the initial
file count. `fs` gives the tree at a path. The result is the record `sw` after
the task and the callback invocations it made; `none` is a panic. -/
def Watcher.initialCount (w : Watcher) (fs : String → Option FsNode) (sw : sessionWatcher) :
    Option (sessionWatcher × List UpdateCall) :=
  let count := CountFiles (fs sw.workDir)
  match goDiv count w.fileCountRatio with
  | none => none
  | some drinkCount =>
    let sw := { sw with lastCount := count }
    if w.callback then
      some (sw, [{ sessionID := sw.sessionID, fileCount := count, drinkCount := drinkCount }])
    else some (sw, [])

/-- Go: `w.recount(sw)`. The result is the record `sw` after the call and the
callback invocations it made; `none` is a panic. -/
def Watcher.recount (w : Watcher) (fs : String → Option FsNode) (sw : sessionWatcher) :
    Option (sessionWatcher × List UpdateCall) :=
  let count := CountFiles (fs sw.workDir)
  match goDiv count w.fileCountRatio with
  | none => none
  | some drinkCount =>
    if count ≠ sw.lastCount then
      let sw := { sw with lastCount := count }
      if w.callback then
        some (sw, [{ sessionID := sw.sessionID, fileCount := count, drinkCount := drinkCount }])
      else some (sw, [])
    else some (sw, [])

/-! ## watcher/watcher.go: tree snapshots, the configuration reader, watched directories -/

/-- Go: `type FileNode struct` of the protocol. A nil `Children` slice is the
empty list. -/
inductive FileNode where
  | mk (Name Path : String) (IsDir : Bool) (Children : List FileNode) (Size : Int)

/-- Go: the field `Name`. -/
def FileNode.Name : FileNode → String
  | .mk name _ _ _ _ => name

/-- Go: the field `Path`. -/
def FileNode.Path : FileNode → String
  | .mk _ path _ _ _ => path

/-- Go: the field `IsDir`. -/
def FileNode.IsDir : FileNode → Bool
  | .mk _ _ isDir _ _ => isDir

/-- Go: the field `Children`. -/
def FileNode.Children : FileNode → List FileNode
  | .mk _ _ _ children _ => children

/-- Go: the field `Size`. -/
def FileNode.Size : FileNode → Int
  | .mk _ _ _ _ size => size

/-- Go: `type ConfigFile struct` of the protocol. -/
structure ConfigFile where
  Name : String
  Content : String
deriving DecidableEq, Repr

/-- Go: `os.ReadDir(path)` on the entry at `path`: an error (`none`) for an
entry that is not a directory. -/
def FsNode.ReadDir : FsNode → Option (List FsNode)
  | .file .. => none
  | .dir _ entries => some entries

/-- Go: `info.Size()` of `f.Info()`. -/
def FsNode.Size : FsNode → Int
  | .file _ size _ => size
  | .dir .. => 0

/-- Go: `os.ReadFile(path)` on the entry at `path`; `none` is an error. -/
def FsNode.ReadFile : FsNode → Option String
  | .file _ _ content => content
  | .dir .. => none

/-- Go: the first loop of `buildTreeRecursive`, which sorts the entries that
pass the exclusion rules into `dirs` and `files`. -/
def partitionEntries :
    List FsNode → List FsNode × List FsNode → List FsNode × List FsNode
  | [], acc => acc
  | entry :: rest, (dirs, files) =>
    let name := entry.Name
    if excludedDirs name then partitionEntries rest (dirs, files)
    else if isHidden name && name != ".claude" then partitionEntries rest (dirs, files)
    else if entry.IsDir then partitionEntries rest (dirs ++ [entry], files)
    else partitionEntries rest (dirs, files ++ [entry])

/-- Go: `buildTreeRecursive(rootDir, currentDir, depth, maxDepth)`. `current`
is the entry at `currentDir` and `below` lists the names on the way from
`rootDir` to it, so `filepath.Rel(rootDir, fullPath)` is
`relPath (below ++ [name])`. -/
def buildTreeRecursive (below : List String) (current : FsNode) (depth maxDepth : Int) :
    List FileNode :=
  if _h : depth ≥ maxDepth then []
  else
    match current.ReadDir with
    | none => []
    | some entries =>
      let p := partitionEntries entries ([], [])
      p.1.map (fun d =>
        FileNode.mk d.Name (relPath (below ++ [d.Name])) true
          (buildTreeRecursive (below ++ [d.Name]) d (depth + 1) maxDepth) 0) ++
      p.2.map (fun f => FileNode.mk f.Name (relPath (below ++ [f.Name])) false [] f.Size)
termination_by (maxDepth - depth).toNat
decreasing_by omega

/-- Go: `BuildFileTree(dir, maxDepth)`; `root` is the tree at `dir` (`none`:
nothing is there, and `os.ReadDir` fails). -/
def BuildFileTree (root : Option FsNode) (maxDepth : Int) : List FileNode :=
  match root with
  | none => []
  | some d => buildTreeRecursive [] d 0 maxDepth

/-- Go: `strings.HasSuffix(s, suffix)`. -/
def HasSuffix (s suffix : String) : Bool := suffix.data.isSuffixOf s.data

mutual
/-- Go: `readConfigDir(dir, prefix, configs)`; `dir` is the entry at the path
`dir`, `pre` is the parameter `prefix`, and the list `configs` is passed
through. -/
def readConfigDir (dir : FsNode) (pre : String) (configs : List ConfigFile) :
    List ConfigFile :=
  match dir with
  | .file _ _ _ => configs
  | .dir _ entries => readConfigLoop entries pre configs
/-- Go: the loop `for _, entry := range entries` of `readConfigDir`. -/
def readConfigLoop (entries : List FsNode) (pre : String) (configs : List ConfigFile) :
    List ConfigFile :=
  match entries with
  | [] => configs
  | entry :: rest =>
    let relName := if pre != "" then pre ++ "/" ++ entry.Name else entry.Name
    if entry.IsDir then readConfigLoop rest pre (readConfigDir entry relName configs)
    else if HasSuffix entry.Name ".md" then
      match entry.ReadFile with
      | none => readConfigLoop rest pre configs
      | some data => readConfigLoop rest pre (configs ++ [{ Name := relName, Content := data }])
    else readConfigLoop rest pre configs
end

/-- Go: `os.Stat(filepath.Join(workDir, name))`: the entry `name` of the
directory at `workDir`; `none` is an error. -/
def statChild (root : Option FsNode) (name : String) : Option FsNode :=
  match root with
  | some (.dir _ entries) => entries.find? (fun e => e.Name == name)
  | _ => none

/-- Go: `ReadClaudeConfig(workDir)`; `root` is the tree at `workDir`. -/
def ReadClaudeConfig (root : Option FsNode) : List ConfigFile :=
  match statChild root ".claude" with
  | none => []
  | some info => if !info.IsDir then [] else readConfigDir info "" []

/-- Go: the function literal of `addDirsRecursive`, for `err == nil` and a
successful `w.Add(path)`; the state is the watch set, each watched directory
given by the names on the way from `dir` to it. -/
def addDirsFn (below : List String) (d : FsNode) (watched : List (List String)) :
    List (List String) × WalkResult :=
  if !d.IsDir then (watched, .nil)
  else
    let name := d.Name
    if excludedDirs name && below != [] then (watched, .SkipDir)
    else if isHidden name && name != ".claude" && below != [] then (watched, .SkipDir)
    else (watched ++ [below], .nil)

/-- Go: `addDirsRecursive(w, dir)` with every `w.Add` succeeding; the result is
the watch set. -/
def addDirsRecursive (root : Option FsNode) : List (List String) :=
  WalkDir addDirsFn root []

/-- Go: the branch `if event.Has(fsnotify.Create)` of `watchLoop`. The event
names the entry `name` of the watched directory `parent`; `stat` is what
`os.Stat(event.Name)` answers (`none`: an error, `some isDir` otherwise);
`base` is `name`. -/
def watchLoopCreate (watched : List (List String)) (parent : List String) (name : String)
    (stat : Option Bool) : List (List String) :=
  match stat with
  | some true =>
    let base := name
    if !excludedDirs base && !isHidden base then watched ++ [parent ++ [name]] else watched
  | _ => watched

/-! ## The files beneath a directory, for the statements about counting -/

mutual
/-- The entry itself when it is not a directory, and the entries beneath it
that are not directories when it is one; `above` lists the names on the way
down to its parent. -/
def FsNode.files (above : List String) : FsNode → List (List String × Option String)
  | .file name _ content => [(above ++ [name], content)]
  | .dir name entries => filesBelow (above ++ [name]) entries
/-- Every entry beneath the directory entries `entries` that is not a
directory, with the names on the way from the directory down to it and what
reading it gives, in depth-first listing order. -/
def filesBelow (above : List String) : List FsNode → List (List String × Option String)
  | [] => []
  | d :: rest => d.files above ++ filesBelow above rest
end

/-- A name that the exclusion rules let pass: not `node_modules`, `.git` or
`vendor`, and not hidden unless it is `.claude`. -/
def namePasses (name : String) : Bool :=
  !excludedDirs name && (!isHidden name || name == ".claude")

/-- Whether `CountFiles` is to count the non-directory entry reached from the
root through the names `path`: every directory on the way passes the exclusion
rules, and the entry's own name is not hidden or its relative path starts with
the characters `.claude`. -/
def countedPath (path : List String) : Bool :=
  path.dropLast.all namePasses &&
    (!isHidden (path.getLastD "") || HasPrefix (relPath path) ".claude")

/-- The rule of the claim about counting: no name on the path, the entry's own
included, is excluded or hidden, `.claude` apart. -/
def claimedCountedPath (path : List String) : Bool :=
  path.all namePasses

/-- The rule about counting with the two facts the claim leaves out: a
non-directory entry is counted when every directory on the way from the root
passes the exclusion rules and its own name is not hidden or it lies beneath
the directory `.claude` at the top of the tree. The excluded names apply to
directories only. -/
def ruleCounts (path : List String) : Bool :=
  path.dropLast.all namePasses &&
    (!isHidden (path.getLastD "") || path.dropLast.head? == some ".claude")

mutual
/-- The number of nodes in a tree snapshot that are not directories. -/
def FileNode.fileCount : FileNode → Nat
  | .mk _ _ isDir children _ => (if isDir then 0 else 1) + fileCountList children
/-- The number of nodes in a forest that are not directories. -/
def fileCountList : List FileNode → Nat
  | [] => 0
  | n :: rest => n.fileCount + fileCountList rest
end

/-- The nodes of a forest at nesting level `k`; the top-level nodes are at
level 1. -/
def nodesAtLevel : Nat → List FileNode → List FileNode
  | 0, _ => []
  | 1, forest => forest
  | k + 2, forest => nodesAtLevel (k + 1) (forest.flatMap FileNode.Children)

/-! ## realtime/server.go -/

/-- Go: `protocol.NewMessage(msgType, payload)`; `payload` is the marshalled
payload and `now` the clock reading. -/
def NewMessage (msgType : String) (payload : JSON) (now : Nat) : Message :=
  { Typ := msgType, Payload := some payload, Timestamp := some now }

/-- Go: `protocol.NewErrorMessage(code, message)`; the payload is the
marshalled `ErrorPayload`, fields in declaration order. -/
def NewErrorMessage (code message : String) (now : Nat) : Message :=
  NewMessage TypeError (.obj [("message", .str message), ("code", .str code)]) now

/-- Go: `type client struct`: the outbound queue; an item is a marshalled
message. -/
structure client where
  send : Chan Message

/-- Calls the hub makes on the session manager and on the observer. -/
inductive Call where
  | mgrCreate (workDir label : String)
  | mgrSendPrompt (id prompt : String)
  | mgrKill (id : String)
  | mgrGetWorkDir (id : String)
  | mgrSubscribe (id : String)
  | mgrUnsubscribe (id subID : String)
  | mgrList
  | watch (id workDir : String)
  | buildFileTree (workDir : String) (maxDepth : Int)
  | readClaudeConfig (workDir : String)
deriving DecidableEq, Repr

/-- Go: `type Server struct`. A client is named by its pointer identity;
`clientObjs` holds every client record (also after it left the registry
`clients`), `forwarders` lists the forwarding tasks started so far as
(client, session id, subscription id), and `calls` records the calls made on
the collaborators. -/
structure Server where
  sessionMgr : Manager
  fileWatch : Watcher
  clients : List String
  clientObjs : List (String × client)
  subscriptions : List (String × List (String × String))
  forwarders : List (String × String × String)
  calls : List Call

/-- What the outside world answers during one hub operation. -/
structure HubEnv where
  parseTime : String → Option Nat
  formatTime : Nat → String
  now : Nat
  create : CreateEnv
  watchErr : Option String
  subID : String → String → String
  treeJSON : String → JSON
  configJSON : String → JSON

/-- Go: `select { case c.send <- data: default: }`. A client pointer always
names a client record; the `none` branch of the lookup only makes the function
total. -/
def Server.trySend (s : Server) (c : String) (msg : Message) : Option Server :=
  match mapGet c s.clientObjs with
  | none => some s
  | some cl =>
    (cl.send.trySend msg).map (fun ch =>
      { s with clientObjs := mapInsert c { cl with send := ch } s.clientObjs })

/-- Go: `s.sendError(c, code, message)`. -/
def Server.sendError (s : Server) (env : HubEnv) (c code message : String) : Option Server :=
  s.trySend c (NewErrorMessage code message env.now)

/-- Go: `s.sendOutputEvent(c, event)`. -/
def Server.sendOutputEvent (s : Server) (env : HubEnv) (c : String) (event : OutputEvent) :
    Option Server :=
  if event.Typ = OutputExit then some s
  else
    let stream := if event.Typ = OutputStderr then "stderr" else "stdout"
    s.trySend c (NewMessage TypeSessionOutput
      (.obj [("sessionId", .str event.SessionID), ("stream", .str stream),
             ("data", .str event.Data)]) env.now)

/-- Go: the loop `for c := range s.clients` of `broadcast`. -/
def Server.sendEach (s : Server) (msg : Message) : List String → Option Server
  | [] => some s
  | c :: rest =>
    match s.trySend c msg with
    | none => none
    | some s1 => s1.sendEach msg rest

/-- Go: `s.broadcast(msg)`. -/
def Server.broadcast (s : Server) (msg : Message) : Option Server :=
  s.sendEach msg s.clients

/-- Go: the session-update message of `sendSessionList` and
`broadcastSessionUpdate`. -/
def sessionUpdateMessage (env : HubEnv) (sess : Session) : Message :=
  NewMessage TypeSessionUpdate
    (.obj [("id", .str sess.ID), ("state", .str sess.State), ("workDir", .str sess.WorkDir),
           ("label", .str sess.Label), ("createdAt", .str (env.formatTime sess.CreatedAt))])
    env.now

/-- Go: `s.broadcastSessionUpdate(sess)`. -/
def Server.broadcastSessionUpdate (s : Server) (env : HubEnv) (sess : Session) :
    Option Server :=
  s.broadcast (sessionUpdateMessage env sess)

/-- Go: the loop `for _, event := range history` of `subscribeClient`. -/
def Server.sendHistory (s : Server) (env : HubEnv) (c : String) :
    List OutputEvent → Option Server
  | [] => some s
  | event :: rest =>
    match s.sendOutputEvent env c event with
    | none => none
    | some s1 => s1.sendHistory env c rest

/-- Go: `s.subscribeClient(c, sessionID)` up to the start of the forwarding
task. -/
def Server.subscribeClient (s : Server) (env : HubEnv) (c sessionID : String) :
    Option Server :=
  let subs := (mapGet c s.subscriptions).getD []
  if (mapGet sessionID subs).isSome then some s
  else
    let s := { s with calls := s.calls ++ [Call.mgrSubscribe sessionID] }
    match s.sessionMgr.Subscribe sessionID (env.subID c sessionID) with
    | (_, .error _) => some s
    | (m1, .ok (subID, history)) =>
      let subs := (mapGet c s.subscriptions).getD []
      let s := { s with sessionMgr := m1,
                        subscriptions := mapInsert c (mapInsert sessionID subID subs)
                          s.subscriptions }
      match s.sendHistory env c history with
      | none => none
      | some s1 => some { s1 with forwarders := (c, sessionID, subID) :: s1.forwarders }

/-- Go: the loop `for _, c := range clients` of `subscribeAllClients`. -/
def Server.subscribeEach (s : Server) (env : HubEnv) (sessionID : String) :
    List String → Option Server
  | [] => some s
  | c :: rest =>
    match s.subscribeClient env c sessionID with
    | none => none
    | some s1 => s1.subscribeEach env sessionID rest

/-- Go: `s.subscribeAllClients(sessionID)`. -/
def Server.subscribeAllClients (s : Server) (env : HubEnv) (sessionID : String) :
    Option Server :=
  s.subscribeEach env sessionID s.clients

/-- Go: `json.Unmarshal(msg.Payload, &payload)` in a handler, error ignored;
the handlers run after validation, where decoding succeeds. -/
def payloadOr {α : Type} (zero : α) (decode : JSON → Except String α) (msg : Message) : α :=
  match msg.Payload with
  | none => zero
  | some p =>
    match decode p with
    | .ok x => x
    | .error _ => zero

/-- Go: `s.handleWSCreateSession(c, msg)`. -/
def Server.handleWSCreateSession (s : Server) (env : HubEnv) (c : String) (msg : Message) :
    Option Server :=
  let payload := payloadOr { WorkDir := "", Label := "" } unmarshalSessionCreatePayload msg
  let s := { s with calls := s.calls ++ [Call.mgrCreate payload.WorkDir payload.Label] }
  match s.sessionMgr.Create env.create payload.WorkDir payload.Label with
  | (m1, .error err) =>
    let errCode := ErrSpawnFailed
    let errCode := if err = "claude CLI not found in PATH" then ErrSpawnFailed else errCode
    ({ s with sessionMgr := m1 }).sendError env c errCode err
  | (m1, .ok sess) =>
    let s := { s with sessionMgr := m1, calls := s.calls ++ [Call.watch sess.ID sess.WorkDir],
                      fileWatch := (s.fileWatch.Watch env.watchErr sess.ID sess.WorkDir).1 }
    match s.broadcastSessionUpdate env sess with
    | none => none
    | some s1 => s1.subscribeAllClients env sess.ID

/-- Go: `s.handleWSPrompt(c, msg)`. -/
def Server.handleWSPrompt (s : Server) (env : HubEnv) (c : String) (msg : Message) :
    Option Server :=
  let payload := payloadOr { SessionID := "", Prompt := "" } unmarshalSessionPromptPayload msg
  let s := { s with calls := s.calls ++ [Call.mgrSendPrompt payload.SessionID payload.Prompt] }
  match s.sessionMgr.SendPrompt payload.SessionID payload.Prompt with
  | (m1, some err) =>
    let errCode := ErrSessionNotFound
    let errCode :=
      if err = "session terminated: " ++ payload.SessionID then ErrSessionTerminated
      else errCode
    ({ s with sessionMgr := m1 }).sendError env c errCode err
  | (m1, none) => some { s with sessionMgr := m1 }

/-- Go: `s.handleWSKill(c, msg)`. -/
def Server.handleWSKill (s : Server) (env : HubEnv) (c : String) (msg : Message) :
    Option Server :=
  let payload := payloadOr { SessionID := "" } unmarshalSessionIDPayload msg
  let s := { s with calls := s.calls ++ [Call.mgrKill payload.SessionID] }
  match s.sessionMgr.Kill payload.SessionID with
  | (m1, some err) => ({ s with sessionMgr := m1 }).sendError env c ErrSessionNotFound err
  | (m1, none) => some { s with sessionMgr := m1 }

/-- Go: `s.handleWSFilesTree(c, msg)`; `env.treeJSON workDir` is the marshalled
result of `watcher.BuildFileTree(workDir, 3)`. -/
def Server.handleWSFilesTree (s : Server) (env : HubEnv) (c : String) (msg : Message) :
    Option Server :=
  let payload := payloadOr { SessionID := "" } unmarshalSessionIDPayload msg
  let s := { s with calls := s.calls ++ [Call.mgrGetWorkDir payload.SessionID] }
  match s.sessionMgr.GetWorkDir payload.SessionID with
  | .error err => s.sendError env c ErrSessionNotFound err
  | .ok workDir =>
    let s := { s with calls := s.calls ++ [Call.buildFileTree workDir 3] }
    s.trySend c (NewMessage TypeFilesTree
      (.obj [("sessionId", .str payload.SessionID), ("tree", env.treeJSON workDir)]) env.now)

/-- Go: `s.handleWSClaudeConfig(c, msg)`; `env.configJSON workDir` is the
marshalled result of `watcher.ReadClaudeConfig(workDir)`. -/
def Server.handleWSClaudeConfig (s : Server) (env : HubEnv) (c : String) (msg : Message) :
    Option Server :=
  let payload := payloadOr { SessionID := "" } unmarshalSessionIDPayload msg
  let s := { s with calls := s.calls ++ [Call.mgrGetWorkDir payload.SessionID] }
  match s.sessionMgr.GetWorkDir payload.SessionID with
  | .error err => s.sendError env c ErrSessionNotFound err
  | .ok workDir =>
    let s := { s with calls := s.calls ++ [Call.readClaudeConfig workDir] }
    s.trySend c (NewMessage TypeClaudeConfig
      (.obj [("sessionId", .str payload.SessionID), ("files", env.configJSON workDir)])
      env.now)

/-- Go: `s.handleMessage(c, raw)`. -/
def Server.handleMessage (s : Server) (env : HubEnv) (c : String) (raw : Raw) : Option Server :=
  match ValidateClientMessage env.parseTime raw with
  | .error err => s.sendError env c ErrInvalidMessage err
  | .ok msg =>
    if msg.Typ = TypeSessionCreate then s.handleWSCreateSession env c msg
    else if msg.Typ = TypeSessionPrompt then s.handleWSPrompt env c msg
    else if msg.Typ = TypeSessionKill then s.handleWSKill env c msg
    else if msg.Typ = TypeFilesRequestTree then s.handleWSFilesTree env c msg
    else if msg.Typ = TypeClaudeRequestConfig then s.handleWSClaudeConfig env c msg
    else some s

/-- Go: `realtime.New(sessionMgr, fileWatch, staticDir)`. -/
def New (sessionMgr : Manager) (fileWatch : Watcher) : Server :=
  { sessionMgr := sessionMgr, fileWatch := fileWatch, clients := [], clientObjs := [],
    subscriptions := [], forwarders := [], calls := [] }

/-- Go: `handleWebSocket`, the allocation and registration of the client
record: an outbound queue of capacity 256, an entry in the registry and an
empty subscription map. -/
def Server.addClient (s : Server) (c : String) : Server :=
  { s with clients := if s.clients.contains c then s.clients else s.clients ++ [c],
           clientObjs := mapInsert c { send := Chan.make 256 } s.clientObjs,
           subscriptions := mapInsert c [] s.subscriptions }

/-- Go: the loop of `sendSessionList`. -/
def Server.sendSessions (s : Server) (env : HubEnv) (c : String) : List Session → Option Server
  | [] => some s
  | sess :: rest =>
    match s.trySend c (sessionUpdateMessage env sess) with
    | none => none
    | some s1 => s1.sendSessions env c rest

/-- Go: `s.sendSessionList(c)`. -/
def Server.sendSessionList (s : Server) (env : HubEnv) (c : String) : Option Server :=
  let s := { s with calls := s.calls ++ [Call.mgrList] }
  s.sendSessions env c s.sessionMgr.listSessions

/-- Go: the loop of `subscribeClientToActiveSessions`. -/
def Server.subscribeActive (s : Server) (env : HubEnv) (c : String) :
    List Session → Option Server
  | [] => some s
  | sess :: rest =>
    if sess.State != StateTerminated then
      match s.subscribeClient env c sess.ID with
      | none => none
      | some s1 => s1.subscribeActive env c rest
    else s.subscribeActive env c rest

/-- Go: `s.subscribeClientToActiveSessions(c)`. -/
def Server.subscribeClientToActiveSessions (s : Server) (env : HubEnv) (c : String) :
    Option Server :=
  let s := { s with calls := s.calls ++ [Call.mgrList] }
  s.subscribeActive env c s.sessionMgr.listSessions

/-- Go: `s.handleWebSocket(w, r)` after a successful upgrade, up to the start
of the client's two pumps. -/
def Server.handleWebSocket (s : Server) (env : HubEnv) (c : String) : Option Server :=
  match (s.addClient c).sendSessionList env c with
  | none => none
  | some s1 => s1.subscribeClientToActiveSessions env c

/-- Go: `s.OnFileUpdate(sessionID, fileCount, drinkCount)`. -/
def Server.OnFileUpdate (s : Server) (env : HubEnv) (sessionID : String)
    (fileCount drinkCount : Int) : Option Server :=
  s.broadcast (NewMessage TypeFilesUpdate
    (.obj [("sessionId", .str sessionID), ("fileCount", .num (toString fileCount)),
           ("drinkCount", .num (toString drinkCount))]) env.now)

/-! ## The validation rule in the words of the protocol table -/

/-- The payload fields each client message type declares. -/
def specPayloadFields (msgType : String) : List String :=
  if msgType = TypeSessionCreate then ["workDir", "label"]
  else if msgType = TypeSessionPrompt then ["sessionId", "prompt"]
  else ["sessionId"]

/-- The payload fields each client message type requires to be non-empty. -/
def specRequiredFields (msgType : String) : List String :=
  if msgType = TypeSessionCreate then ["workDir"]
  else if msgType = TypeSessionPrompt then ["sessionId", "prompt"]
  else ["sessionId"]

/-- The payload is an object, nested at most `maxNestingDepth` deep, in which
every member naming a declared field is a string or `null`, and every required
field is a non-empty string. -/
def specPayloadOK (msgType : String) (payload : JSON) : Bool :=
  decide (payload.depth ≤ maxNestingDepth) &&
  match payload with
  | .obj members =>
    (specPayloadFields msgType).all (fun f => !stringFieldError f members) &&
    (specRequiredFields msgType).all (fun f => stringField f members != "")
  | _ => false

/-- The frame is nested at most `maxNestingDepth` deep; it is an object whose
`timestamp` members are `null` or string literals whose text, taken as it
stands, is a valid time, and whose `type` members are strings or `null`; its
type tag is one of the five client types, and its payload is present and
passes `specPayloadOK`. -/
def specAccepts (parseTime : String → Option Nat) (v : JSON) : Bool :=
  decide (v.depth ≤ maxNestingDepth) &&
  match v with
  | .obj members =>
    !timeFieldError parseTime "timestamp" members &&
    !stringFieldError "type" members &&
    validClientTypes.contains (stringField "type" members) &&
    (match rawField "payload" members with
     | some payload => specPayloadOK (stringField "type" members) payload
     | none => false)
  | _ => false

/-- The envelope has a member that selects the field tagged `field`. -/
def hasMember (field : String) : JSON → Bool
  | .obj members => members.any (fun kv => keyMatches field kv.1)
  | _ => false

/-- A time parser that accepts every string. -/
def lenientParseTime : String → Option Nat := fun _ => some 0

/-- The frame `{"type":"session.kill","payload":{"sessionId":"abc"},"timestamp":5}`. -/
def badTimestampFrame : JSON :=
  .obj [("type", .str "session.kill"), ("payload", .obj [("sessionId", .str "abc")]),
        ("timestamp", .num "5")]

/-- The frame `{"type":"session.kill","payload":{"sessionId":"abc"}}`. -/
def noTimestampFrame : JSON :=
  .obj [("type", .str "session.kill"), ("payload", .obj [("sessionId", .str "abc")])]

/-- The acceptance rule as the protocol table words it, without the
conditions on the timestamp and on the types of the declared fields: the type
tag is one of the five client types and the payload is an object whose
required fields are non-empty strings. -/
def claimedAccepts : JSON → Bool
  | .obj members =>
    validClientTypes.contains (stringField "type" members) &&
    (match rawField "payload" members with
     | some (.obj pm) =>
       (specRequiredFields (stringField "type" members)).all (fun f => stringField f pm != "")
     | _ => false)
  | _ => false

/-- A time parser that rejects every string. -/
def strictParseTime : String → Option Nat := fun _ => none

/-- The frame `{"type":"session.create","payload":{"workDir":"/tmp/test"},
"timestamp":"2024-01-01T00:00:00Z","extra":true}`. -/
def createFrame : JSON :=
  .obj [("type", .str "session.create"), ("payload", .obj [("workDir", .str "/tmp/test")]),
        ("timestamp", .str "2024-01-01T00:00:00Z"), ("extra", .bool true)]

/-- The value `v` wrapped in `n` arrays: `[[...[v]...]]`. -/
def nest : Nat → JSON → JSON
  | 0, v => v
  | n + 1, v => .arr [nest n v]

/-- A time parser that accepts the text `2024-01-01T00:00:00Z` and nothing
else. -/
def exactParseTime : String → Option Nat :=
  fun s => if s = "2024-01-01T00:00:00Z" then some 0 else none

/-- The frame of `noTimestampFrame` with the further member
`"timestamp":"2024-01-01T00:00:00\u005a"`, whose literal spells the final `Z`
as an escape sequence. -/
def escapedTimestampFrame : JSON :=
  .obj [("type", .str "session.kill"), ("payload", .obj [("sessionId", .str "abc")]),
        ("timestamp", .strEsc "2024-01-01T00:00:00\\u005a" "2024-01-01T00:00:00Z")]

/-- The frame `{"type":"session.kill","payload":{"sessionId":"abc"},
"x":[[...[null]...]]}` whose member `x` is nested 10000 arrays deep. -/
def deepFrame : JSON :=
  .obj [("type", .str "session.kill"), ("payload", .obj [("sessionId", .str "abc")]),
        ("x", nest maxNestingDepth .null)]

/-! ## Concrete scenarios -/

/-- An operating system in which `/work` is a directory, `/etc/hosts` a
regular file and nothing else exists, the `claude` binary is on the PATH, and
pipes and process start succeed. -/
def demoEnv : CreateEnv :=
  { stat := fun path =>
      if path = "/work" then .dir else if path = "/etc/hosts" then .file else .missing
    lookPath := some "/usr/bin/claude"
    newID := "s1"
    now := 7
    stdinPipeErr := none
    stdoutPipeErr := none
    stderrPipeErr := none
    startErr := none }

/-- The manager with limit 1 after `Create("/work", "demo")` has inserted its
session and released the lock. -/
def demoLocked : Manager :=
  (NewManager 1).setSession "s1"
    { Session := { ID := "s1", State := StateCreating, WorkDir := "/work", CreatedAt := 7,
                   Label := "demo" }
      cmd := { Path := "/usr/bin/claude", Dir := "/work", started := false, interrupts := 0,
               killTimers := 0, cancelled := false }
      stdin := { writer := { written := [], closed := false, closeCalls := 0,
                             readerGone := false },
                 closed := false }
      ringBuf := NewRingBuffer defaultRingBufCapacity
      subscribers := []
      detached := [] }

/-- The manager with limit 1 after a successful `Create("/work", "demo")`. -/
def demoActive : Manager := (demoLocked.createStart "s1" none).1

/-- A line of output of session `s1`. -/
def demoEvent : OutputEvent :=
  { SessionID := "s1", Typ := OutputStdout, Data := "hello", Timestamp := 8 }

/-! ## Hub scenarios -/

/-- The outside world of the hub scenarios: every timestamp parses, the clock
reads 9, the operating system is `demoEnv`. -/
def demoHubEnv : HubEnv :=
  { parseTime := lenientParseTime
    formatTime := fun t => toString t
    now := 9
    create := demoEnv
    watchErr := none
    subID := fun c sessionID => "sub-" ++ c ++ "-" ++ sessionID
    treeJSON := fun _ => .arr []
    configJSON := fun _ => .arr [] }

/-- A fresh hub over a manager with limit `maxSessions`, after the
registration of client `c1`. -/
def freshHub (maxSessions : Int) : Server :=
  (New (NewManager maxSessions) { watchers := [], fileCountRatio := 20 }).addClient "c1"

/-- The hub `s` after `n` file-update callbacks of the observer. -/
def Server.fileUpdates (s : Server) (env : HubEnv) : Nat → Option Server
  | 0 => some s
  | n + 1 =>
    match s.fileUpdates env n with
    | none => none
    | some s1 => s1.OnFileUpdate env "s1" (n : Int) ((n : Int) / 20)

/-- The frame `{"type":"session.create","payload":{"workDir":"/work",
"label":"demo"},"timestamp":"2024-01-01T00:00:00Z"}`. -/
def firstCreateRequest : Raw :=
  .json (.obj [("type", .str "session.create"),
               ("payload", .obj [("workDir", .str "/work"), ("label", .str "demo")]),
               ("timestamp", .str "2024-01-01T00:00:00Z")])

/-- The hub with limit 1 after client `c1` connected and created session `s1`
in `/work`; `none` would be a panic. -/
def demoHub : Option Server :=
  ((New (NewManager 1) { watchers := [], fileCountRatio := 20 }).handleWebSocket
      demoHubEnv "c1").bind
    (fun s => s.handleMessage demoHubEnv "c1" firstCreateRequest)

/-- The `session.update` message that announced session `s1`. -/
def demoUpdateMessage : Message :=
  NewMessage TypeSessionUpdate
    (.obj [("id", .str "s1"), ("state", .str "active"), ("workDir", .str "/work"),
           ("label", .str "demo"), ("createdAt", .str "7")]) 9

/-- The manager of `demoHub`: session `s1` is active and client `c1` is
subscribed to it. -/
def demoSubscribed : Manager := (demoActive.Subscribe "s1" "sub-c1-s1").1

/-- The frame `{"type":"session.create","payload":{"workDir":"/work",
"label":"second"},"timestamp":"2024-01-01T00:00:00Z"}`. -/
def createRequest : Raw :=
  .json (.obj [("type", .str "session.create"),
               ("payload", .obj [("workDir", .str "/work"), ("label", .str "second")]),
               ("timestamp", .str "2024-01-01T00:00:00Z")])

/-- The frame `{"type":"session.prompt","payload":{"sessionId":"s1",
"prompt":"hi"},"timestamp":"2024-01-01T00:00:00Z"}`. -/
def promptRequest : Raw :=
  .json (.obj [("type", .str "session.prompt"),
               ("payload", .obj [("sessionId", .str "s1"), ("prompt", .str "hi")]),
               ("timestamp", .str "2024-01-01T00:00:00Z")])

/-- The manager of `demoHub` after the reaper of session `s1` has closed the
stdin writer and before it sets the state to `terminated`. -/
def closingManager : Manager := demoSubscribed.reaperCloseStdin "s1"

/-- The messages pending in the outbound queue of client `c`. -/
def Server.pending (s : Server) (c : String) : List Message :=
  match mapGet c s.clientObjs with
  | none => []
  | some cl => cl.send.items

/-! ## Subscribe racing with a producer -/

/-- The atomic steps of the claim about `Subscribe`: a producer (scanner or
reaper) first writes an event to the ring buffer and then fans it out; the
subscriber first takes the snapshot and then registers its queue. -/
inductive RaceStep where
  | producerWrite (e : OutputEvent)
  | producerFanOut (e : OutputEvent)
  | subscriberSnapshot
  | subscriberRegister
deriving DecidableEq, Repr

/-- State of a race on session `id`: the manager, the session log (events in
the order they entered the ring buffer) and the history returned to the
subscriber. -/
structure RaceState where
  m : Manager
  log : List OutputEvent
  history : List OutputEvent

/-- Execute one step on session `id` for the subscription `subID`. -/
def RaceState.step (id subID : String) (s : RaceState) : RaceStep → Option RaceState
  | .producerWrite e =>
    (s.m.ringWrite id e).map (fun m1 => { s with m := m1, log := s.log ++ [e] })
  | .producerFanOut e => (s.m.fanOutAt id e).map (fun m1 => { s with m := m1 })
  | .subscriberSnapshot =>
    match s.m.subscribeSnapshot id with
    | .ok history => some { s with history := history }
    | .error _ => none
  | .subscriberRegister => some { s with m := s.m.subscribeRegister id subID }

/-- Execute a schedule. -/
def RaceState.run (id subID : String) (s : RaceState) : List RaceStep → Option RaceState
  | [] => some s
  | a :: rest => (s.step id subID a).bind (fun s1 => s1.run id subID rest)

/-- The producer steps of a schedule form iterations of the scanner loop:
each write is followed by the fan-out of the same event. -/
def producerOrder : List RaceStep → Bool
  | [] => true
  | .producerWrite e :: .producerFanOut e1 :: rest => decide (e = e1) && producerOrder rest
  | _ => false

/-- A schedule is an interleaving of one `Subscribe` call (snapshot, then
registration) with the iterations of one producer. -/
def isInterleaving (sched : List RaceStep) : Bool :=
  producerOrder (sched.filter (fun a =>
    match a with
    | .producerWrite _ => true
    | .producerFanOut _ => true
    | _ => false)) &&
  decide (sched.filter (fun a =>
    match a with
    | .subscriberSnapshot => true
    | .subscriberRegister => true
    | _ => false) = [.subscriberSnapshot, .subscriberRegister])

/-- What the subscriber observes: the history, then the events delivered on
its queue. -/
def RaceState.observed (id subID : String) (s : RaceState) : List OutputEvent :=
  s.history ++
    (match mapGet id s.m.sessions with
     | none => []
     | some ms =>
       match mapGet subID ms.subscribers with
       | none => []
       | some ch => ch.items)

/-- The schedule in which `Subscribe` runs between a scanner's ring-buffer
write and its fan-out of the same event. -/
def raceSchedule : List RaceStep :=
  [.producerWrite demoEvent, .subscriberSnapshot, .subscriberRegister,
   .producerFanOut demoEvent]

/-! ## Views used by the statements about `Kill` -/

/-- What `Kill` must leave alone in a session: its metadata and state, its
stdin writer, its ring buffer and its subscriber tables. -/
def managedSession.view (ms : managedSession) :
    ClaudePunk.Session × stdinWriter × RingBuffer × List (String × Chan OutputEvent) ×
      List (String × Chan OutputEvent) :=
  (ms.Session, ms.stdin, ms.ringBuf, ms.subscribers, ms.detached)

/-! ## Exit events and the terminated state -/

/-- Per-session invariant: the ring buffer is well formed, and if one of its
slots holds an exit event then the session's state is `terminated`. -/
def managedSession.ExitOK (ms : managedSession) : Prop :=
  ms.ringBuf.WF ∧
    ∀ e ∈ ms.ringBuf.buf, e.Typ = OutputExit → ms.Session.State = StateTerminated

/-- The invariant `ExitOK` for every session of the manager. -/
def Manager.ExitInv (m : Manager) : Prop := ∀ p ∈ m.sessions, p.2.ExitOK

/-- The demo manager after the reaper of session `s1` has closed the stdin
writer and set the state to `terminated`, before it writes the exit event. -/
def terminatingManager : Manager := closingManager.reaperSetTerminated "s1"

/-- Go: `m.waitForExit(ms)` from the return of `ms.cmd.Wait()` with outcome
`res`, run without interference. The task holds a pointer to its session, so
the lookup succeeds; the `none` branch of the lookup only makes the function
total. -/
def Manager.waitForExit (m : Manager) (id : String) (res : WaitResult) (now : Nat) :
    Option Manager :=
  let exitCode := waitExitCode res
  let m1 := m.reaperCloseStdin id
  let m2 := m1.reaperSetTerminated id
  match mapGet id m2.sessions with
  | none => some m2
  | some ms =>
    let ev := exitEvent ms exitCode now
    match m2.ringWrite id ev with
    | none => none
    | some m3 => m3.fanOutAt id ev

/-- The exit code the claim about the reaper expects: as `waitExitCode`, but
`-1` for a wait error that is not an exit error. -/
def claimedExitCode : WaitResult → Int
  | .ok => 0
  | .exitError code => code
  | .otherError => -1

/-- The session `s1` of `demoSubscribed`. -/
def demoSubscribedSession : managedSession :=
  { Session := { ID := "s1", State := StateActive, WorkDir := "/work", CreatedAt := 7,
                 Label := "demo" }
    cmd := { Path := "/usr/bin/claude", Dir := "/work", started := true, interrupts := 0,
             killTimers := 0, cancelled := false }
    stdin := { writer := { written := [], closed := false, closeCalls := 0,
                           readerGone := false },
               closed := false }
    ringBuf := NewRingBuffer defaultRingBufCapacity
    subscribers := [("sub-c1-s1", Chan.make defaultSubscriberBufCap)]
    detached := [] }

/-! ## Subscription forwarding -/

/-- Go: `fmt.isSpace`, the white-space table of the scanner. -/
def goIsSpace (c : Char) : Bool :=
  let n := c.toNat
  (0x09 ≤ n && n ≤ 0x0d) || n == 0x20 || n == 0x85 || n == 0xa0 || n == 0x1680 ||
  (0x2000 ≤ n && n ≤ 0x200a) || n == 0x2028 || n == 0x2029 || n == 0x202f || n == 0x205f ||
  n == 0x3000

/-- Go: `(*ss).SkipSpace` as `Sscanf` runs it: white space is skipped, a
newline is an error (`none`). -/
def scanSkipSpace : List Char → Option (List Char)
  | [] => some []
  | c :: rest =>
    if c = '\n' then none
    else if goIsSpace c then scanSkipSpace rest
    else some (c :: rest)

/-- Whether the input starts with the literal text of the format; returns the
rest of the input. -/
def scanLiteral : List Char → List Char → Option (List Char)
  | [], input => some input
  | _ :: _, [] => none
  | f :: fs, c :: rest => if f = c then scanLiteral fs rest else none

/-- The value of a run of decimal digits. -/
def digitsValue (digits : List Char) : Nat :=
  digits.foldl (fun acc c => acc * 10 + (c.toNat - '0'.toNat)) 0

/-- Go: `exitCode := 0; fmt.Sscanf(data, "exit_code:%d", &exitCode)`: the
literal must match, then white space is skipped, an optional sign and at least
one decimal digit are read and converted as a 64-bit integer; on any error
`exitCode` keeps the value 0. -/
def sscanExitCode (data : String) : Int :=
  match scanLiteral "exit_code:".toList data.toList with
  | none => 0
  | some rest =>
    match scanSkipSpace rest with
    | none => 0
    | some rest1 =>
      let signed : Bool × List Char :=
        match rest1 with
        | '-' :: t => (true, t)
        | '+' :: t => (false, t)
        | _ => (false, rest1)
      let digits := signed.2.takeWhile Char.isDigit
      if digits.isEmpty then 0
      else
        let v : Int := if signed.1 then -(digitsValue digits : Int) else (digitsValue digits : Int)
        if -(2 : Int) ^ 63 ≤ v ∧ v < (2 : Int) ^ 63 then v else 0

/-- Go: the `session.terminated` message built by the forwarding task. -/
def sessionTerminatedMessage (env : HubEnv) (sessionID : String) (exitCode : Int) : Message :=
  NewMessage TypeSessionTerminated
    (.obj [("sessionId", .str sessionID), ("exitCode", .num (toString exitCode))]) env.now

/-- Go: the `session.output` message built by `sendOutputEvent`. -/
def sessionOutputMessage (env : HubEnv) (event : OutputEvent) : Message :=
  NewMessage TypeSessionOutput
    (.obj [("sessionId", .str event.SessionID),
           ("stream", .str (if event.Typ = OutputStderr then "stderr" else "stdout")),
           ("data", .str event.Data)]) env.now

/-- Go: the body of the loop `for event := range ch` of the forwarding task
started by `subscribeClient(c, sessionID)`. -/
def Server.forwardEvent (s : Server) (env : HubEnv) (c sessionID : String)
    (event : OutputEvent) : Option Server :=
  match s.sendOutputEvent env c event with
  | none => none
  | some s1 =>
    if event.Typ = OutputExit then
      s1.trySend c (sessionTerminatedMessage env sessionID (sscanExitCode event.Data))
    else some s1

/-- One iteration of the forwarding task of subscription `subID`: it takes the
oldest pending event from the registered queue and handles it; with nothing
pending the task stays parked. -/
def Server.forwardStep (s : Server) (env : HubEnv) (c sessionID subID : String) :
    Option Server :=
  match s.sessionMgr.recvAt sessionID subID with
  | none => some s
  | some r => ({ s with sessionMgr := r.2 }).forwardEvent env c sessionID r.1

/-- Go: the test `_, exists := s.subscriptions[c][sessionID]` at the head of
`subscribeClient`, made under `subscriptionsMu`. -/
def Server.isSubscribed (s : Server) (c sessionID : String) : Bool :=
  (mapGet sessionID ((mapGet c s.subscriptions).getD [])).isSome

/-- Go: `subscribeClient(c, sessionID)` after the test found no subscription
and `subscriptionsMu` was released: `Subscribe`, the entry in the
subscription table, the replay of the history and the start of the forwarding
task. -/
def Server.subscribeClientRest (s : Server) (env : HubEnv) (c sessionID : String) :
    Option Server :=
  let s := { s with calls := s.calls ++ [Call.mgrSubscribe sessionID] }
  match s.sessionMgr.Subscribe sessionID (env.subID c sessionID) with
  | (_, .error _) => some s
  | (m1, .ok (subID, history)) =>
    let subs := (mapGet c s.subscriptions).getD []
    let s := { s with sessionMgr := m1,
                      subscriptions := mapInsert c (mapInsert sessionID subID subs)
                        s.subscriptions }
    match s.sendHistory env c history with
    | none => none
    | some s1 => some { s1 with forwarders := (c, sessionID, subID) :: s1.forwarders }

/-- Go: `handleWSCreateSession(c, msg)` up to and including
`broadcastSessionUpdate`; returns the created session, or `none` for it when
`Create` failed and the error was sent. -/
def Server.handleWSCreateSessionHead (s : Server) (env : HubEnv) (c : String)
    (msg : Message) : Option (Server × Option Session) :=
  let payload := payloadOr { WorkDir := "", Label := "" } unmarshalSessionCreatePayload msg
  let s := { s with calls := s.calls ++ [Call.mgrCreate payload.WorkDir payload.Label] }
  match s.sessionMgr.Create env.create payload.WorkDir payload.Label with
  | (m1, .error err) =>
    let errCode := ErrSpawnFailed
    let errCode := if err = "claude CLI not found in PATH" then ErrSpawnFailed else errCode
    (({ s with sessionMgr := m1 }).sendError env c errCode err).map (fun s1 => (s1, none))
  | (m1, .ok sess) =>
    let s := { s with sessionMgr := m1, calls := s.calls ++ [Call.watch sess.ID sess.WorkDir],
                      fileWatch := (s.fileWatch.Watch env.watchErr sess.ID sess.WorkDir).1 }
    (s.broadcastSessionUpdate env sess).map (fun s1 => (s1, some sess))

/-! ## Hub scenarios with a late or a doubled subscription -/

/-- The validated message of `firstCreateRequest`. -/
def firstCreateMessage : Message :=
  { Typ := "session.create"
    Payload := some (.obj [("workDir", .str "/work"), ("label", .str "demo")])
    Timestamp := some 0 }

/-- The line `L1` printed by the subprocess of session `s1`. -/
def lineL1 : OutputEvent :=
  { SessionID := "s1", Typ := OutputStdout, Data := "L1", Timestamp := 8 }

/-- Client `c1` connects to a fresh hub and sends `session.create`; the
handler creates session `s1`, starts the file watcher and broadcasts the
session update. Before the handler goes on to `subscribeAllClients`, the
subprocess prints `L1` (scanner: ring-buffer write, fan-out) and exits with
code 2 (reaper). Then the handler runs `subscribeAllClients("s1")`. -/
def lateHistoryHub : Option Server :=
  ((New (NewManager 1) { watchers := [], fileCountRatio := 20 }).handleWebSocket
      demoHubEnv "c1").bind fun s0 =>
  (s0.handleWSCreateSessionHead demoHubEnv "c1" firstCreateMessage).bind fun r =>
  (r.1.sessionMgr.ringWrite "s1" lineL1).bind fun m1 =>
  (m1.fanOutAt "s1" lineL1).bind fun m2 =>
  (m2.waitForExit "s1" (.exitError 2) 10).bind fun m3 =>
  ({ r.1 with sessionMgr := m3 }).subscribeAllClients demoHubEnv "s1"

/-- The outside world of a second, concurrent `subscribeClient` call: as
`demoHubEnv`, with other fresh subscription ids. -/
def secondHubEnv : HubEnv :=
  { demoHubEnv with subID := fun c sessionID => "sub2-" ++ c ++ "-" ++ sessionID }

/-- Two tasks: `G1` serves the new connection of client `c1`
(`handleWebSocket`), `G2` handles a `session.create` of the connected client
`c2`. The state after: `c2` connected; `G1` registered `c1`; `G2` created
session `s1` and broadcast the update; `G1` sent the session list to `c1`.
Next `G1` enters `subscribeClient(c1, s1)` from
`subscribeClientToActiveSessions` and makes its test. -/
def raceHubAtCheck : Option Server :=
  ((New (NewManager 1) { watchers := [], fileCountRatio := 20 }).handleWebSocket
      demoHubEnv "c2").bind fun s0 =>
  ((s0.addClient "c1").handleWSCreateSessionHead demoHubEnv "c2" firstCreateMessage).bind
    fun r =>
  r.1.sendSessionList demoHubEnv "c1"

/-- The run continued: after the test of `G1` found no subscription and
released the lock, `G2` runs `subscribeAllClients("s1")`, that is
`subscribeClient(c2, s1)` and `subscribeClient(c1, s1)`; then `G1` continues
its own `subscribeClient(c1, s1)` after the test; the subprocess exits with
code 0 (reaper); the two forwarding tasks of `c1` each handle the event they
received. -/
def raceHub : Option Server :=
  raceHubAtCheck.bind fun s1 =>
  (s1.subscribeClient demoHubEnv "c2" "s1").bind fun s2 =>
  (s2.subscribeClient demoHubEnv "c1" "s1").bind fun s3 =>
  (s3.subscribeClientRest secondHubEnv "c1" "s1").bind fun s4 =>
  (s4.sessionMgr.waitForExit "s1" .ok 10).bind fun m5 =>
  (({ s4 with sessionMgr := m5 }).forwardStep demoHubEnv "c1" "s1" "sub-c1-s1").bind fun s6 =>
  s6.forwardStep demoHubEnv "c1" "s1" "sub2-c1-s1"

/-- The manager after the subprocess of the active session `s1` printed the
lines `L1`, `L2`, `L3` on stdout and nobody was subscribed. -/
def threeLineManager : Manager :=
  ((demoActive.ringWrite "s1" lineL1).bind fun m1 =>
   (m1.ringWrite "s1" { lineL1 with Data := "L2" }).bind fun m2 =>
   m2.ringWrite "s1" { lineL1 with Data := "L3" }).getD demoActive

/-- The record of session `s1` in `threeLineManager`. -/
def threeLineSession : managedSession :=
  (mapGet "s1" threeLineManager.sessions).getD demoSubscribedSession

/-- A hub whose client `c1` is connected and has no subscription, over
`threeLineManager`. -/
def threeLineHub : Server := { freshHub 1 with sessionMgr := threeLineManager }

/-- A working directory with the base name `name` that holds the file
`main.go` and the directory `src` with the file `app.go`. -/
def projectTree (name : String) : FsNode :=
  .dir name [.file "main.go" 4 (some "test"), .dir "src" [.file "app.go" 4 (some "test")]]

/-- The observer of `main` with the default ratio 20. -/
def demoWatcher : Watcher := { watchers := [], fileCountRatio := 20 }

/-- The record `Watch("s1", "/work")` registers. -/
def demoSessionWatcher : sessionWatcher :=
  { sessionID := "s1", workDir := "/work", lastCount := -1 }

/-- The hub `threeLineHub` after `subscribeClient(c1, s1)`, a further line
`L4` of the subprocess (scanner: ring-buffer write, fan-out) and one iteration
of the forwarding task of `c1`. -/
def fourthLineHub : Option Server :=
  (threeLineHub.subscribeClient demoHubEnv "c1" "s1").bind fun s1 =>
  (s1.sessionMgr.ringWrite "s1" { lineL1 with Data := "L4" }).bind fun m1 =>
  (m1.fanOutAt "s1" { lineL1 with Data := "L4" }).bind fun m2 =>
  ({ s1 with sessionMgr := m2 }).forwardStep demoHubEnv "c1" "s1" "sub-c1-s1"

/-- The entries of a working directory that holds the hidden file `.env`,
`main.go`, and the directory `.claude` with `CLAUDE.md` and the hidden file
`.secret`. -/
def claudeEntries : List FsNode :=
  [.file ".env" 6 (some "SECRET"), .file "main.go" 4 (some "test"),
   .dir ".claude" [.file "CLAUDE.md" 6 (some "config"), .file ".secret" 3 (some "key")]]

/-- The working directory of `TestBuildFileTree_MaxDepth`: `a/b/c/d/deep.txt`. -/
def deepTree : FsNode :=
  .dir "work" [.dir "a" [.dir "b" [.dir "c" [.dir "d" [.file "deep.txt" 4 (some "deep")]]]]]

/-- The working directory of `TestBuildFileTree_WithFiles`, listed in name
order, with a hidden file and an excluded directory added: `.env`, `main.go`,
`node_modules/`, `sub/helper.go`, `zlib/`. -/
def mixedTree : FsNode :=
  .dir "work" [.file ".env" 6 (some "SECRET"), .file "main.go" 12 (some "package main"),
               .dir "node_modules" [.file "package.json" 2 (some "{}")],
               .dir "sub" [.file "helper.go" 11 (some "package sub")], .dir "zlib" []]

/-- The working directory of `TestReadClaudeConfig_WithFiles`: `.claude` with
`CLAUDE.md`, `notes.txt` and `rules/rule1.md`; an unreadable `rules/locked.md`
is added. -/
def configTree : FsNode :=
  .dir "work" [.dir ".claude" [.file "CLAUDE.md" 8 (some "# Config"),
                               .file "notes.txt" 13 (some "not a md file"),
                               .dir "rules" [.file "locked.md" 5 none,
                                             .file "rule1.md" 8 (some "# Rule 1")]],
               .file "main.md" 4 (some "# no")]

/-- The entry `ReadClaudeConfig` is to return for an entry that is not a
directory, reached from `.claude` through the names `path`, whose reading
gives `content`: none unless the name ends with `.md` and the entry is
readable; then the path joined with `/` and the bytes read. -/
def configEntry (p : List String × Option String) : Option ConfigFile :=
  if HasSuffix (p.1.getLastD "") ".md" then
    p.2.map (fun data => { Name := String.intercalate "/" p.1, Content := data })
  else none

/-! ## Sequences of calls on a stdin writer -/

/-- A call on a stdin writer. -/
inductive StdinCall where
  | Write (data : String)
  | Close
deriving DecidableEq, Repr

/-- The stdin writer after the calls `calls`, made in this order; the mutex of
the writer makes every call one atomic step. -/
def stdinWriter.run (sw : stdinWriter) : List StdinCall → stdinWriter
  | [] => sw
  | .Write data :: rest => ((sw.Write data).1).run rest
  | .Close :: rest => sw.Close.run rest

/-- The data of the `Write` calls made before the first `Close`. -/
def writesBeforeClose : List StdinCall → List String
  | [] => []
  | .Write data :: rest => data :: writesBeforeClose rest
  | .Close :: _ => []

/-- The stdin writer `Create` builds: `&stdinWriter{writer: stdinW}` over a
fresh pipe whose read end is held by the subprocess. -/
def freshStdin : stdinWriter :=
  { writer := { written := [], closed := false, closeCalls := 0, readerGone := false },
    closed := false }

/-! ## The ring buffer on a heap of backing arrays -/

/-- A Go slice value `[]OutputEvent`: the backing array it points into (an
index into the heap), the offset of its first element and its length. The
slices of the ring buffer have a capacity equal to their length. -/
structure Slice where
  arr : Nat
  off : Nat
  len : Nat
deriving DecidableEq, Repr

/-- The backing arrays allocated so far. -/
abbrev Heap := List (List OutputEvent)

/-- Go: `make([]OutputEvent, n)`: a fresh array of zero values and the slice
over it. -/
def Heap.make (h : Heap) (n : Nat) : Heap × Slice :=
  (h ++ [List.replicate n OutputEvent.zero], { arr := h.length, off := 0, len := n })

/-- Go: the slice expression `s[lo:hi]`; bounds out of range panic (`none`). -/
def Slice.slice (s : Slice) (lo hi : Nat) : Option Slice :=
  if lo ≤ hi ∧ hi ≤ s.len then some { arr := s.arr, off := s.off + lo, len := hi - lo }
  else none

/-- The elements of a slice. -/
def Heap.read (h : Heap) (s : Slice) : List OutputEvent :=
  ((h.getD s.arr []).drop s.off).take s.len

/-- The heap after the elements of the backing array of `s`, from the offset
of `s` on, were overwritten with `elems`. -/
def Heap.write (h : Heap) (s : Slice) (elems : List OutputEvent) : Heap :=
  h.set s.arr
    ((h.getD s.arr []).take s.off ++ elems ++ (h.getD s.arr []).drop (s.off + elems.length))

/-- Go builtin `copy(dst, src)` on the heap: the elements of `dst` become
`copySlice` of the two contents. -/
def Heap.copy (h : Heap) (dst src : Slice) : Heap :=
  h.write dst (copySlice (h.read dst) (h.read src))

/-- Go: `type RingBuffer struct` with the field `buf` as a slice value that
points into the heap. -/
structure RingBufferObj where
  buf : Slice
  capacity : Nat
  pos : Nat
  full : Bool
deriving DecidableEq, Repr

/-- Go: `rb.ReadAll()`, statement by statement on the heap. The result is the
heap after the call, the buffer record after the call and the slice returned;
`none` is the panic of a slice expression. -/
def RingBufferObj.ReadAll (rb : RingBufferObj) (h : Heap) :
    Option (Heap × RingBufferObj × Slice) :=
  if !rb.full then
    let r := h.make rb.pos
    match rb.buf.slice 0 rb.pos with
    | none => none
    | some src => some (r.1.copy r.2 src, rb, r.2)
  else
    let r := h.make rb.capacity
    match rb.buf.slice rb.pos rb.buf.len with
    | none => none
    | some src1 =>
      let h2 := r.1.copy r.2 src1
      if rb.capacity < rb.pos then none
      else
        match r.2.slice (rb.capacity - rb.pos) r.2.len, rb.buf.slice 0 rb.pos with
        | some dst2, some src2 => some (h2.copy dst2 src2, rb, r.2)
        | _, _ => none

/-- The value of a ring buffer on the heap: the record with the contents of
its slot array. -/
def RingBufferObj.view (rb : RingBufferObj) (h : Heap) : RingBuffer :=
  { buf := h.read rb.buf, capacity := rb.capacity, pos := rb.pos, full := rb.full }

/-- A heap with one array of three slots, written four times: the slots hold
the events 4, 2, 3. -/
def demoHeap : Heap :=
  [[⟨"s1", OutputStdout, "L4", 4⟩, ⟨"s1", OutputStdout, "L2", 2⟩, ⟨"s1", OutputStdout, "L3", 3⟩]]

/-- The ring buffer of capacity 3 over the array of `demoHeap`, after four
writes: the cursor is at slot 1 and the buffer is full. -/
def demoRing : RingBufferObj :=
  { buf := { arr := 0, off := 0, len := 3 }, capacity := 3, pos := 1, full := true }

/-! ## Disconnecting a client -/

/-- Go: the loop `for sessionID, subID := range subs` of `removeClient`. -/
def Server.unsubscribeEach (s : Server) : List (String × String) → Option Server
  | [] => some s
  | (sessionID, subID) :: rest =>
    let s := { s with calls := s.calls ++ [Call.mgrUnsubscribe sessionID subID] }
    match s.sessionMgr.Unsubscribe sessionID subID with
    | none => none
    | some m1 => ({ s with sessionMgr := m1 }).unsubscribeEach rest

/-- Go: `s.removeClient(c)`: the client leaves the registry and the
subscription table, its subscriptions are cancelled, and `close(c.send)`
closes its outbound queue (closing a closed channel panics). -/
def Server.removeClient (s : Server) (c : String) : Option Server :=
  let s := { s with clients := s.clients.erase c }
  let subs := (mapGet c s.subscriptions).getD []
  let s := { s with subscriptions := mapDelete c s.subscriptions }
  match s.unsubscribeEach subs with
  | none => none
  | some s1 =>
    match mapGet c s1.clientObjs with
    | none => some s1
    | some cl =>
      (cl.send.close).map (fun ch =>
        { s1 with clientObjs := mapInsert c { cl with send := ch } s1.clientObjs })

/-- The receiver of a subscription queue that `Unsubscribe` closed takes the
oldest event that is still buffered in it (an iteration of
`for event := range ch` after the close). -/
def Manager.recvDetachedAt (m : Manager) (id subID : String) : Option (OutputEvent × Manager) :=
  match mapGet id m.sessions with
  | none => none
  | some ms =>
    match mapGet subID ms.detached with
    | none => none
    | some ch =>
      (ch.recv).map (fun r =>
        (r.1, m.setSession id { ms with detached := mapInsert subID r.2 ms.detached }))

/-- One iteration of the forwarding task of a subscription that `Unsubscribe`
cancelled: it takes the oldest event still buffered in the closed queue and
handles it; with nothing buffered the loop ends. -/
def Server.forwardStepDetached (s : Server) (env : HubEnv) (c sessionID subID : String) :
    Option Server :=
  match s.sessionMgr.recvDetachedAt sessionID subID with
  | none => some s
  | some r => ({ s with sessionMgr := r.2 }).forwardEvent env c sessionID r.1

/-- Client `c1` connects, creates session `s1` and is subscribed to it; the
subprocess prints `L1`, which the scanner writes to the ring buffer and fans
out to the subscription queue of `c1`; before the forwarding task of `c1`
takes the event, `c1` disconnects and its read task runs `removeClient`. -/
def disconnectedHub : Option Server :=
  demoHub.bind fun s0 =>
  (s0.sessionMgr.ringWrite "s1" lineL1).bind fun m1 =>
  (m1.fanOutAt "s1" lineL1).bind fun m2 =>
  ({ s0 with sessionMgr := m2 }).removeClient "c1"

/-- The fresh hub after a second client, `c2`, connected. -/
def twoClientHub : Server := (freshHub 10).addClient "c2"

/-- The hub `twoClientHub` after client `c1` disconnected: `removeClient` took
`c1` out of the registry and closed its queue; the record of `c1`, which the
tasks of `c1` still hold, stays behind with the closed queue. -/
def hubAfterDisconnect : Server :=
  { twoClientHub with
    clients := ["c2"]
    clientObjs := [("c1", { send := { items := [], cap := 256, closed := true } }),
                   ("c2", { send := Chan.make 256 })]
    subscriptions := [("c2", [])] }

/-! ## A history longer than a client queue -/

/-- The line number `i + 1` that the subprocess of session `s1` prints on
stdout. -/
def numberedLine (i : Nat) : OutputEvent :=
  { SessionID := "s1", Typ := OutputStdout, Data := "L" ++ toString (i + 1), Timestamp := 8 }

/-- Go: the scanner task writing the events of a list to the ring buffer of
session `id`, one after the other; `none` would be a panic. -/
def Manager.writeLines (m : Manager) (id : String) : List OutputEvent → Option Manager
  | [] => some m
  | e :: es => (m.ringWrite id e).bind (fun m1 => m1.writeLines id es)

/-- The first 300 lines of output of session `s1`. -/
def longHistory : List OutputEvent := (List.range 300).map numberedLine

/-- The manager after the subprocess of the active session `s1` printed 300
lines and nobody was subscribed. -/
def longHistoryManager : Manager := (demoActive.writeLines "s1" longHistory).getD demoActive

/-- The record of session `s1` in `longHistoryManager`. -/
def longHistorySession : managedSession :=
  (mapGet "s1" longHistoryManager.sessions).getD demoSubscribedSession

/-- A hub whose client `c1` is connected, with an empty outbound queue of
capacity 256, and has no subscription, over `longHistoryManager`. -/
def longHistoryHub : Server := { freshHub 1 with sessionMgr := longHistoryManager }

/-! ## A session with a full subscriber queue -/

/-- The manager `m` after `n` calls of `fanOut` with the event `e` on the
session `id`; `none` would be a panic. -/
def Manager.fanOutTimes (m : Manager) (id : String) (e : OutputEvent) : Nat → Option Manager
  | 0 => some m
  | n + 1 => (m.fanOutTimes id e n).bind (fun m1 => m1.fanOutAt id e)

/-- The session `s1` after 100 events were fanned out to the subscription of
client `c1`, which nobody drained, and client `c2` subscribed: the queue of
`c1` is full, the queue of `c2` is empty. -/
def fullQueueSession : managedSession :=
  { demoSubscribedSession with
    subscribers :=
      [("sub-c2-s1", Chan.make defaultSubscriberBufCap),
       ("sub-c1-s1", { items := List.replicate 100 demoEvent, cap := defaultSubscriberBufCap,
                       closed := false })] }

/-- The manager that holds `fullQueueSession`. -/
def fullQueueManager : Manager := { sessions := [("s1", fullQueueSession)], maxSessions := 1 }

/-! # Part II: theorems -/

/-! ## Ring buffer lemmas -/

theorem copySlice_replicate_of_le {α : Type} (z : α) (n : Nat) (src : List α)
    (h : src.length = n) : copySlice (List.replicate n z) src = src := by
  subst h
  unfold copySlice
  rw [List.length_replicate, List.take_length, List.drop_of_length_le (by simp)]
  simp

theorem RingBuffer.readAll_eq (rb : RingBuffer) (h : rb.WF) :
    rb.ReadAll = if rb.full then rb.buf.drop rb.pos ++ rb.buf.take rb.pos
      else rb.buf.take rb.pos := by
  obtain ⟨hlen, hpos⟩ := h
  unfold RingBuffer.ReadAll
  cases hf : rb.full
  · simp only [Bool.not_false, if_true, Bool.false_eq_true, if_false]
    apply copySlice_replicate_of_le
    rw [List.length_take]; omega
  · simp only [Bool.not_true, Bool.false_eq_true, if_false, if_true]
    have h2 : (rb.buf.drop rb.pos).length = rb.capacity - rb.pos := by
      rw [List.length_drop, hlen]
    have h1 : copySlice (List.replicate rb.capacity OutputEvent.zero) (rb.buf.drop rb.pos)
        = rb.buf.drop rb.pos ++ List.replicate rb.pos OutputEvent.zero := by
      unfold copySlice
      rw [List.take_of_length_le (by rw [List.length_replicate]; omega), h2,
        List.drop_replicate]
      congr 2
      omega
    rw [h1, List.take_left' h2, List.drop_left' h2, copySlice_replicate_of_le]
    rw [List.length_take]; omega

theorem lastN_append_singleton {α : Type} (k : Nat) (prev : List α) (e : α)
    (hk : 0 < k) (h : k ≤ prev.length) :
    lastN k (prev ++ [e]) = (lastN k prev).drop 1 ++ [e] := by
  unfold lastN
  rw [List.drop_drop, List.length_append, List.length_singleton,
    List.drop_append_of_le_length (by omega)]
  congr 2
  omega

theorem lastN_of_length_le {α : Type} (k : Nat) (l : List α) (h : l.length ≤ k) :
    lastN k l = l := by
  unfold lastN
  rw [Nat.sub_eq_zero_of_le h, List.drop_zero]

theorem lastN_length {α : Type} (k : Nat) (l : List α) :
    (lastN k l).length = min l.length k := by
  unfold lastN
  rw [List.length_drop]
  omega

theorem drop_succ_append_cons {α : Type} (A B : List α) (e : α) (n : Nat)
    (h : A.length = n) : (A ++ e :: B).drop (n + 1) = B := by
  subst h
  rw [List.drop_append_eq_append_drop, List.drop_of_length_le (by omega)]
  simp

theorem take_succ_append_cons {α : Type} (A B : List α) (e : α) (n : Nat)
    (h : A.length = n) : (A ++ e :: B).take (n + 1) = A ++ [e] := by
  subst h
  rw [List.take_append_eq_append_take, List.take_of_length_le (by omega)]
  simp

theorem drop_length_sub_one {α : Type} (l : List α) (e : α) (h : l.getLast? = some e) :
    l.drop (l.length - 1) = [e] := by
  rcases List.eq_nil_or_concat l with rfl | ⟨init, a, rfl⟩
  · simp at h
  · rw [List.concat_eq_append] at h ⊢
    rw [List.getLast?_append] at h
    have h1 : a = e := by simpa [Option.or] using h
    rw [List.length_append, List.length_singleton, Nat.add_sub_cancel,
      List.drop_append_of_le_length (Nat.le_refl _), List.drop_length, List.nil_append, h1]

/-- One `Write` on a buffer holding `prev` succeeds and yields a buffer holding
`prev ++ [e]`. -/
theorem RingBuffer.write_holds (rb : RingBuffer) (prev : List OutputEvent) (e : OutputEvent)
    (h : rb.Holds prev) : ∃ rb1, rb.Write e = some rb1 ∧ rb1.Holds (prev ++ [e]) := by
  obtain ⟨⟨hlen, hpos⟩, hnf, hf⟩ := h
  have hposlen : rb.pos < rb.buf.length := by omega
  have hcap : rb.capacity ≠ 0 := by omega
  have hset : rb.buf.set rb.pos e = rb.buf.take rb.pos ++ e :: rb.buf.drop (rb.pos + 1) :=
    List.set_eq_take_cons_drop e hposlen
  have hdrop : rb.buf.drop rb.pos = rb.buf[rb.pos] :: rb.buf.drop (rb.pos + 1) :=
    List.drop_eq_getElem_cons hposlen
  have hAlen : (rb.buf.take rb.pos).length = rb.pos := by
    rw [List.length_take]; omega
  refine ⟨{ buf := rb.buf.set rb.pos e, capacity := rb.capacity,
             pos := (rb.pos + 1) % rb.capacity,
             full := if (rb.pos + 1) % rb.capacity = 0 then true else rb.full },
    by simp only [RingBuffer.Write, hposlen, hcap, if_true, if_false], ?_⟩
  refine ⟨⟨by simp [hlen], Nat.mod_lt _ (by omega)⟩, ?_, ?_⟩
  · -- the result is not full: the cursor did not wrap and the buffer was not full
    intro hfull
    simp only at hfull ⊢
    have hne : (rb.pos + 1) % rb.capacity ≠ 0 := by
      intro h0; simp [h0] at hfull
    have hlt : rb.pos + 1 < rb.capacity := by
      rcases Nat.lt_or_ge (rb.pos + 1) rb.capacity with h1 | h1
      · exact h1
      · have : rb.pos + 1 = rb.capacity := by omega
        rw [this, Nat.mod_self] at hne
        exact absurd rfl hne
    have hfalse : rb.full = false := by simpa [hne] using hfull
    rw [Nat.mod_eq_of_lt hlt, hset, take_succ_append_cons _ _ _ _ hAlen, hnf hfalse]
  · intro hfull
    simp only at hfull ⊢
    have hwrap : rb.full = false → rb.pos + 1 = rb.capacity := by
      intro hfl
      have h0 : (rb.pos + 1) % rb.capacity = 0 := by
        by_contra hne
        simp [hne, hfl] at hfull
      rcases Nat.lt_or_ge (rb.pos + 1) rb.capacity with h1 | h1
      · rw [Nat.mod_eq_of_lt h1] at h0; omega
      · omega
    constructor
    · rw [List.length_append, List.length_singleton]
      cases hfl : rb.full
      · have hp : prev.length = rb.pos := by rw [← hnf hfl, hAlen]
        have := hwrap hfl
        omega
      · have := (hf hfl).1
        omega
    · rw [hset]
      cases hfl : rb.full
      · -- first wrap-around
        have hcapeq := hwrap hfl
        have hp : prev.length = rb.pos := by rw [← hnf hfl, hAlen]
        rw [hcapeq, Nat.mod_self, List.drop_zero, List.take_zero, List.append_nil,
          ← hcapeq, List.drop_of_length_le (by omega), hnf hfl,
          lastN_of_length_le _ _ (by rw [List.length_append, List.length_singleton]; omega)]
      · obtain ⟨hle, hcont⟩ := hf hfl
        rw [lastN_append_singleton _ _ _ (by omega) hle, ← hcont]
        have htail : (rb.buf.drop rb.pos ++ rb.buf.take rb.pos).drop 1
            = rb.buf.drop (rb.pos + 1) ++ rb.buf.take rb.pos := by
          rw [hdrop]; rfl
        rw [htail]
        rcases Nat.lt_or_ge (rb.pos + 1) rb.capacity with h1 | h1
        · rw [Nat.mod_eq_of_lt h1, drop_succ_append_cons _ _ _ _ hAlen,
            take_succ_append_cons _ _ _ _ hAlen, List.append_assoc]
        · have hcapeq : rb.pos + 1 = rb.capacity := by omega
          rw [hcapeq, Nat.mod_self, List.drop_zero, List.take_zero, List.append_nil,
            ← hcapeq, List.drop_of_length_le (by omega), List.nil_append]

/-- Any sequence of writes on a buffer holding `prev` succeeds and yields a
buffer holding `prev` followed by the written events. -/
theorem RingBuffer.writeAll_holds (evs : List OutputEvent) :
    ∀ (rb : RingBuffer) (prev : List OutputEvent), rb.Holds prev →
      ∃ rb1, rb.writeAll evs = some rb1 ∧ rb1.Holds (prev ++ evs) := by
  induction evs with
  | nil => intro rb prev h; exact ⟨rb, rfl, by simpa using h⟩
  | cons e es ih =>
    intro rb prev h
    obtain ⟨rb1, hw, h1⟩ := rb.write_holds prev e h
    obtain ⟨rb2, hw2, h2⟩ := ih rb1 (prev ++ [e]) h1
    exact ⟨rb2, by simp [RingBuffer.writeAll, hw, hw2], by simpa using h2⟩

theorem NewRingBuffer_holds (C : Nat) (hC : 0 < C) : (NewRingBuffer C).Holds [] := by
  refine ⟨⟨by simp [NewRingBuffer], by simpa [NewRingBuffer] using hC⟩, ?_, ?_⟩
  · intro _; simp [NewRingBuffer]
  · intro h; simp [NewRingBuffer] at h

theorem RingBuffer.readAll_of_holds (rb : RingBuffer) (prev : List OutputEvent)
    (h : rb.Holds prev) : rb.ReadAll = lastN (min prev.length rb.capacity) prev := by
  rw [rb.readAll_eq h.1]
  obtain ⟨⟨hlen, hpos⟩, hnf, hf⟩ := h
  cases hfl : rb.full
  · have hp := hnf hfl
    have : prev.length = rb.pos := by rw [← hp, List.length_take]; omega
    simp only [Bool.false_eq_true, if_false]
    rw [hp, lastN_of_length_le _ _ (by omega)]
  · obtain ⟨hle, hc⟩ := hf hfl
    simp only [if_true]
    rw [hc, Nat.min_eq_right hle]

/-! ## Map lemmas -/

theorem mem_mapDelete {β : Type} (k : String) (m : List (String × β)) (p : String × β)
    (h : p ∈ mapDelete k m) : p ∈ m :=
  (List.mem_filter.mp h).1

theorem mem_mapInsert {β : Type} (k : String) (v : β) (m : List (String × β))
    (p : String × β) (h : p ∈ mapInsert k v m) : p = (k, v) ∨ p ∈ m := by
  rcases List.mem_cons.mp h with h1 | h1
  · exact Or.inl h1
  · exact Or.inr (mem_mapDelete k m p h1)

theorem mem_of_mapGet {β : Type} (k : String) (m : List (String × β)) (v : β)
    (h : mapGet k m = some v) : (k, v) ∈ m := by
  unfold mapGet at h
  cases hf : m.find? (fun p => p.1 == k) with
  | none => rw [hf] at h; simp at h
  | some q =>
    rw [hf] at h
    simp only [Option.map_some', Option.some.injEq] at h
    have hk : q.1 = k := by simpa using List.find?_some hf
    have hq : q = (k, v) := by rw [← hk, ← h]
    rw [← hq]
    exact List.mem_of_find?_eq_some hf

theorem mapGet_mapInsert_self {β : Type} (k : String) (v : β) (m : List (String × β)) :
    mapGet k (mapInsert k v m) = some v := by
  simp [mapGet, mapInsert]

theorem countP_mapDelete_le {β : Type} (P : String × β → Bool) (k : String)
    (m : List (String × β)) : (mapDelete k m).countP P ≤ m.countP P :=
  List.Sublist.countP_le _ (List.filter_sublist m)

theorem countP_mapDelete_succ_le {β : Type} (P : String × β → Bool) (k : String)
    (m : List (String × β)) (v : β) (hv : (k, v) ∈ m) (hP : P (k, v) = true) :
    (mapDelete k m).countP P + 1 ≤ m.countP P := by
  induction m with
  | nil => simp at hv
  | cons q rest ih =>
    rcases List.mem_cons.mp hv with h1 | h1
    · subst h1
      have hdel : mapDelete k ((k, v) :: rest) = mapDelete k rest := by
        simp [mapDelete]
      rw [hdel, List.countP_cons_of_pos _ _ hP]
      exact Nat.succ_le_succ (countP_mapDelete_le P k rest)
    · have ih1 := ih h1
      by_cases hq : q.1 = k
      · have hdel : mapDelete k (q :: rest) = mapDelete k rest := by
          simp [mapDelete, hq]
        rw [hdel, List.countP_cons]
        omega
      · have hdel : mapDelete k (q :: rest) = q :: mapDelete k rest := by
          simp [mapDelete, hq]
        rw [hdel, List.countP_cons, List.countP_cons]
        omega

theorem Manager.activeCount_eq (m : Manager) : m.activeCount = m.sessions.countP isActive := rfl

/-! ## Preservation of the manager invariant -/

/-- Writing back a session whose mutation keeps `OK` and does not turn a
terminated session into a non-terminated one preserves the invariant. -/
theorem Manager.Inv.setSession {maxSessions : Int} {m : Manager} (h : m.Inv maxSessions)
    (id : String) (ms ms1 : managedSession) (hget : mapGet id m.sessions = some ms)
    (hok : ms1.OK)
    (hact : ms1.Session.State ≠ StateTerminated → ms.Session.State ≠ StateTerminated) :
    (m.setSession id ms1).Inv maxSessions := by
  obtain ⟨hmax, hcount, hall⟩ := h
  have hmem := mem_of_mapGet id m.sessions ms hget
  refine ⟨hmax, ?_, ?_⟩
  · have hle : (m.setSession id ms1).activeCount ≤ m.activeCount := by
      rw [Manager.activeCount_eq, Manager.activeCount_eq]
      show (mapInsert id ms1 m.sessions).countP isActive ≤ _
      unfold mapInsert
      rw [List.countP_cons]
      by_cases ha : ms1.Session.State = StateTerminated
      · have : isActive (id, ms1) = false := by simp [isActive, ha]
        simp only [this, Bool.false_eq_true, if_false, Nat.add_zero]
        exact countP_mapDelete_le _ _ _
      · have h1 : isActive (id, ms1) = true := by simp [isActive, ha]
        have h2 : isActive (id, ms) = true := by simpa [isActive] using hact ha
        simp only [h1, if_true]
        exact countP_mapDelete_succ_le _ _ _ ms hmem h2
    have : ((m.setSession id ms1).activeCount : Int) ≤ (m.activeCount : Int) := by
      exact_mod_cast hle
    omega
  · intro p hp
    rcases mem_mapInsert id ms1 m.sessions p hp with h1 | h1
    · rw [h1]; exact hok
    · exact hall p h1

theorem NewManager_inv (maxSessions : Int) (h : 0 ≤ maxSessions) :
    (NewManager maxSessions).Inv maxSessions := by
  refine ⟨rfl, ?_, ?_⟩
  · simpa [NewManager, Manager.activeCount] using h
  · intro p hp; simp [NewManager] at hp

theorem NewRingBuffer_wf (C : Nat) (hC : 0 < C) : (NewRingBuffer C).WF :=
  ⟨by simp [NewRingBuffer], by simpa [NewRingBuffer] using hC⟩

theorem RingBuffer.write_wf (rb rb1 : RingBuffer) (e : OutputEvent) (h : rb.WF)
    (hw : rb.Write e = some rb1) : rb1.WF := by
  obtain ⟨hlen, hpos⟩ := h
  unfold RingBuffer.Write at hw
  split at hw
  · split at hw
    · simp at hw
    · simp only [Option.some.injEq] at hw
      rw [← hw]
      exact ⟨by simp [hlen], Nat.mod_lt _ (by omega)⟩
  · simp at hw

theorem RingBuffer.write_isSome (rb : RingBuffer) (e : OutputEvent) (h : rb.WF) :
    ∃ rb1, rb.Write e = some rb1 := by
  obtain ⟨hlen, hpos⟩ := h
  have h1 : rb.pos < rb.buf.length := by omega
  have h2 : rb.capacity ≠ 0 := by omega
  simp only [RingBuffer.Write, h1, h2, if_true, if_false]
  exact ⟨_, rfl⟩

/-! ## Fan-out lemmas -/

/-- On open queues the loop of `fanOut` succeeds, keeps every subscription id
in place, appends to the queues with room and leaves the full ones alone. -/
theorem sendAll_spec (e : OutputEvent) (subs : List (String × Chan OutputEvent))
    (hopen : ∀ p ∈ subs, p.2.closed = false) :
    sendAll e subs = some (subs.map (fun p =>
      (p.1, if p.2.items.length < p.2.cap then { p.2 with items := p.2.items ++ [e] }
            else p.2))) := by
  induction subs with
  | nil => rfl
  | cons q rest ih =>
    obtain ⟨subID, ch⟩ := q
    have hq : ch.closed = false := hopen (subID, ch) (List.mem_cons_self _ _)
    have hrest := ih (fun p hp => hopen p (List.mem_cons_of_mem _ hp))
    by_cases hlt : ch.items.length < ch.cap
    · simp only [sendAll, Chan.trySend, hq, Bool.false_eq_true, if_false, hlt, if_true, hrest,
        List.map_cons]
    · simp only [sendAll, Chan.trySend, hq, Bool.false_eq_true, if_false, hlt, hrest,
        List.map_cons]

theorem chanOK_deliver (e : OutputEvent) (ch : Chan OutputEvent) (h : chanOK ch) :
    chanOK (if ch.items.length < ch.cap then { ch with items := ch.items ++ [e] } else ch) := by
  obtain ⟨hc, hcap, hlen⟩ := h
  split
  · rename_i hlt
    refine ⟨hc, hcap, ?_⟩
    simp only [List.length_append, List.length_singleton]
    rw [hcap] at hlt
    omega
  · exact ⟨hc, hcap, hlen⟩

theorem fanOut_ok (ms ms1 : managedSession) (e : OutputEvent) (h : ms.OK)
    (hf : fanOut ms e = some ms1) :
    ms1.OK ∧ ms1.Session = ms.Session := by
  unfold fanOut at hf
  rw [sendAll_spec e ms.subscribers (fun p hp => (h.2 p hp).1)] at hf
  simp only [Option.map_some', Option.some.injEq] at hf
  subst hf
  refine ⟨⟨h.1, ?_⟩, rfl⟩
  intro p hp
  simp only [List.mem_map] at hp
  obtain ⟨q, hq, rfl⟩ := hp
  exact chanOK_deliver e q.2 (h.2 q hq)

/-! ## Every step preserves the invariant -/

theorem Manager.Inv.get {maxSessions : Int} {m : Manager} (h : m.Inv maxSessions)
    (id : String) (ms : managedSession) (hget : mapGet id m.sessions = some ms) : ms.OK :=
  h.2.2 (id, ms) (mem_of_mapGet id m.sessions ms hget)

/-- Inserting a session that is `OK` below the session limit preserves the
invariant. -/
theorem Manager.Inv.insertNew {maxSessions : Int} {m : Manager} (h : m.Inv maxSessions)
    (id : String) (ms : managedSession) (hlim : (m.activeCount : Int) < maxSessions)
    (hok : ms.OK) : (m.setSession id ms).Inv maxSessions := by
  obtain ⟨hmax, _, hall⟩ := h
  refine ⟨hmax, ?_, ?_⟩
  · have hle : (m.setSession id ms).activeCount ≤ m.activeCount + 1 := by
      rw [Manager.activeCount, Manager.activeCount]
      show (mapInsert id ms m.sessions).countP isActive ≤ _
      unfold mapInsert
      rw [List.countP_cons]
      have := countP_mapDelete_le isActive id m.sessions
      split <;> omega
    have : ((m.setSession id ms).activeCount : Int) ≤ (m.activeCount : Int) + 1 := by
      exact_mod_cast hle
    omega
  · intro p hp
    rcases mem_mapInsert _ _ m.sessions p hp with h1 | h1
    · rw [h1]; exact hok
    · exact hall p h1

theorem Manager.Inv.ringWrite {maxSessions : Int} {m m1 : Manager} (h : m.Inv maxSessions)
    (id : String) (e : OutputEvent) (hw : m.ringWrite id e = some m1) :
    m1.Inv maxSessions := by
  unfold Manager.ringWrite at hw
  cases hget : mapGet id m.sessions with
  | none => simp only [hget, Option.some.injEq] at hw; rw [← hw]; exact h
  | some ms =>
    simp only [hget] at hw
    cases hwr : ms.ringBuf.Write e with
    | none => simp [hwr] at hw
    | some rb =>
      simp only [hwr, Option.map_some', Option.some.injEq] at hw
      rw [← hw]
      have hok := h.get id ms hget
      exact h.setSession id ms _ hget ⟨RingBuffer.write_wf _ _ e hok.1 hwr, hok.2⟩ (fun x => x)

theorem Manager.Inv.createLocked {maxSessions : Int} {m m1 : Manager} (h : m.Inv maxSessions)
    (env : CreateEnv) (workDir label id : String)
    (hc : m.createLocked env workDir label = .ok (m1, id)) : m1.Inv maxSessions := by
  have hmax := h.1
  unfold Manager.createLocked at hc
  split at hc
  · cases hc
  · cases hc
  · split at hc
    · cases hc
    · rename_i hlim
      split at hc
      · cases hc
      · simp only at hc
        split at hc
        · cases hc
        · split at hc
          · cases hc
          · split at hc
            · cases hc
            · simp only [Except.ok.injEq, Prod.mk.injEq] at hc
              obtain ⟨hm1, _⟩ := hc
              rw [← hm1]
              apply h.insertNew
              · rw [hmax] at hlim; omega
              · exact ⟨NewRingBuffer_wf _ (by decide), by intro q hq; simp at hq⟩

theorem Manager.Inv.createStart {maxSessions : Int} {m : Manager} (h : m.Inv maxSessions)
    (id : String) (ms : managedSession) (startErr : Option String)
    (hget : mapGet id m.sessions = some ms) (_hs : ms.Session.State = StateCreating) :
    (m.createStart id startErr).1.Inv maxSessions := by
  unfold Manager.createStart
  cases startErr with
  | some e =>
    simp only
    refine ⟨h.1, ?_, ?_⟩
    · have hle : (mapDelete id m.sessions).countP isActive ≤ m.activeCount :=
        countP_mapDelete_le _ _ _
      have h2 := h.2.1
      have : (((mapDelete id m.sessions).countP isActive : Nat) : Int) ≤ (m.activeCount : Int) := by
        exact_mod_cast hle
      show (((mapDelete id m.sessions).countP isActive : Nat) : Int) ≤ maxSessions
      omega
    · intro p hp
      exact h.2.2 p (mem_mapDelete id m.sessions p hp)
  | none =>
    simp only [hget]
    have hok := h.get id ms hget
    exact h.setSession id ms _ hget ⟨hok.1, hok.2⟩
      (fun _ => by rw [_hs]; decide)

theorem Manager.Step.preserves_inv {maxSessions : Int} {m m1 : Manager} (hs : Manager.Step m m1)
    (h : m.Inv maxSessions) : m1.Inv maxSessions := by
  cases hs with
  | createLocked _ env workDir label id hc => exact h.createLocked env workDir label id hc
  | createStart id ms startErr hget hst => exact h.createStart id ms startErr hget hst
  | scanWrite _ id ms stream line now hget _ _ hw => exact h.ringWrite id _ hw
  | reaperWrite _ id ms code now hget _ hw => exact h.ringWrite id _ hw
  | fanOut _ id e hf =>
    unfold Manager.fanOutAt at hf
    cases hget : mapGet id m.sessions with
    | none => rw [hget] at hf; simp only [Option.some.injEq] at hf; rw [← hf]; exact h
    | some ms =>
      rw [hget] at hf
      simp only at hf
      cases hfo : ClaudePunk.fanOut ms e with
      | none => rw [hfo] at hf; simp at hf
      | some ms1 =>
        rw [hfo] at hf
        simp only [Option.map_some', Option.some.injEq] at hf
        rw [← hf]
        obtain ⟨hok1, hsess⟩ := fanOut_ok ms ms1 e (h.get id ms hget) hfo
        exact h.setSession id ms ms1 hget hok1 (by rw [hsess]; exact fun x => x)
  | reaperCloseStdin id ms hget _ =>
    unfold Manager.reaperCloseStdin
    simp only [hget]
    have hok := h.get id ms hget
    exact h.setSession id ms _ hget ⟨hok.1, hok.2⟩ (fun x => x)
  | reaperSetTerminated id ms hget _ =>
    unfold Manager.reaperSetTerminated
    simp only [hget]
    have hok := h.get id ms hget
    exact h.setSession id ms _ hget ⟨hok.1, hok.2⟩ (fun x => absurd rfl x)
  | sendPrompt id prompt =>
    unfold Manager.SendPrompt
    cases hget : mapGet id m.sessions with
    | none => exact h
    | some ms =>
      simp only
      have hok := h.get id ms hget
      split
      · exact h
      · exact h.setSession id ms _ hget ⟨hok.1, hok.2⟩ (fun x => x)
  | kill id =>
    unfold Manager.Kill
    cases hget : mapGet id m.sessions with
    | none => exact h
    | some ms =>
      simp only
      have hok := h.get id ms hget
      split
      · exact h
      · split
        · exact h.setSession id ms _ hget ⟨hok.1, hok.2⟩ (fun x => x)
        · exact h
  | subscribe id subID =>
    unfold Manager.Subscribe Manager.subscribeSnapshot Manager.subscribeRegister
    cases hget : mapGet id m.sessions with
    | none => exact h
    | some ms =>
      simp only
      have hok := h.get id ms hget
      refine h.setSession id ms _ hget ⟨hok.1, ?_⟩ (fun x => x)
      intro p hp
      rcases mem_mapInsert _ _ _ p hp with h1 | h1
      · rw [h1]; exact ⟨rfl, rfl, by simp [Chan.make]⟩
      · exact hok.2 p h1
  | unsubscribe _ id subID hu =>
    unfold Manager.Unsubscribe at hu
    cases hget : mapGet id m.sessions with
    | none => rw [hget] at hu; simp only [Option.some.injEq] at hu; rw [← hu]; exact h
    | some ms =>
      rw [hget] at hu
      simp only at hu
      cases hsub : mapGet subID ms.subscribers with
      | none => rw [hsub] at hu; simp only [Option.some.injEq] at hu; rw [← hu]; exact h
      | some ch =>
        rw [hsub] at hu
        simp only at hu
        cases hcl : ch.close with
        | none => rw [hcl] at hu; simp at hu
        | some ch1 =>
          rw [hcl] at hu
          simp only [Option.map_some', Option.some.injEq] at hu
          rw [← hu]
          have hok := h.get id ms hget
          exact h.setSession id ms _ hget
            ⟨hok.1, fun p hp => hok.2 p (mem_mapDelete _ _ p hp)⟩ (fun x => x)
  | recv _ id subID e hr =>
    unfold Manager.recvAt at hr
    cases hget : mapGet id m.sessions with
    | none => rw [hget] at hr; simp at hr
    | some ms =>
      rw [hget] at hr
      simp only at hr
      cases hsub : mapGet subID ms.subscribers with
      | none => rw [hsub] at hr; simp at hr
      | some ch =>
        rw [hsub] at hr
        simp only at hr
        cases hrc : ch.recv with
        | none => rw [hrc] at hr; simp at hr
        | some r =>
          rw [hrc] at hr
          simp only [Option.map_some', Option.some.injEq, Prod.mk.injEq] at hr
          rw [← hr.2]
          have hok := h.get id ms hget
          have hch := hok.2 (subID, ch) (mem_of_mapGet _ _ _ hsub)
          refine h.setSession id ms _ hget ⟨hok.1, ?_⟩ (fun x => x)
          intro p hp
          rcases mem_mapInsert _ _ _ p hp with h1 | h1
          · rw [h1]
            unfold Chan.recv at hrc
            split at hrc
            · simp at hrc
            · rename_i v rest hitems
              simp only [Option.some.injEq] at hrc
              rw [← hrc]
              obtain ⟨hc, hcap, hlen⟩ := hch
              refine ⟨hc, hcap, ?_⟩
              simp only
              rw [hitems] at hlen
              simp only [List.length_cons] at hlen
              omega
          · exact hok.2 p h1

theorem Manager.Reachable.holds_inv {maxSessions : Int} {m : Manager} (h0 : 0 ≤ maxSessions)
    (hr : Manager.Reachable maxSessions m) : m.Inv maxSessions := by
  induction hr with
  | init => exact NewManager_inv maxSessions h0
  | step m m1 _ hs ih => exact hs.preserves_inv ih

/-! ## Concrete scenarios are reachable -/

theorem demoLocked_reachable : Manager.Reachable 1 demoLocked :=
  .step _ _ .init (.createLocked _ _ demoEnv "/work" "demo" "s1" rfl)

theorem demoActive_reachable : Manager.Reachable 1 demoActive :=
  .step _ _ demoLocked_reachable
    (.createStart demoLocked "s1" _ none (mapGet_mapInsert_self _ _ _) rfl)

theorem demoSubscribed_reachable : Manager.Reachable 1 demoSubscribed :=
  .step _ _ demoActive_reachable (.subscribe demoActive "s1" "sub-c1-s1")

theorem closingManager_reachable : Manager.Reachable 1 closingManager :=
  .step _ _ demoSubscribed_reachable
    (.reaperCloseStdin demoSubscribed "s1" _ (by rfl) (by rfl))

theorem Manager.fanOutTimes_reachable (k : Int) (m : Manager) (id : String) (e : OutputEvent)
    (hr : Manager.Reachable k m) :
    ∀ n m1, m.fanOutTimes id e n = some m1 → Manager.Reachable k m1 := by
  intro n
  induction n with
  | zero =>
    intro m1 h
    simp only [Manager.fanOutTimes, Option.some.injEq] at h
    exact h ▸ hr
  | succ n ih =>
    intro m1 h
    simp only [Manager.fanOutTimes] at h
    cases h0 : m.fanOutTimes id e n with
    | none => rw [h0] at h; cases h
    | some m0 =>
      rw [h0] at h
      exact .step _ _ (ih m0 h0) (.fanOut m0 m1 id e h)

set_option maxRecDepth 100000 in
/-- The manager `fullQueueManager` is the demo manager after client `c1`
subscribed, 100 events were fanned out and client `c2` subscribed. -/
theorem fullQueueManager_eq :
    (demoSubscribed.fanOutTimes "s1" demoEvent 100).map
      (fun m => (m.Subscribe "s1" "sub-c2-s1").1) = some fullQueueManager := by
  rfl

theorem fullQueueManager_reachable : Manager.Reachable 1 fullQueueManager := by
  have h := fullQueueManager_eq
  cases h0 : demoSubscribed.fanOutTimes "s1" demoEvent 100 with
  | none => rw [h0] at h; cases h
  | some m0 =>
    rw [h0] at h
    simp only [Option.map_some', Option.some.injEq] at h
    rw [← h]
    exact .step _ _ (Manager.fanOutTimes_reachable 1 _ "s1" demoEvent demoSubscribed_reachable
      100 m0 h0) (.subscribe m0 "s1" "sub-c2-s1")

/-! ## Ring buffer: claim C1 -/

/-- C1: for every capacity `C > 0` and every sequence `evs` of events written
with `Write` to `NewRingBuffer C`, all writes succeed and `ReadAll` returns
exactly `min N C` events, namely the last `min N C` events written, oldest
first; an unwritten buffer reads as empty and a buffer of capacity 1 with at
least one write reads as exactly the last event written. -/
theorem ringBuffer_readAll_last_writes (C : Nat) (hC : 0 < C) (evs : List OutputEvent) :
    ∃ rb, (NewRingBuffer C).writeAll evs = some rb ∧
      rb.ReadAll.length = min evs.length C ∧
      rb.ReadAll = evs.drop (evs.length - min evs.length C) ∧
      (evs = [] → rb.ReadAll = []) ∧
      (C = 1 → ∀ e, evs.getLast? = some e → rb.ReadAll = [e]) := by
  obtain ⟨rb, hw, hh⟩ := RingBuffer.writeAll_holds evs (NewRingBuffer C) [] (NewRingBuffer_holds C hC)
  rw [List.nil_append] at hh
  have hcap : rb.capacity = C := by
    have key : ∀ (es : List OutputEvent) (r r1 : RingBuffer), r.writeAll es = some r1 →
        r1.capacity = r.capacity := by
      intro es
      induction es with
      | nil => intro r r1 h; simp [RingBuffer.writeAll] at h; rw [h]
      | cons a as ih =>
        intro r r1 h
        simp only [RingBuffer.writeAll] at h
        cases hwa : r.Write a with
        | none => rw [hwa] at h; simp at h
        | some r2 =>
          rw [hwa] at h
          have h2 := ih r2 r1 h
          unfold RingBuffer.Write at hwa
          split at hwa
          · split at hwa
            · simp at hwa
            · simp only [Option.some.injEq] at hwa
              rw [h2, ← hwa]
          · simp at hwa
    simpa [NewRingBuffer] using key evs (NewRingBuffer C) rb hw
  have hread : rb.ReadAll = evs.drop (evs.length - min evs.length C) := by
    rw [rb.readAll_of_holds evs hh, hcap]; rfl
  refine ⟨rb, hw, ?_, hread, ?_, ?_⟩
  · rw [hread, List.length_drop]; omega
  · intro hnil; rw [hread, hnil]; simp
  · intro hC1 e he
    rw [hread, hC1]
    have hne : evs ≠ [] := by intro h; rw [h] at he; simp at he
    have hlen : 0 < evs.length := List.length_pos.mpr hne
    have hmin : min evs.length 1 = 1 := by omega
    rw [hmin]
    exact drop_length_sub_one evs e he

/-- C1 at the overflow scenario of the test suite: capacity 5, eight writes. -/
theorem ringBuffer_readAll_last_writes_witness :
    0 < 5 ∧ ∃ rb, (NewRingBuffer 5).writeAll
        ((List.range 8).map (fun i => OutputEvent.mk "test" OutputStdout "line" i)) = some rb ∧
      rb.ReadAll.length = min ((List.range 8).map
        (fun i => OutputEvent.mk "test" OutputStdout "line" i)).length 5 :=
  ⟨by decide,
    (ringBuffer_readAll_last_writes 5 (by decide)
      ((List.range 8).map (fun i => OutputEvent.mk "test" OutputStdout "line" i))).imp
      (fun _ h => ⟨h.1, h.2.1⟩)⟩

/-! ## Validation lemmas -/

theorem stringField_skip (f k : String) (x : JSON) (pre post : List (String × JSON))
    (hk : keyMatches f k = false) :
    stringField f (pre ++ (k, x) :: post) = stringField f (pre ++ post) := by
  simp [stringField, List.foldl_append, hk]

theorem stringFieldError_skip (f k : String) (x : JSON) (pre post : List (String × JSON))
    (hk : keyMatches f k = false) :
    stringFieldError f (pre ++ (k, x) :: post) = stringFieldError f (pre ++ post) := by
  simp [stringFieldError, hk]

theorem rawField_skip (f k : String) (x : JSON) (pre post : List (String × JSON))
    (hk : keyMatches f k = false) :
    rawField f (pre ++ (k, x) :: post) = rawField f (pre ++ post) := by
  simp [rawField, List.foldl_append, hk]

theorem timeField_skip (parseTime : String → Option Nat) (f k : String) (x : JSON)
    (pre post : List (String × JSON)) (hk : keyMatches f k = false) :
    timeField parseTime f (pre ++ (k, x) :: post) = timeField parseTime f (pre ++ post) := by
  simp [timeField, List.foldl_append, hk]

theorem timeFieldError_skip (parseTime : String → Option Nat) (f k : String) (x : JSON)
    (pre post : List (String × JSON)) (hk : keyMatches f k = false) :
    timeFieldError parseTime f (pre ++ (k, x) :: post)
      = timeFieldError parseTime f (pre ++ post) := by
  simp [timeFieldError, hk]

theorem specPayloadOK_deep (t : String) (payload : JSON)
    (hd : maxNestingDepth < payload.depth) : specPayloadOK t payload = false := by
  have : ¬ payload.depth ≤ maxNestingDepth := by omega
  simp only [specPayloadOK, this, decide_False, Bool.false_and]

theorem specPayloadOK_shallow (t : String) (payload : JSON) :
    ¬ maxNestingDepth < payload.depth →
    specPayloadOK t payload
      = (match payload with
         | .obj members =>
           (specPayloadFields t).all (fun f => !stringFieldError f members) &&
           (specRequiredFields t).all (fun f => stringField f members != "")
         | _ => false) := by
  intro hd
  have : payload.depth ≤ maxNestingDepth := by omega
  simp only [specPayloadOK, this, decide_True, Bool.true_and]

theorem validatePayload_create (payload : JSON) :
    (validatePayload TypeSessionCreate payload).isNone
      = specPayloadOK TypeSessionCreate payload := by
  by_cases hd : maxNestingDepth < payload.depth
  · rw [specPayloadOK_deep _ _ hd]
    simp only [validatePayload, unmarshalSessionCreatePayload, hd, ↓reduceIte]
    rfl
  · rw [specPayloadOK_shallow _ _ hd]
    cases payload with
    | obj pm =>
      simp only [validatePayload, unmarshalSessionCreatePayload, hd,
        specPayloadFields, specRequiredFields, ↓reduceIte, List.all_cons, List.all_nil,
        Bool.and_true]
      generalize stringFieldError "workDir" pm = e1
      generalize stringFieldError "label" pm = e2
      by_cases hW : stringField "workDir" pm = ""
      · cases e1 <;> cases e2 <;> simp [hW]
      · cases e1 <;> cases e2 <;> simp [hW]
    | null => simp only [validatePayload, unmarshalSessionCreatePayload, hd, ↓reduceIte]; rfl
    | bool b => simp only [validatePayload, unmarshalSessionCreatePayload, hd, ↓reduceIte]; rfl
    | num lit => simp only [validatePayload, unmarshalSessionCreatePayload, hd, ↓reduceIte]; rfl
    | str z => simp only [validatePayload, unmarshalSessionCreatePayload, hd, ↓reduceIte]; rfl
    | strEsc raw z =>
      simp only [validatePayload, unmarshalSessionCreatePayload, hd, ↓reduceIte]; rfl
    | arr items =>
      simp only [validatePayload, unmarshalSessionCreatePayload, hd, ↓reduceIte]; rfl

theorem validatePayload_prompt (payload : JSON) :
    (validatePayload TypeSessionPrompt payload).isNone
      = specPayloadOK TypeSessionPrompt payload := by
  have h21 : TypeSessionPrompt ≠ TypeSessionCreate := by decide
  by_cases hd : maxNestingDepth < payload.depth
  · rw [specPayloadOK_deep _ _ hd]
    simp only [validatePayload, unmarshalSessionPromptPayload, hd, h21, ↓reduceIte]
    rfl
  · rw [specPayloadOK_shallow _ _ hd]
    cases payload with
    | obj pm =>
      simp only [validatePayload, unmarshalSessionPromptPayload, hd,
        specPayloadFields, specRequiredFields, h21, ↓reduceIte, List.all_cons, List.all_nil,
        Bool.and_true]
      generalize stringFieldError "sessionId" pm = e1
      generalize stringFieldError "prompt" pm = e2
      by_cases hS : stringField "sessionId" pm = "" <;>
        by_cases hP : stringField "prompt" pm = "" <;>
        cases e1 <;> cases e2 <;> simp [hS, hP]
    | null =>
      simp only [validatePayload, unmarshalSessionPromptPayload, hd, h21, ↓reduceIte]; rfl
    | bool b =>
      simp only [validatePayload, unmarshalSessionPromptPayload, hd, h21, ↓reduceIte]; rfl
    | num lit =>
      simp only [validatePayload, unmarshalSessionPromptPayload, hd, h21, ↓reduceIte]; rfl
    | str z =>
      simp only [validatePayload, unmarshalSessionPromptPayload, hd, h21, ↓reduceIte]; rfl
    | strEsc raw z =>
      simp only [validatePayload, unmarshalSessionPromptPayload, hd, h21, ↓reduceIte]; rfl
    | arr items =>
      simp only [validatePayload, unmarshalSessionPromptPayload, hd, h21, ↓reduceIte]; rfl

theorem validatePayload_sessionID (t : String) (h1 : t ≠ TypeSessionCreate)
    (h2 : t ≠ TypeSessionPrompt)
    (h3 : t = TypeSessionKill ∨ t = TypeFilesRequestTree ∨ t = TypeClaudeRequestConfig)
    (payload : JSON) :
    (validatePayload t payload).isNone = specPayloadOK t payload := by
  have hbody : (validatePayload t payload) =
      (match unmarshalSessionIDPayload payload with
       | .error e => some ("invalid payload for " ++ t ++ ": " ++ e)
       | .ok p =>
         if p.SessionID = "" then
           some ("missing required field 'sessionId' in " ++ t ++ " payload")
         else none) := by
    unfold validatePayload
    rw [if_neg h1, if_neg h2]
    by_cases hk : t = TypeSessionKill
    · rw [if_pos hk]
    · rw [if_neg hk, if_pos (by rcases h3 with h | h | h
                                · exact absurd h hk
                                · exact Or.inl h
                                · exact Or.inr h)]
  rw [hbody]
  by_cases hd : maxNestingDepth < payload.depth
  · rw [specPayloadOK_deep _ _ hd]
    simp only [unmarshalSessionIDPayload, hd, ↓reduceIte]
    rfl
  · rw [specPayloadOK_shallow _ _ hd]
    cases payload with
    | obj pm =>
      simp only [unmarshalSessionIDPayload, hd, specPayloadFields,
        specRequiredFields, h1, h2, ↓reduceIte, List.all_cons, List.all_nil, Bool.and_true]
      generalize stringFieldError "sessionId" pm = e1
      by_cases hS : stringField "sessionId" pm = "" <;> cases e1 <;> simp [hS]
    | null => simp only [unmarshalSessionIDPayload, hd, ↓reduceIte]; rfl
    | bool b => simp only [unmarshalSessionIDPayload, hd, ↓reduceIte]; rfl
    | num lit => simp only [unmarshalSessionIDPayload, hd, ↓reduceIte]; rfl
    | str z => simp only [unmarshalSessionIDPayload, hd, ↓reduceIte]; rfl
    | strEsc raw z => simp only [unmarshalSessionIDPayload, hd, ↓reduceIte]; rfl
    | arr items => simp only [unmarshalSessionIDPayload, hd, ↓reduceIte]; rfl

/-- On each of the five client types the payload switch passes exactly the
payloads described by `specPayloadOK`. -/
theorem validatePayload_isNone (t : String) (ht : t ∈ validClientTypes) (payload : JSON) :
    (validatePayload t payload).isNone = specPayloadOK t payload := by
  simp only [validClientTypes, List.mem_cons, List.mem_singleton, List.not_mem_nil,
    or_false] at ht
  rcases ht with rfl | rfl | rfl | rfl | rfl
  · exact validatePayload_create payload
  · exact validatePayload_prompt payload
  · exact validatePayload_sessionID _ (by decide) (by decide) (Or.inl rfl) payload
  · exact validatePayload_sessionID _ (by decide) (by decide) (Or.inr (Or.inl rfl)) payload
  · exact validatePayload_sessionID _ (by decide) (by decide) (Or.inr (Or.inr rfl)) payload

/-- `ValidateClientMessage` accepts a well-formed frame exactly when
`specAccepts` holds, and then returns the decoded type tag and payload. -/
theorem validate_obj (parseTime : String → Option Nat) (members : List (String × JSON)) :
    (ValidateClientMessage parseTime (.json (.obj members))).isOk
        = specAccepts parseTime (.obj members) ∧
    ∀ msg, ValidateClientMessage parseTime (.json (.obj members)) = .ok msg →
      msg.Typ = stringField "type" members ∧ msg.Payload = rawField "payload" members := by
  by_cases hd : maxNestingDepth < (JSON.obj members).depth
  · have hle : ¬ (JSON.obj members).depth ≤ maxNestingDepth := by omega
    simp only [ValidateClientMessage, unmarshalMessage, specAccepts, hd, hle, ↓reduceIte,
      decide_False, Bool.false_and]
    exact ⟨rfl, fun msg h => by cases h⟩
  have hle : (JSON.obj members).depth ≤ maxNestingDepth := by omega
  simp only [ValidateClientMessage, unmarshalMessage, specAccepts, hd, hle, ↓reduceIte,
    decide_True, Bool.true_and]
  cases hte : timeFieldError parseTime "timestamp" members
  · cases hse : stringFieldError "type" members
    · simp only [Bool.false_eq_true, if_false, Bool.not_false, Bool.true_and]
      by_cases hT : stringField "type" members = ""
      · have hc : validClientTypes.contains (stringField "type" members) = false := by
          rw [hT]; decide
        simp only [hT, if_true, hc, Bool.false_and]
        exact ⟨rfl, fun msg h => by cases h⟩
      · simp only [hT, if_false]
        cases hc : validClientTypes.contains (stringField "type" members)
        · simp only [Bool.not_false, if_true, Bool.false_and]
          exact ⟨rfl, fun msg h => by cases h⟩
        · simp only [Bool.not_true, Bool.false_eq_true, if_false, Bool.true_and]
          have hmem : stringField "type" members ∈ validClientTypes := by
            simpa using hc
          cases hP : rawField "payload" members with
          | none => exact ⟨rfl, fun msg h => by cases h⟩
          | some payload =>
            simp only
            have hv := validatePayload_isNone _ hmem payload
            cases hvp : validatePayload (stringField "type" members) payload with
            | none =>
              rw [hvp] at hv
              refine ⟨by rw [← hv]; rfl, ?_⟩
              intro msg h
              simp only [Except.ok.injEq] at h
              rw [← h]
              exact ⟨rfl, hP.symm ▸ rfl⟩
            | some e =>
              rw [hvp] at hv
              exact ⟨by rw [← hv]; rfl, fun msg h => by cases h⟩
    · simp only [Bool.false_eq_true, if_false, if_true, Bool.not_true, Bool.and_false,
        Bool.false_and]
      exact ⟨rfl, fun msg h => by cases h⟩
  · simp only [if_true, Bool.not_true, Bool.false_and]
    exact ⟨rfl, fun msg h => by cases h⟩

theorem validate_scalar (parseTime : String → Option Nat) (v : JSON)
    (hv : ∀ members, v ≠ .obj members) :
    (ValidateClientMessage parseTime (.json v)).isOk = false ∧
    specAccepts parseTime v = false := by
  have hs : specAccepts parseTime v = false := by
    cases v with
    | obj members => exact absurd rfl (hv members)
    | null => simp only [specAccepts, Bool.and_false]
    | bool b => simp only [specAccepts, Bool.and_false]
    | num lit => simp only [specAccepts, Bool.and_false]
    | str z => simp only [specAccepts, Bool.and_false]
    | strEsc raw z => simp only [specAccepts, Bool.and_false]
    | arr items => simp only [specAccepts, Bool.and_false]
  refine ⟨?_, hs⟩
  by_cases hd : maxNestingDepth < v.depth
  · simp only [ValidateClientMessage, unmarshalMessage, hd, ↓reduceIte]
    rfl
  · cases v with
    | obj members => exact absurd rfl (hv members)
    | null => simp only [ValidateClientMessage, unmarshalMessage, hd, ↓reduceIte]; rfl
    | bool b => simp only [ValidateClientMessage, unmarshalMessage, hd, ↓reduceIte]; rfl
    | num lit => simp only [ValidateClientMessage, unmarshalMessage, hd, ↓reduceIte]; rfl
    | str z => simp only [ValidateClientMessage, unmarshalMessage, hd, ↓reduceIte]; rfl
    | strEsc raw z =>
      simp only [ValidateClientMessage, unmarshalMessage, hd, ↓reduceIte]; rfl
    | arr items => simp only [ValidateClientMessage, unmarshalMessage, hd, ↓reduceIte]; rfl

theorem validate_isOk (parseTime : String → Option Nat) (v : JSON) :
    (ValidateClientMessage parseTime (.json v)).isOk = specAccepts parseTime v := by
  cases v with
  | obj members => exact (validate_obj parseTime members).1
  | null => rw [(validate_scalar parseTime _ (by intro m h; cases h)).1,
      (validate_scalar parseTime _ (by intro m h; cases h)).2]
  | bool b => rw [(validate_scalar parseTime _ (by intro m h; cases h)).1,
      (validate_scalar parseTime _ (by intro m h; cases h)).2]
  | num lit => rw [(validate_scalar parseTime _ (by intro m h; cases h)).1,
      (validate_scalar parseTime _ (by intro m h; cases h)).2]
  | str z => rw [(validate_scalar parseTime _ (by intro m h; cases h)).1,
      (validate_scalar parseTime _ (by intro m h; cases h)).2]
  | strEsc raw z => rw [(validate_scalar parseTime _ (by intro m h; cases h)).1,
      (validate_scalar parseTime _ (by intro m h; cases h)).2]
  | arr items => rw [(validate_scalar parseTime _ (by intro m h; cases h)).1,
      (validate_scalar parseTime _ (by intro m h; cases h)).2]

theorem depthMembers_append (a b : List (String × JSON)) :
    depthMembers (a ++ b) = max (depthMembers a) (depthMembers b) := by
  induction a with
  | nil => simp [depthMembers]
  | cons kv rest ih =>
    show max kv.2.depth (depthMembers (rest ++ b)) = max (depthMembers (kv :: rest)) _
    rw [ih]
    simp only [depthMembers, Nat.max_assoc]

theorem depth_obj_insert (pre post : List (String × JSON)) (k : String) (x : JSON) :
    (JSON.obj (pre ++ (k, x) :: post)).depth
      = max (JSON.obj (pre ++ post)).depth (x.depth + 1) := by
  simp only [JSON.depth, depthMembers_append, depthMembers]
  omega

theorem stringField_absent (f : String) (members : List (String × JSON))
    (h : hasMember f (.obj members) = false) : stringField f members = "" := by
  have key : ∀ (ms : List (String × JSON)) (cur : String),
      ms.any (fun kv => keyMatches f kv.1) = false →
      ms.foldl (fun cur kv =>
        if keyMatches f kv.1 then
          match kv.2 with
          | .str z => z
          | .strEsc _ z => z
          | _ => cur
        else cur) cur = cur := by
    intro ms
    induction ms with
    | nil => intro cur _; rfl
    | cons kv rest ih =>
      intro cur hany
      simp only [List.any_cons, Bool.or_eq_false_iff] at hany
      simp only [List.foldl_cons, hany.1, Bool.false_eq_true, if_false]
      exact ih cur hany.2
  exact key members "" h

theorem rawField_absent (f : String) (members : List (String × JSON))
    (h : hasMember f (.obj members) = false) : rawField f members = none := by
  have key : ∀ (ms : List (String × JSON)) (cur : Option JSON),
      ms.any (fun kv => keyMatches f kv.1) = false →
      ms.foldl (fun cur kv => if keyMatches f kv.1 then some kv.2 else cur) cur = cur := by
    intro ms
    induction ms with
    | nil => intro cur _; rfl
    | cons kv rest ih =>
      intro cur hany
      simp only [List.any_cons, Bool.or_eq_false_iff] at hany
      simp only [List.foldl_cons, hany.1, Bool.false_eq_true, if_false]
      exact ih cur hany.2
  exact key members none h

theorem any_and_absent (f : String) (q : JSON → Bool) (members : List (String × JSON))
    (h : hasMember f (.obj members) = false) :
    members.any (fun kv => keyMatches f kv.1 && q kv.2) = false := by
  simp only [hasMember, List.any_eq_false] at h
  simp only [List.any_eq_false]
  intro kv hkv
  have := h kv hkv
  simp [this]

theorem stringFieldError_absent (f : String) (members : List (String × JSON))
    (h : hasMember f (.obj members) = false) : stringFieldError f members = false :=
  any_and_absent f (fun v => !v.storableAsString) members h

theorem timeFieldError_absent (parseTime : String → Option Nat) (f : String)
    (members : List (String × JSON)) (h : hasMember f (.obj members) = false) :
    timeFieldError parseTime f members = false :=
  any_and_absent f (fun v => !timeAccepts parseTime v) members h

theorem isOk_false_error {α : Type} (r : Except String α) (h : r.isOk = false) :
    ∃ e, r = .error e := by
  cases r with
  | error e => exact ⟨e, rfl⟩
  | ok a => simp [Except.isOk, Except.toBool] at h

/-! ## Client message validation: claims C4 and C5 -/

theorem nest_depth (n : Nat) (v : JSON) : (nest n v).depth = n + v.depth := by
  induction n with
  | zero => simp [nest]
  | succ n ih => simp [nest, JSON.depth, depthList, ih]; omega

theorem killFrame_depth (x : JSON) :
    (JSON.obj [("type", .str "session.kill"), ("payload", .obj [("sessionId", .str "abc")]),
        ("x", x)]).depth = max 1 x.depth + 1 := by
  simp only [JSON.depth, depthMembers]
  omega

theorem deepFrame_depth : maxNestingDepth < deepFrame.depth := by
  have h : deepFrame.depth = max 1 (nest maxNestingDepth .null).depth + 1 :=
    killFrame_depth _
  rw [h, nest_depth]
  omega

/-- C4 (counterexample): the well-formed frame
`{"type":"session.kill","payload":{"sessionId":"abc"},"timestamp":5}` has a
valid type tag and a payload object whose required field is a non-empty
string, yet `ValidateClientMessage` rejects it, even with a time parser that
accepts every string. -/
theorem validate_rejects_numeric_timestamp :
    claimedAccepts badTimestampFrame = true ∧
    (ValidateClientMessage lenientParseTime (.json badTimestampFrame)).isOk = false := by
  constructor
  · decide
  · rw [validate_isOk]; decide

/-- C4 (amended): for every raw client message that is well-formed JSON,
`ValidateClientMessage` succeeds if and only if the message is nested at most
10000 arrays and objects deep and is an object whose `timestamp` members are
`null` or string literals whose text between the quotes, taken as it stands
without unescaping, is a valid RFC 3339 time, and whose `type` members are
strings or `null`, the type tag is one of the five client types, and the
payload is an object in which every member naming a field declared for that
type is a string or `null` and the required fields are non-empty
(`specAccepts`); on success the returned message carries the type tag and the
payload of the input; a message nested deeper than 10000 levels is rejected
whatever it contains; the label may be absent; a member whose key selects no
declared field, in the envelope or in the payload, does not change the outcome
when its value is nested fewer than 10000 levels deep, and in the envelope it
makes the message rejected otherwise. -/
theorem validate_client_message_spec (parseTime : String → Option Nat) (v : JSON) :
    (ValidateClientMessage parseTime (.json v)).isOk = specAccepts parseTime v ∧
    (∀ msg, ValidateClientMessage parseTime (.json v) = .ok msg →
      ∃ members, v = .obj members ∧ msg.Typ = stringField "type" members ∧
        msg.Payload = rawField "payload" members) ∧
    (maxNestingDepth < v.depth →
      ∃ e, ValidateClientMessage parseTime (.json v) = .error e) ∧
    (∀ pm, hasMember "label" (.obj pm) = false →
      (validatePayload TypeSessionCreate (.obj pm)).isNone
        = (decide ((JSON.obj pm).depth ≤ maxNestingDepth) &&
           !stringFieldError "workDir" pm && stringField "workDir" pm != "")) ∧
    (∀ (pre post : List (String × JSON)) (k : String) (x : JSON),
      keyMatches "type" k = false → keyMatches "payload" k = false →
      keyMatches "timestamp" k = false →
      (x.depth < maxNestingDepth →
        (ValidateClientMessage parseTime (.json (.obj (pre ++ (k, x) :: post)))).isOk
          = (ValidateClientMessage parseTime (.json (.obj (pre ++ post)))).isOk) ∧
      (maxNestingDepth ≤ x.depth →
        (ValidateClientMessage parseTime (.json (.obj (pre ++ (k, x) :: post)))).isOk
          = false)) ∧
    (∀ (t : String) (pre post : List (String × JSON)) (k : String) (x : JSON),
      t ∈ validClientTypes → (∀ f ∈ specPayloadFields t, keyMatches f k = false) →
      x.depth < maxNestingDepth →
      (validatePayload t (.obj (pre ++ (k, x) :: post))).isNone
        = (validatePayload t (.obj (pre ++ post))).isNone) := by
  refine ⟨validate_isOk parseTime v, ?_, ?_, ?_, ?_, ?_⟩
  · intro msg h
    cases v with
    | obj members => exact ⟨members, rfl, (validate_obj parseTime members).2 msg h⟩
    | null =>
      have := (validate_scalar parseTime .null (by intro m h; cases h)).1
      rw [h] at this; cases this
    | bool b =>
      have := (validate_scalar parseTime (.bool b) (by intro m h; cases h)).1
      rw [h] at this; cases this
    | num lit =>
      have := (validate_scalar parseTime (.num lit) (by intro m h; cases h)).1
      rw [h] at this; cases this
    | str z =>
      have := (validate_scalar parseTime (.str z) (by intro m h; cases h)).1
      rw [h] at this; cases this
    | strEsc raw z =>
      have := (validate_scalar parseTime (.strEsc raw z) (by intro m h; cases h)).1
      rw [h] at this; cases this
    | arr items =>
      have := (validate_scalar parseTime (.arr items) (by intro m h; cases h)).1
      rw [h] at this; cases this
  · intro hd
    apply isOk_false_error
    rw [validate_isOk]
    have hle : ¬ v.depth ≤ maxNestingDepth := by omega
    simp only [specAccepts, hle, decide_False, Bool.false_and]
  · intro pm hl
    rw [validatePayload_create]
    simp [specPayloadOK, specPayloadFields, specRequiredFields,
      stringFieldError_absent "label" pm hl, Bool.and_assoc]
  · intro pre post k x h1 h2 h3
    rw [validate_isOk, validate_isOk]
    have hdep := depth_obj_insert pre post k x
    constructor
    · intro hx
      have hiff : ((JSON.obj (pre ++ (k, x) :: post)).depth ≤ maxNestingDepth)
          ↔ ((JSON.obj (pre ++ post)).depth ≤ maxNestingDepth) := by
        rw [hdep]; omega
      simp only [specAccepts, timeFieldError_skip _ _ _ _ _ _ h3,
        stringFieldError_skip _ _ _ _ _ h1, stringField_skip _ _ _ _ _ h1,
        rawField_skip _ _ _ _ _ h2, decide_eq_decide.mpr hiff]
    · intro hx
      have hle : ¬ (JSON.obj (pre ++ (k, x) :: post)).depth ≤ maxNestingDepth := by
        rw [hdep]; omega
      simp only [specAccepts, hle, decide_False, Bool.false_and]
  · intro t pre post k x ht hk hx
    rw [validatePayload_isNone t ht, validatePayload_isNone t ht]
    have hdep := depth_obj_insert pre post k x
    have hiff : ((JSON.obj (pre ++ (k, x) :: post)).depth ≤ maxNestingDepth)
        ↔ ((JSON.obj (pre ++ post)).depth ≤ maxNestingDepth) := by
      rw [hdep]; omega
    have h21 : TypeSessionPrompt ≠ TypeSessionCreate := by decide
    by_cases h1 : t = TypeSessionCreate
    · subst h1
      have hw := hk "workDir" (by simp [specPayloadFields])
      have hl := hk "label" (by simp [specPayloadFields])
      simp only [specPayloadOK, specPayloadFields, specRequiredFields, ↓reduceIte,
        List.all_cons, List.all_nil, stringFieldError_skip _ _ _ _ _ hw,
        stringFieldError_skip _ _ _ _ _ hl, stringField_skip _ _ _ _ _ hw,
        decide_eq_decide.mpr hiff]
    · by_cases h2 : t = TypeSessionPrompt
      · subst h2
        have hs := hk "sessionId" (by simp [specPayloadFields, h21])
        have hp := hk "prompt" (by simp [specPayloadFields, h21])
        simp only [specPayloadOK, specPayloadFields, specRequiredFields, h21, ↓reduceIte,
          List.all_cons, List.all_nil, stringFieldError_skip _ _ _ _ _ hs,
          stringFieldError_skip _ _ _ _ _ hp, stringField_skip _ _ _ _ _ hs,
          stringField_skip _ _ _ _ _ hp, decide_eq_decide.mpr hiff]
      · have hs := hk "sessionId" (by simp [specPayloadFields, h1, h2])
        simp only [specPayloadOK, specPayloadFields, specRequiredFields, h1, h2, ↓reduceIte,
          List.all_cons, List.all_nil, stringFieldError_skip _ _ _ _ _ hs,
          stringField_skip _ _ _ _ _ hs, decide_eq_decide.mpr hiff]

/-- C4 (amended) at three frames: a `session.create` frame without label and
with an extra envelope member is accepted; a frame whose timestamp is written
`"2024-01-01T00:00:00\u005a"` is rejected by a parser that accepts the text
`2024-01-01T00:00:00Z`, to which the literal decodes; a valid `session.kill`
frame with an extra member nested 10000 arrays deep is rejected. -/
theorem validate_client_message_spec_witness :
    (ValidateClientMessage lenientParseTime (.json createFrame)).isOk = true ∧
    (ValidateClientMessage exactParseTime (.json escapedTimestampFrame)).isOk = false ∧
    ∃ e, ValidateClientMessage lenientParseTime (.json deepFrame) = .error e :=
  ⟨((validate_client_message_spec lenientParseTime createFrame).1).trans (by decide),
   ((validate_client_message_spec exactParseTime escapedTimestampFrame).1).trans (by decide),
   (validate_client_message_spec lenientParseTime deepFrame).2.2.1 deepFrame_depth⟩

/-- C5 (counterexample): the frame
`{"type":"session.kill","payload":{"sessionId":"abc"}}` lacks the timestamp and
is accepted, whatever the time parser. -/
theorem validate_accepts_missing_timestamp :
    hasMember "timestamp" noTimestampFrame = false ∧
    (ValidateClientMessage strictParseTime (.json noTimestampFrame)).isOk = true := by
  constructor
  · decide
  · rw [validate_isOk]; decide

/-- C5 (amended): a client message whose envelope lacks the type tag or lacks
the payload is rejected with a validation error, whatever the other fields
contain; a message that lacks only the timestamp is judged on its nesting
depth, which must not exceed 10000, and on its type tag and payload alone. -/
theorem validate_missing_envelope_field (parseTime : String → Option Nat) (v : JSON) :
    (hasMember "type" v = false →
      ∃ e, ValidateClientMessage parseTime (.json v) = .error e) ∧
    (hasMember "payload" v = false →
      ∃ e, ValidateClientMessage parseTime (.json v) = .error e) ∧
    (∀ members, v = .obj members → hasMember "timestamp" v = false →
      (ValidateClientMessage parseTime (.json v)).isOk
        = (decide (v.depth ≤ maxNestingDepth) &&
           !stringFieldError "type" members &&
           validClientTypes.contains (stringField "type" members) &&
           (match rawField "payload" members with
            | some payload => specPayloadOK (stringField "type" members) payload
            | none => false))) := by
  refine ⟨?_, ?_, ?_⟩
  · intro h
    apply isOk_false_error
    rw [validate_isOk]
    cases v with
    | obj members =>
      have hT := stringField_absent "type" members h
      have hc : validClientTypes.contains (stringField "type" members) = false := by
        rw [hT]; decide
      simp only [specAccepts, hc, Bool.and_false, Bool.false_and]
    | null => simp only [specAccepts, Bool.and_false]
    | bool b => simp only [specAccepts, Bool.and_false]
    | num lit => simp only [specAccepts, Bool.and_false]
    | str z => simp only [specAccepts, Bool.and_false]
    | strEsc raw z => simp only [specAccepts, Bool.and_false]
    | arr items => simp only [specAccepts, Bool.and_false]
  · intro h
    apply isOk_false_error
    rw [validate_isOk]
    cases v with
    | obj members =>
      simp [specAccepts, rawField_absent "payload" members h]
    | null => simp only [specAccepts, Bool.and_false]
    | bool b => simp only [specAccepts, Bool.and_false]
    | num lit => simp only [specAccepts, Bool.and_false]
    | str z => simp only [specAccepts, Bool.and_false]
    | strEsc raw z => simp only [specAccepts, Bool.and_false]
    | arr items => simp only [specAccepts, Bool.and_false]
  · intro members hv h
    subst hv
    rw [validate_isOk]
    simp only [specAccepts, timeFieldError_absent parseTime "timestamp" members h,
      Bool.not_false, Bool.true_and, Bool.and_assoc]

/-- C5 (amended) at frames that lack the type tag and the payload, which are
rejected, and at two frames that lack only the timestamp: a valid
`session.kill` frame, which is accepted, and the same frame with a further
member nested 10000 arrays deep, which is rejected. -/
theorem validate_missing_envelope_field_witness :
    (∃ e, ValidateClientMessage lenientParseTime
      (.json (.obj [("payload", .obj []), ("timestamp", .str "2024-01-01T00:00:00Z")]))
        = .error e) ∧
    (∃ e, ValidateClientMessage lenientParseTime
      (.json (.obj [("type", .str "session.create"),
                    ("timestamp", .str "2024-01-01T00:00:00.000Z")])) = .error e) ∧
    (ValidateClientMessage strictParseTime (.json noTimestampFrame)).isOk = true ∧
    hasMember "timestamp" deepFrame = false ∧
    (ValidateClientMessage strictParseTime (.json deepFrame)).isOk = false := by
  refine ⟨(validate_missing_envelope_field lenientParseTime _).1 (by decide),
    (validate_missing_envelope_field lenientParseTime _).2.1 (by decide),
    ((validate_missing_envelope_field strictParseTime noTimestampFrame).2.2 _ rfl
      (by decide)).trans (by decide), by decide, ?_⟩
  rw [(validate_missing_envelope_field strictParseTime deepFrame).2.2 _ rfl (by decide)]
  have hle : ¬ deepFrame.depth ≤ maxNestingDepth := by
    have := deepFrame_depth
    omega
  simp only [hle, decide_False, Bool.false_and]

/-! ## Subscribe and fan-out: claims C2 and C3 -/

set_option maxRecDepth 100000 in
/-- C2 (evaluation of the code at the failing interleaving): starting from the
active session `s1` with an empty log, the schedule "scanner writes `e` to the
ring buffer; `Subscribe` takes its snapshot; `Subscribe` registers its queue;
the scanner fans `e` out" is an interleaving of the two tasks, runs without a
panic, leaves the log `[e]`, and makes the subscriber observe `[e, e]`: the
observation contains `e` twice and is not a subsequence of the log. -/
theorem subscribe_race_duplicates_event :
    isInterleaving raceSchedule = true ∧
    ((RaceState.run "s1" "sub1" ⟨demoActive, [], []⟩ raceSchedule).map
        (fun s => (s.log, s.observed "s1" "sub1"))) = some ([demoEvent], [demoEvent, demoEvent]) ∧
    ¬ [demoEvent, demoEvent].Nodup ∧
    ¬ List.Sublist [demoEvent, demoEvent] [demoEvent] := by
  refine ⟨by decide, by rfl, by simp, ?_⟩
  intro h
  have := h.length_le
  simp at this

/-- C3: in every reachable state of the manager, for every session and every
event, `fanOut` succeeds; it appends the event to each registered queue that
holds fewer than 100 events and leaves each full queue unchanged, whatever the
other queues hold; it keeps the subscription ids, and every other field of the
session, as they were; every registered queue has capacity 100 and holds at
most 100 events before and after. -/
theorem fanOut_delivers_or_drops (maxSessions : Int) (h0 : 0 ≤ maxSessions) (m : Manager)
    (hr : Manager.Reachable maxSessions m) (id : String) (ms : managedSession)
    (hget : mapGet id m.sessions = some ms) (e : OutputEvent) :
    ∃ ms1, fanOut ms e = some ms1 ∧
      ms1.subscribers = ms.subscribers.map (fun p =>
        (p.1, if p.2.items.length < 100 then { p.2 with items := p.2.items ++ [e] } else p.2)) ∧
      ms1.subscribers.map Prod.fst = ms.subscribers.map Prod.fst ∧
      ms1.Session = ms.Session ∧ ms1.cmd = ms.cmd ∧ ms1.stdin = ms.stdin ∧
      ms1.ringBuf = ms.ringBuf ∧ ms1.detached = ms.detached ∧
      (∀ p ∈ ms.subscribers, p.2.cap = 100 ∧ p.2.items.length ≤ 100) ∧
      (∀ p ∈ ms1.subscribers, p.2.cap = 100 ∧ p.2.items.length ≤ 100) := by
  have hok : ms.OK := (hr.holds_inv h0).get id ms hget
  have hspec := sendAll_spec e ms.subscribers (fun p hp => (hok.2 p hp).1)
  have hmap : ms.subscribers.map (fun p =>
        (p.1, if p.2.items.length < p.2.cap then { p.2 with items := p.2.items ++ [e] }
              else p.2))
      = ms.subscribers.map (fun p =>
        (p.1, if p.2.items.length < 100 then { p.2 with items := p.2.items ++ [e] }
              else p.2)) := by
    apply List.map_congr_left
    intro p hp
    have hcap : p.2.cap = 100 := (hok.2 p hp).2.1
    rw [hcap]
  rw [hmap] at hspec
  refine ⟨{ ms with subscribers := _ }, by unfold fanOut; rw [hspec]; rfl, rfl, ?_,
    rfl, rfl, rfl, rfl, rfl, ?_, ?_⟩
  · simp only [List.map_map]
    apply List.map_congr_left
    intro p _
    rfl
  · intro p hp
    exact ⟨(hok.2 p hp).2.1, (hok.2 p hp).2.2⟩
  · intro p hp
    simp only [List.mem_map] at hp
    obtain ⟨q, hq, rfl⟩ := hp
    obtain ⟨_, hcap, hlen⟩ := hok.2 q hq
    have hcap1 : q.2.cap = 100 := hcap
    have hlen1 : q.2.items.length ≤ 100 := hlen
    split
    · rename_i hlt
      refine ⟨hcap1, ?_⟩
      simp only [List.length_append, List.length_singleton]
      omega
    · exact ⟨hcap1, hlen1⟩

set_option maxRecDepth 100000 in
/-- C3 at the session `s1` of `fullQueueManager`, which is reachable and has
two subscribers: the queue of `c2` is empty and receives the event, the queue
of `c1` holds 100 events and is left as it was. -/
theorem fanOut_delivers_or_drops_witness :
    (0 : Int) ≤ 1 ∧ Manager.Reachable 1 fullQueueManager ∧
    mapGet "s1" fullQueueManager.sessions = some fullQueueSession ∧
    fullQueueSession.subscribers.map (fun p => (p.1, p.2.items))
      = [("sub-c2-s1", []), ("sub-c1-s1", List.replicate 100 demoEvent)] ∧
    ∃ ms1, fanOut fullQueueSession demoEvent = some ms1 ∧
      ms1.subscribers.map (fun p => (p.1, p.2.items))
        = [("sub-c2-s1", [demoEvent]), ("sub-c1-s1", List.replicate 100 demoEvent)] := by
  refine ⟨by decide, fullQueueManager_reachable, rfl, rfl, ?_⟩
  obtain ⟨ms1, h1, h2, _⟩ :=
    fanOut_delivers_or_drops 1 (by decide) fullQueueManager fullQueueManager_reachable "s1"
      fullQueueSession rfl demoEvent
  refine ⟨ms1, h1, ?_⟩
  rw [h2]
  rfl

/-! ## The session limit: claims C7 and C8 -/

theorem Manager.create_at_limit (m : Manager) (env : CreateEnv) (workDir label : String)
    (hfull : m.maxSessions ≤ (m.activeCount : Int)) :
    m.Create env workDir label =
      (m, .error (match env.stat workDir with
        | .missing => "working directory does not exist: " ++ workDir
        | .file => "path is not a directory: " ++ workDir
        | .dir => sessionLimitError m.maxSessions)) := by
  unfold Manager.Create Manager.createLocked
  cases hstat : env.stat workDir with
  | missing => rfl
  | file => rfl
  | dir =>
    have hge : (m.activeCount : Int) ≥ m.maxSessions := hfull
    simp only [hge, if_true, sessionLimitError]

/-- C7 (counterexample): in the reachable state of the manager with limit 1
that holds one active session, so that the number of non-terminated sessions
has reached the limit, `Create` on the regular file `/etc/hosts` fails with
the not-a-directory error, which is not the session-limit error. -/
theorem create_at_limit_other_error :
    Manager.Reachable 1 demoActive ∧ (1 : Int) ≤ (demoActive.activeCount : Int) ∧
    (demoActive.Create demoEnv "/etc/hosts" "x").2
      = .error "path is not a directory: /etc/hosts" ∧
    "path is not a directory: /etc/hosts" ≠ sessionLimitError 1 := by
  refine ⟨demoActive_reachable, by decide, ?_, by decide⟩
  rw [Manager.create_at_limit demoActive demoEnv "/etc/hosts" "x" (by decide)]
  rfl

/-- C7 (amended): in every state reachable from `NewManager maxSessions` with
`maxSessions ≥ 0` by any sequence of steps of `Create` (lock phase, start
success, start failure), scanners, the reaper, `SendPrompt`, `Kill`,
`Subscribe`, `Unsubscribe` and queue receives, the number of non-terminated
sessions in the map is at most `maxSessions`; and whenever that number is
already `≥ maxSessions`, `Create` fails and leaves the manager unchanged, with
the session-limit error when `workDir` is an existing directory. -/
theorem manager_session_limit (maxSessions : Int) (h0 : 0 ≤ maxSessions) (m : Manager)
    (hr : Manager.Reachable maxSessions m) :
    (m.activeCount : Int) ≤ maxSessions ∧
    ∀ (env : CreateEnv) (workDir label : String), maxSessions ≤ (m.activeCount : Int) →
      (m.Create env workDir label).1 = m ∧
      (∃ msg, (m.Create env workDir label).2 = .error msg) ∧
      (env.stat workDir = .dir →
        (m.Create env workDir label).2 = .error (sessionLimitError maxSessions)) := by
  have hinv := hr.holds_inv h0
  refine ⟨hinv.2.1, ?_⟩
  intro env workDir label hfull
  have hmax : m.maxSessions = maxSessions := hinv.1
  rw [Manager.create_at_limit m env workDir label (by rw [hmax]; exact hfull)]
  refine ⟨rfl, ⟨_, rfl⟩, ?_⟩
  intro hdir
  simp only [hdir, hmax]

/-- C7 (amended) at the demo manager with limit 1 and one active session. -/
theorem manager_session_limit_witness :
    (0 : Int) ≤ 1 ∧ Manager.Reachable 1 demoActive ∧
    (demoActive.activeCount : Int) ≤ 1 ∧
    (demoActive.Create demoEnv "/work" "second").2 = .error (sessionLimitError 1) :=
  ⟨by decide, demoActive_reachable,
    (manager_session_limit 1 (by decide) demoActive demoActive_reachable).1,
    ((manager_session_limit 1 (by decide) demoActive demoActive_reachable).2
      demoEnv "/work" "second" (by decide)).2.2 (by decide)⟩

/-- C8 (counterexample): on a manager built with `maxSessions = 0`, `Create`
on a missing path fails with the missing-directory error, which is not the
session-limit error. -/
theorem create_zero_limit_missing_dir :
    ((NewManager 0).Create demoEnv "/nonexistent/path/xyz" "test").2
      = .error "working directory does not exist: /nonexistent/path/xyz" ∧
    "working directory does not exist: /nonexistent/path/xyz" ≠ sessionLimitError 0 := by
  refine ⟨?_, by decide⟩
  rw [Manager.create_at_limit (NewManager 0) demoEnv _ "test" (by decide)]
  rfl

/-- C8 (amended): on a manager built with `maxSessions = 0`, every call
`Create(workDir, label)` fails and leaves the manager as it was: with the
session-limit error when `workDir` is an existing directory, with the
missing-directory error when the path does not exist, and with the
not-a-directory error when it is not a directory. -/
theorem create_zero_limit_fails (env : CreateEnv) (workDir label : String) :
    (NewManager 0).Create env workDir label =
      (NewManager 0, .error (match env.stat workDir with
        | .missing => "working directory does not exist: " ++ workDir
        | .file => "path is not a directory: " ++ workDir
        | .dir => "maximum session limit reached (0)")) := by
  rw [Manager.create_at_limit (NewManager 0) env workDir label (by decide)]
  cases env.stat workDir <;> rfl

/-! ## The hub: claims C6, C9 and C10 -/

theorem mapGet_mapInsert_ne {β : Type} (k k2 : String) (v : β) (m : List (String × β))
    (h : k2 ≠ k) : mapGet k2 (mapInsert k v m) = mapGet k2 m := by
  have hk : (k == k2) = false := by
    simp only [beq_eq_false_iff_ne, ne_eq]
    exact fun h1 => h h1.symm
  unfold mapGet mapInsert
  rw [List.find?_cons_of_neg _ (by simp [hk])]
  congr 1
  unfold mapDelete
  induction m with
  | nil => rfl
  | cons q rest ih =>
    by_cases hq : q.1 = k
    · have h2 : (q.1 == k2) = false := by rw [hq]; exact hk
      simp only [List.filter_cons, hq, bne_self_eq_false, Bool.false_eq_true, if_false,
        List.find?_cons, hk]
      exact ih
    · have h1 : (q.1 != k) = true := by simp [hq]
      simp only [List.filter_cons, h1, if_true, List.find?_cons]
      cases hq2 : (q.1 == k2)
      · exact ih
      · rfl

/-- A non-blocking send to a client whose queue is open returns normally and
replaces that client's record only; the queue grows by the message when it has
room and stays as it is when it is full. -/
theorem Server.trySend_open (s : Server) (c : String) (msg : Message) (cl : client)
    (hc : mapGet c s.clientObjs = some cl) (hopen : cl.send.closed = false) :
    ∃ cl1, s.trySend c msg = some { s with clientObjs := mapInsert c cl1 s.clientObjs } ∧
      cl1.send.cap = cl.send.cap ∧ cl1.send.closed = false ∧
      cl1.send.items =
        if cl.send.items.length < cl.send.cap then cl.send.items ++ [msg]
        else cl.send.items := by
  simp only [Server.trySend, hc, Chan.trySend, hopen, Bool.false_eq_true, if_false]
  by_cases hroom : cl.send.items.length < cl.send.cap
  · simp only [hroom, if_true, Option.map_some']
    exact ⟨_, rfl, rfl, rfl, rfl⟩
  · simp only [hroom, if_false, Option.map_some']
    exact ⟨_, rfl, rfl, hopen, rfl⟩

/-- After `n ≤ 256` file-update broadcasts on the fresh hub, client `c1` is
still the only registered client and its open queue of capacity 256 holds `n`
messages. -/
theorem freshHub_fileUpdates (n : Nat) (hn : n ≤ 256) :
    ∃ s, (freshHub 10).fileUpdates demoHubEnv n = some s ∧ s.clients = ["c1"] ∧
      ∃ cl, mapGet "c1" s.clientObjs = some cl ∧ cl.send.cap = 256 ∧
        cl.send.closed = false ∧ cl.send.items.length = n := by
  induction n with
  | zero => exact ⟨_, rfl, rfl, _, rfl, rfl, rfl, rfl⟩
  | succ k ih =>
    obtain ⟨s, hs, hcl, cl, hget, hcap, hopen, hlen⟩ := ih (by omega)
    obtain ⟨cl1, hsend, hcap1, hopen1, hitems⟩ :=
      Server.trySend_open s "c1"
        (NewMessage TypeFilesUpdate
          (.obj [("sessionId", .str "s1"), ("fileCount", .num (toString (k : Int))),
                 ("drinkCount", .num (toString ((k : Int) / 20)))]) demoHubEnv.now)
        cl hget hopen
    refine ⟨{ s with clientObjs := mapInsert "c1" cl1 s.clientObjs }, ?_, hcl, cl1,
      mapGet_mapInsert_self _ _ _, by rw [hcap1, hcap], hopen1, ?_⟩
    · simp only [Server.fileUpdates, hs, Server.OnFileUpdate, Server.broadcast, hcl,
        Server.sendEach, hsend]
    · rw [hitems, if_pos (by rw [hlen, hcap]; omega), List.length_append, hlen]
      rfl

/-- C6 (counterexample): after 256 file-update broadcasts that the client has
not yet read, the outbound queue of client `c1` holds 256 messages, its
capacity; on the malformed frame, which `ValidateClientMessage` rejects,
`handleMessage` returns normally and leaves the queue exactly as it was: no
error message is enqueued. -/
theorem handleMessage_invalid_full_queue :
    (ValidateClientMessage demoHubEnv.parseTime Raw.malformed).isOk = false ∧
    ∃ s, (freshHub 10).fileUpdates demoHubEnv 256 = some s ∧
      (s.pending "c1").length = 256 ∧
      ∃ s1, s.handleMessage demoHubEnv "c1" Raw.malformed = some s1 ∧
        s1.pending "c1" = s.pending "c1" := by
  refine ⟨by rfl, ?_⟩
  obtain ⟨s, hs, _, cl, hget, hcap, hopen, hlen⟩ := freshHub_fileUpdates 256 (Nat.le_refl _)
  obtain ⟨cl1, hsend, _, _, hitems⟩ :=
    Server.trySend_open s "c1"
      (NewErrorMessage ErrInvalidMessage "invalid JSON: invalid character" demoHubEnv.now)
      cl hget hopen
  refine ⟨s, hs, by simp only [Server.pending, hget, hlen],
    { s with clientObjs := mapInsert "c1" cl1 s.clientObjs }, ?_, ?_⟩
  · simp only [Server.handleMessage, ValidateClientMessage, unmarshalMessage, Server.sendError]
    exact hsend
  · simp only [Server.pending, mapGet_mapInsert_self, hget]
    rw [hitems, if_neg (by rw [hlen, hcap]; omega)]

/-- C6 (amended): for every raw message that `ValidateClientMessage` rejects,
`handleMessage`, called for a client whose outbound queue is open, returns
normally, calls no Session Manager or Observer operation and leaves the
manager, the observer, the registry, the subscription table and every other
client's queue unchanged; on the originating client's queue it enqueues
exactly one message of type `error` with code `INVALID_MESSAGE` when the queue
has room, and nothing when the queue is full. -/
theorem handleMessage_invalid (s : Server) (env : HubEnv) (c : String) (raw : Raw)
    (err : String) (cl : client)
    (hv : ValidateClientMessage env.parseTime raw = .error err)
    (hc : mapGet c s.clientObjs = some cl) (hopen : cl.send.closed = false) :
    ∃ s1, s.handleMessage env c raw = some s1 ∧
      s1.sessionMgr = s.sessionMgr ∧ s1.fileWatch = s.fileWatch ∧ s1.calls = s.calls ∧
      s1.clients = s.clients ∧ s1.subscriptions = s.subscriptions ∧
      s1.forwarders = s.forwarders ∧
      (∀ c2, c2 ≠ c → mapGet c2 s1.clientObjs = mapGet c2 s.clientObjs) ∧
      ∃ cl1, mapGet c s1.clientObjs = some cl1 ∧ cl1.send.cap = cl.send.cap ∧
        cl1.send.closed = false ∧
        cl1.send.items =
          if cl.send.items.length < cl.send.cap then
            cl.send.items ++
              [{ Typ := "error"
                 Payload := some (.obj [("message", .str err), ("code", .str "INVALID_MESSAGE")])
                 Timestamp := some env.now }]
          else cl.send.items := by
  simp only [Server.handleMessage, hv, Server.sendError, Server.trySend, hc, Chan.trySend,
    hopen, Bool.false_eq_true, if_false]
  by_cases hroom : cl.send.items.length < cl.send.cap
  · simp only [hroom, if_true, Option.map_some']
    refine ⟨_, rfl, rfl, rfl, rfl, rfl, rfl, rfl, ?_, ?_⟩
    · intro c2 hne
      exact mapGet_mapInsert_ne c c2 _ _ hne
    · exact ⟨_, mapGet_mapInsert_self _ _ _, rfl, rfl, rfl⟩
  · simp only [hroom, if_false, Option.map_some']
    refine ⟨_, rfl, rfl, rfl, rfl, rfl, rfl, rfl, ?_, ?_⟩
    · intro c2 hne
      exact mapGet_mapInsert_ne c c2 _ _ hne
    · exact ⟨_, mapGet_mapInsert_self _ _ _, rfl, hopen, rfl⟩

/-- C6 (amended) at the test of the suite: the frame `not json` sent by the
only client of a fresh hub. -/
theorem handleMessage_invalid_witness :
    ∃ s1, (freshHub 10).handleMessage demoHubEnv "c1" Raw.malformed = some s1 ∧
      s1.calls = [] ∧
      ∃ cl1, mapGet "c1" s1.clientObjs = some cl1 ∧ cl1.send.items.length = 1 := by
  obtain ⟨s1, h1, _, _, h2, _, _, _, _, cl1, h3, _, _, h4⟩ :=
    handleMessage_invalid (freshHub 10) demoHubEnv "c1" Raw.malformed
      "invalid JSON: invalid character" { send := Chan.make 256 } rfl rfl rfl
  refine ⟨s1, h1, h2, cl1, h3, ?_⟩
  rw [h4]
  rfl

set_option maxRecDepth 100000 in
/-- C9 (evaluation of the code at the failing input): client `c1` connected to
a hub with limit 1 and created session `s1`, so the manager holds one active
session; `Create` on the existing directory `/work` now fails with the
session-limit error, and `handleMessage` on a second `session.create` request
enqueues, after the earlier `session.update`, one error message whose code is
`SPAWN_FAILED`, not `MAX_SESSIONS`. -/
theorem create_at_limit_reports_spawn_failed :
    demoHub.map (fun s => s.sessionMgr) = some demoSubscribed ∧
    demoSubscribed.maxSessions = 1 ∧ demoSubscribed.activeCount = 1 ∧
    (demoSubscribed.Create demoHubEnv.create "/work" "second").2
      = .error "maximum session limit reached (1)" ∧
    (demoHub.bind (fun s => s.handleMessage demoHubEnv "c1" createRequest)).map
        (fun s1 => s1.pending "c1")
      = some [demoUpdateMessage,
              NewErrorMessage "SPAWN_FAILED" "maximum session limit reached (1)" 9] ∧
    ErrSpawnFailed ≠ ErrMaxSessions := by
  refine ⟨by rfl, by rfl, by rfl, by rfl, by rfl, by decide⟩

set_option maxRecDepth 100000 in
/-- C10 (evaluation of the code at the failing input): in the reachable state
in which the reaper of session `s1` has closed the stdin writer and has not
yet set the state to `terminated`, the session exists and is `active`;
`handleMessage` on a `session.prompt` request for `s1` enqueues, after the
earlier `session.update`, one error message with text `stdin pipe closed` and
code `SESSION_NOT_FOUND`. -/
theorem prompt_pipe_closed_reports_not_found :
    demoHub.map (fun s => s.sessionMgr) = some demoSubscribed ∧
    Manager.Reachable 1 closingManager ∧
    (closingManager.Get "s1").toOption.map (fun sess => sess.State) = some StateActive ∧
    ((demoHub.map (fun s => { s with sessionMgr := closingManager })).bind
        (fun s => s.handleMessage demoHubEnv "c1" promptRequest)).map
          (fun s1 => s1.pending "c1")
      = some [demoUpdateMessage, NewErrorMessage "SESSION_NOT_FOUND" "stdin pipe closed" 9] := by
  refine ⟨by rfl, closingManager_reachable, by rfl, by rfl⟩

/-! ## Prompt, kill and unsubscribe: claims C11, C12 and C13 -/

theorem mapGet_mapDelete_self {β : Type} (k : String) (m : List (String × β)) :
    mapGet k (mapDelete k m) = none := by
  unfold mapGet mapDelete
  induction m with
  | nil => rfl
  | cons q rest ih =>
    by_cases hq : q.1 = k
    · simp only [List.filter_cons, hq, bne_self_eq_false, Bool.false_eq_true, if_false]
      exact ih
    · have h1 : (q.1 != k) = true := by simp [hq]
      have h2 : (q.1 == k) = false := by simp [hq]
      simp only [List.filter_cons, h1, if_true, List.find?_cons, h2]
      exact ih

theorem mapGet_mapDelete_ne {β : Type} (k k2 : String) (m : List (String × β))
    (h : k2 ≠ k) : mapGet k2 (mapDelete k m) = mapGet k2 m := by
  have hk : (k == k2) = false := by
    simp only [beq_eq_false_iff_ne, ne_eq]
    exact fun h1 => h h1.symm
  unfold mapGet mapDelete
  congr 1
  induction m with
  | nil => rfl
  | cons q rest ih =>
    by_cases hq : q.1 = k
    · simp only [List.filter_cons, hq, bne_self_eq_false, Bool.false_eq_true, if_false,
        List.find?_cons, hk]
      exact ih
    · have h1 : (q.1 != k) = true := by simp [hq]
      simp only [List.filter_cons, h1, if_true, List.find?_cons]
      cases hq2 : (q.1 == k2)
      · exact ih
      · rfl

/-- C11: for every manager state, id and text, `SendPrompt(id, text)` returns
the session-not-found error when `id` is not in the session map and the
session-terminated error when the session's state is `terminated`, and in
both cases leaves the manager, hence every stdin writer, as it was; otherwise
it calls the session's stdin writer with exactly `text` followed by one
newline, stores the writer's new state in that session only, and returns the
writer's result; an open writer passes exactly these bytes to the pipe. -/
theorem sendPrompt_spec (m : Manager) (id text : String) :
    (mapGet id m.sessions = none →
      m.SendPrompt id text = (m, some ("session not found: " ++ id))) ∧
    (∀ ms, mapGet id m.sessions = some ms → ms.Session.State = StateTerminated →
      m.SendPrompt id text = (m, some ("session terminated: " ++ id))) ∧
    (∀ ms, mapGet id m.sessions = some ms → ms.Session.State ≠ StateTerminated →
      m.SendPrompt id text =
        (m.setSession id { ms with stdin := (ms.stdin.Write (text ++ "\n")).1 },
          (ms.stdin.Write (text ++ "\n")).2) ∧
      (ms.stdin.closed = false →
        (ms.stdin.Write (text ++ "\n")).1.writer = (ms.stdin.writer.Write (text ++ "\n")).1 ∧
        (ms.stdin.Write (text ++ "\n")).2 = (ms.stdin.writer.Write (text ++ "\n")).2) ∧
      (ms.stdin.closed = false → ms.stdin.writer.closed = false →
        ms.stdin.writer.readerGone = false →
        (ms.stdin.Write (text ++ "\n")).1.writer.written
            = ms.stdin.writer.written ++ [text ++ "\n"] ∧
        (ms.stdin.Write (text ++ "\n")).2 = none) ∧
      ∀ id2, id2 ≠ id → mapGet id2 (m.SendPrompt id text).1.sessions = mapGet id2 m.sessions) := by
  refine ⟨?_, ?_, ?_⟩
  · intro h
    simp only [Manager.SendPrompt, h]
  · intro ms h hs
    simp only [Manager.SendPrompt, h, hs, beq_self_eq_true, if_true]
  · intro ms h hs
    have hne : (ms.Session.State == StateTerminated) = false := by
      simpa using hs
    have heq : m.SendPrompt id text =
        (m.setSession id { ms with stdin := (ms.stdin.Write (text ++ "\n")).1 },
          (ms.stdin.Write (text ++ "\n")).2) := by
      simp only [Manager.SendPrompt, h, hne, Bool.false_eq_true, if_false]
    refine ⟨heq, ?_, ?_, ?_⟩
    · intro hopen
      simp only [stdinWriter.Write, hopen, Bool.false_eq_true, if_false, and_self]
    · intro hopen hfile hreader
      simp only [stdinWriter.Write, hopen, Bool.false_eq_true, if_false, OSFile.Write, hfile,
        hreader, and_self]
    · intro id2 hne2
      rw [heq]
      exact mapGet_mapInsert_ne id id2 _ _ hne2

/-- C11 at the demo manager: a prompt to the unknown id `nope` is refused and
a prompt to the active session `s1` reaches its pipe. -/
theorem sendPrompt_spec_witness :
    demoActive.SendPrompt "nope" "hi" = (demoActive, some "session not found: nope") ∧
    (∃ ms, mapGet "s1" demoActive.sessions = some ms ∧
      (ms.stdin.Write ("hi" ++ "\n")).1.writer.written = ms.stdin.writer.written ++ ["hi" ++ "\n"]) := by
  refine ⟨(sendPrompt_spec demoActive "nope" "hi").1 (by rfl), ?_⟩
  have hget : mapGet "s1" demoActive.sessions = some
      { Session := { ID := "s1", State := StateActive, WorkDir := "/work", CreatedAt := 7,
                     Label := "demo" }
        cmd := { Path := "/usr/bin/claude", Dir := "/work", started := true, interrupts := 0,
                 killTimers := 0, cancelled := false }
        stdin := { writer := { written := [], closed := false, closeCalls := 0,
                               readerGone := false },
                   closed := false }
        ringBuf := NewRingBuffer defaultRingBufCapacity
        subscribers := []
        detached := [] } := by rfl
  exact ⟨_, hget,
    (((sendPrompt_spec demoActive "s1" "hi").2.2 _ hget (by decide)).2.2.1 rfl rfl rfl).1⟩

theorem Manager.kill_view (m : Manager) (id id2 : String) :
    (mapGet id2 (m.Kill id).1.sessions).map managedSession.view
      = (mapGet id2 m.sessions).map managedSession.view := by
  unfold Manager.Kill
  cases hget : mapGet id m.sessions with
  | none => rfl
  | some ms =>
    simp only
    split
    · rfl
    · split
      · by_cases h2 : id2 = id
        · subst h2
          simp only [Manager.setSession, mapGet_mapInsert_self, hget, Option.map_some']
          rfl
        · simp only [Manager.setSession, mapGet_mapInsert_ne id id2 _ _ h2]
      · rfl

theorem Manager.kill_known (m : Manager) (id : String) (ms : managedSession)
    (hget : mapGet id m.sessions = some ms) : (m.Kill id).2 = none := by
  unfold Manager.Kill
  simp only [hget]
  split
  · rfl
  · split <;> rfl

theorem Manager.kill_repeat (id : String) (n : Nat) :
    ∀ (m : Manager) (ms : managedSession), mapGet id m.sessions = some ms →
      (((fun x => (Manager.Kill x id).1)^[n] m).Kill id).2 = none := by
  induction n with
  | zero => intro m ms h; exact m.kill_known id ms h
  | succ k ih =>
    intro m ms h
    rw [Function.iterate_succ_apply]
    have hv := m.kill_view id id
    rw [h] at hv
    cases hk : mapGet id (m.Kill id).1.sessions with
    | none => rw [hk] at hv; simp at hv
    | some ms1 => exact ih (m.Kill id).1 ms1 hk

/-- C12: for every manager state and id, `Kill(id)` returns an error if and
only if `id` is not in the session map (and then changes nothing); for a known
id it returns success whatever the session's state; it changes neither the
session limit nor which ids are in the map nor any session's metadata, state,
stdin writer, ring buffer or subscriber tables; and after any number of
`Kill(id)` calls on a known id a further `Kill(id)` returns success. -/
theorem kill_spec (m : Manager) (id : String) :
    ((m.Kill id).2.isSome = true ↔ mapGet id m.sessions = none) ∧
    (mapGet id m.sessions = none → m.Kill id = (m, some ("session not found: " ++ id))) ∧
    (∀ ms, mapGet id m.sessions = some ms → (m.Kill id).2 = none) ∧
    (m.Kill id).1.maxSessions = m.maxSessions ∧
    (∀ id2, (mapGet id2 (m.Kill id).1.sessions).map managedSession.view
      = (mapGet id2 m.sessions).map managedSession.view) ∧
    (∀ (n : Nat) (ms : managedSession), mapGet id m.sessions = some ms →
      (((fun x => (Manager.Kill x id).1)^[n] m).Kill id).2 = none) := by
  have hnone : mapGet id m.sessions = none →
      m.Kill id = (m, some ("session not found: " ++ id)) := by
    intro h
    simp only [Manager.Kill, h]
  refine ⟨?_, hnone, fun ms h => m.kill_known id ms h, ?_, fun id2 => m.kill_view id id2, ?_⟩
  · constructor
    · intro h
      cases hget : mapGet id m.sessions with
      | none => rfl
      | some ms => rw [m.kill_known id ms hget] at h; simp at h
    · intro h
      rw [hnone h]; rfl
  · unfold Manager.Kill
    cases mapGet id m.sessions with
    | none => rfl
    | some ms =>
      simp only
      split
      · rfl
      · split <;> rfl
  · intro n ms h
    exact Manager.kill_repeat id n m ms h

/-- C12 at the demo manager: two `Kill` calls on the active session `s1`
succeed, and the session's state stays `active`. -/
theorem kill_spec_witness :
    (∃ ms, mapGet "s1" demoActive.sessions = some ms) ∧
    (((fun x => (Manager.Kill x "s1").1)^[1] demoActive).Kill "s1").2 = none := by
  have hget : mapGet "s1" demoActive.sessions = some
      { Session := { ID := "s1", State := StateActive, WorkDir := "/work", CreatedAt := 7,
                     Label := "demo" }
        cmd := { Path := "/usr/bin/claude", Dir := "/work", started := true, interrupts := 0,
                 killTimers := 0, cancelled := false }
        stdin := { writer := { written := [], closed := false, closeCalls := 0,
                               readerGone := false },
                   closed := false }
        ringBuf := NewRingBuffer defaultRingBufCapacity
        subscribers := []
        detached := [] } := by rfl
  exact ⟨⟨_, hget⟩, (kill_spec demoActive "s1").2.2.2.2.2 1 _ hget⟩

theorem Manager.unsubscribe_unknown_session (m : Manager) (id subID : String)
    (h : mapGet id m.sessions = none) : m.Unsubscribe id subID = some m := by
  simp only [Manager.Unsubscribe, h]

theorem Manager.unsubscribe_unknown_sub (m : Manager) (id subID : String)
    (ms : managedSession) (h : mapGet id m.sessions = some ms)
    (hs : mapGet subID ms.subscribers = none) : m.Unsubscribe id subID = some m := by
  simp only [Manager.Unsubscribe, h, hs]

/-- C13: in every reachable manager state, for every session id and
subscription id, `Unsubscribe(id, subId)` returns normally. When both ids are
known it removes `subId` from that session's subscriber table and closes its
queue, which was open until then, leaving every other subscriber of the
session, the rest of the session and every other session unchanged; when the
session id or the subscription id is unknown it changes nothing; and a second
`Unsubscribe(id, subId)` returns normally and changes nothing more, so the
queue is not closed a second time. -/
theorem unsubscribe_spec (maxSessions : Int) (h0 : 0 ≤ maxSessions) (m : Manager)
    (hr : Manager.Reachable maxSessions m) (id subID : String) :
    ∃ m1, m.Unsubscribe id subID = some m1 ∧
      (mapGet id m.sessions = none → m1 = m) ∧
      (∀ ms, mapGet id m.sessions = some ms → mapGet subID ms.subscribers = none → m1 = m) ∧
      (∀ ms ch, mapGet id m.sessions = some ms → mapGet subID ms.subscribers = some ch →
        ch.closed = false ∧
        ∃ ms1, mapGet id m1.sessions = some ms1 ∧
          ms1.subscribers = mapDelete subID ms.subscribers ∧
          mapGet subID ms1.subscribers = none ∧
          (∀ sub2, sub2 ≠ subID → mapGet sub2 ms1.subscribers = mapGet sub2 ms.subscribers) ∧
          ms1.detached = (subID, { ch with closed := true }) :: ms.detached ∧
          ms1.Session = ms.Session ∧ ms1.cmd = ms.cmd ∧ ms1.stdin = ms.stdin ∧
          ms1.ringBuf = ms.ringBuf) ∧
      (∀ id2, id2 ≠ id → mapGet id2 m1.sessions = mapGet id2 m.sessions) ∧
      m1.maxSessions = m.maxSessions ∧
      m1.Unsubscribe id subID = some m1 := by
  cases hget : mapGet id m.sessions with
  | none =>
    have hu := m.unsubscribe_unknown_session id subID hget
    exact ⟨m, hu, fun _ => rfl, fun ms h => (by cases h), fun ms ch h => (by cases h),
      fun _ _ => rfl, rfl, hu⟩
  | some ms =>
    cases hsub : mapGet subID ms.subscribers with
    | none =>
      have hu := m.unsubscribe_unknown_sub id subID ms hget hsub
      refine ⟨m, hu, fun h => (by cases h), fun _ _ _ => rfl, ?_, fun _ _ => rfl, rfl, hu⟩
      intro ms2 ch h hs
      simp only [Option.some.injEq] at h
      subst h
      rw [hsub] at hs
      cases hs
    | some ch =>
      have hok := (hr.holds_inv h0).get id ms hget
      have hopen : ch.closed = false :=
        (hok.2 (subID, ch) (mem_of_mapGet subID ms.subscribers ch hsub)).1
      have hu : m.Unsubscribe id subID = some (m.setSession id
          { ms with subscribers := mapDelete subID ms.subscribers,
                    detached := (subID, { ch with closed := true }) :: ms.detached }) := by
        simp only [Manager.Unsubscribe, hget, hsub, Chan.close, hopen, Bool.false_eq_true,
          if_false, Option.map_some']
      refine ⟨_, hu, fun h => (by cases h), ?_, ?_, ?_, rfl, ?_⟩
      · intro ms2 h hs
        simp only [Option.some.injEq] at h
        subst h
        rw [hsub] at hs
        cases hs
      · intro ms2 ch2 h hs
        simp only [Option.some.injEq] at h
        subst h
        rw [hsub] at hs
        simp only [Option.some.injEq] at hs
        subst hs
        refine ⟨hopen, _, mapGet_mapInsert_self _ _ _, rfl, mapGet_mapDelete_self _ _, ?_,
          rfl, rfl, rfl, rfl, rfl⟩
        intro sub2 hne
        exact mapGet_mapDelete_ne subID sub2 _ hne
      · intro id2 hne
        exact mapGet_mapInsert_ne id id2 _ _ hne
      · exact Manager.unsubscribe_unknown_sub _ id subID _ (mapGet_mapInsert_self _ _ _)
          (mapGet_mapDelete_self _ _)

/-- C13 at the demo manager in which client `c1` is subscribed to session
`s1`: the subscription is removed and a second call changes nothing. -/
theorem unsubscribe_spec_witness :
    (0 : Int) ≤ 1 ∧ Manager.Reachable 1 demoSubscribed ∧
    ∃ m1, demoSubscribed.Unsubscribe "s1" "sub-c1-s1" = some m1 ∧
      m1.Unsubscribe "s1" "sub-c1-s1" = some m1 := by
  obtain ⟨m1, h1, _, _, _, _, _, h2⟩ :=
    unsubscribe_spec 1 (by decide) demoSubscribed demoSubscribed_reachable "s1" "sub-c1-s1"
  exact ⟨by decide, demoSubscribed_reachable, m1, h1, h2⟩

/-! ## The reaper: claims C14 and C15 -/

theorem managedSession.ExitOK.of_same {ms ms1 : managedSession} (h : ms.ExitOK)
    (hs : ms1.Session.State = ms.Session.State) (hr : ms1.ringBuf = ms.ringBuf) :
    ms1.ExitOK := by
  unfold managedSession.ExitOK
  rw [hr, hs]
  exact h

theorem Manager.ExitInv.getOK {m : Manager} (h : m.ExitInv) (id : String) (ms : managedSession)
    (hget : mapGet id m.sessions = some ms) : ms.ExitOK :=
  h (id, ms) (mem_of_mapGet id m.sessions ms hget)

theorem Manager.ExitInv.setSessionOK {m : Manager} (h : m.ExitInv) (id : String)
    (ms1 : managedSession) (hok : ms1.ExitOK) : (m.setSession id ms1).ExitInv := by
  intro p hp
  rcases mem_mapInsert id ms1 m.sessions p hp with h1 | h1
  · rw [h1]; exact hok
  · exact h p h1

/-- The session inserted by the lock phase of `Create` is in state `creating`
with a fresh ring buffer and no subscribers. -/
theorem Manager.createLocked_ok (m m1 : Manager) (env : CreateEnv) (workDir label id : String)
    (hc : m.createLocked env workDir label = .ok (m1, id)) :
    ∃ ms, m1 = m.setSession id ms ∧ ms.Session.State = StateCreating ∧
      ms.ringBuf = NewRingBuffer defaultRingBufCapacity ∧ ms.subscribers = [] ∧
      ms.detached = [] ∧ ms.stdin.closed = false ∧ (m.activeCount : Int) < m.maxSessions := by
  unfold Manager.createLocked at hc
  split at hc
  · cases hc
  · cases hc
  · split at hc
    · cases hc
    · rename_i hlim
      split at hc
      · cases hc
      · simp only at hc
        split at hc
        · cases hc
        · split at hc
          · cases hc
          · split at hc
            · cases hc
            · simp only [Except.ok.injEq, Prod.mk.injEq] at hc
              obtain ⟨hm1, hid⟩ := hc
              rw [← hm1, ← hid]
              exact ⟨_, rfl, rfl, rfl, rfl, rfl, rfl, by omega⟩

theorem fanOut_fields (ms ms1 : managedSession) (e : OutputEvent)
    (hf : fanOut ms e = some ms1) :
    ms1.Session = ms.Session ∧ ms1.ringBuf = ms.ringBuf ∧ ms1.stdin = ms.stdin ∧
      ms1.cmd = ms.cmd ∧ ms1.detached = ms.detached := by
  unfold fanOut at hf
  cases hs : sendAll e ms.subscribers with
  | none => rw [hs] at hf; simp at hf
  | some subs =>
    rw [hs] at hf
    simp only [Option.map_some', Option.some.injEq] at hf
    rw [← hf]
    exact ⟨rfl, rfl, rfl, rfl, rfl⟩

theorem Manager.ExitInv.ringWriteOK {m m1 : Manager} (h : m.ExitInv) (id : String)
    (e : OutputEvent) (hw : m.ringWrite id e = some m1)
    (he : ∀ ms, mapGet id m.sessions = some ms → e.Typ = OutputExit →
      ms.Session.State = StateTerminated) : m1.ExitInv := by
  unfold Manager.ringWrite at hw
  cases hget : mapGet id m.sessions with
  | none => simp only [hget, Option.some.injEq] at hw; rw [← hw]; exact h
  | some ms =>
    simp only [hget] at hw
    cases hwr : ms.ringBuf.Write e with
    | none => simp [hwr] at hw
    | some rb =>
      simp only [hwr, Option.map_some', Option.some.injEq] at hw
      rw [← hw]
      have hok := h.getOK id ms hget
      refine h.setSessionOK id _ ⟨RingBuffer.write_wf _ _ e hok.1 hwr, ?_⟩
      intro x hx hexit
      have hbuf : rb.buf = ms.ringBuf.buf.set ms.ringBuf.pos e := by
        unfold RingBuffer.Write at hwr
        split at hwr
        · split at hwr
          · simp at hwr
          · simp only [Option.some.injEq] at hwr
            rw [← hwr]
        · simp at hwr
      simp only at hx
      rw [hbuf] at hx
      rcases List.mem_or_eq_of_mem_set hx with h1 | h1
      · exact hok.2 x h1 hexit
      · rw [h1] at hexit
        exact he ms hget hexit

theorem Manager.Step.preserves_exitInv {m m1 : Manager} (hs : Manager.Step m m1)
    (h : m.ExitInv) : m1.ExitInv := by
  cases hs with
  | createLocked _ env workDir label id hc =>
    obtain ⟨ms, hm1, hst, hrb, _⟩ := Manager.createLocked_ok _ _ env workDir label id hc
    rw [hm1]
    refine h.setSessionOK id ms ⟨by rw [hrb]; exact NewRingBuffer_wf _ (by decide), ?_⟩
    intro e he hexit
    rw [hrb] at he
    simp only [NewRingBuffer, List.mem_replicate] at he
    rw [he.2] at hexit
    exact absurd hexit (by decide)
  | createStart id ms startErr hget hst =>
    unfold Manager.createStart
    cases startErr with
    | some e =>
      intro p hp
      exact h p (mem_mapDelete id m.sessions p hp)
    | none =>
      simp only [hget]
      have hok := h.getOK id ms hget
      refine h.setSessionOK id _ ⟨hok.1, ?_⟩
      intro e he hexit
      have := hok.2 e he hexit
      rw [hst] at this
      exact absurd this (by decide)
  | scanWrite _ id ms stream line now hget _ hstream hw =>
    refine h.ringWriteOK id _ hw ?_
    intro ms2 _ hexit
    simp only [scanEvent] at hexit
    rcases hstream with h1 | h1
    · rw [h1] at hexit; exact absurd hexit (by decide)
    · rw [h1] at hexit; exact absurd hexit (by decide)
  | reaperWrite _ id ms code now hget hterm hw =>
    refine h.ringWriteOK id _ hw ?_
    intro ms2 hget2 _
    rw [hget] at hget2
    simp only [Option.some.injEq] at hget2
    rw [← hget2]
    exact hterm
  | fanOut _ id e hf =>
    unfold Manager.fanOutAt at hf
    cases hget : mapGet id m.sessions with
    | none => rw [hget] at hf; simp only [Option.some.injEq] at hf; rw [← hf]; exact h
    | some ms =>
      rw [hget] at hf
      simp only at hf
      cases hfo : ClaudePunk.fanOut ms e with
      | none => rw [hfo] at hf; simp at hf
      | some ms1 =>
        rw [hfo] at hf
        simp only [Option.map_some', Option.some.injEq] at hf
        rw [← hf]
        obtain ⟨hsess, hrb, _⟩ := fanOut_fields ms ms1 e hfo
        exact h.setSessionOK id ms1 ((h.getOK id ms hget).of_same (by rw [hsess]) hrb)
  | reaperCloseStdin id ms hget _ =>
    unfold Manager.reaperCloseStdin
    simp only [hget]
    exact h.setSessionOK id _ ((h.getOK id ms hget).of_same rfl rfl)
  | reaperSetTerminated id ms hget _ =>
    unfold Manager.reaperSetTerminated
    simp only [hget]
    exact h.setSessionOK id _ ⟨(h.getOK id ms hget).1, fun _ _ _ => rfl⟩
  | sendPrompt id prompt =>
    unfold Manager.SendPrompt
    cases hget : mapGet id m.sessions with
    | none => exact h
    | some ms =>
      simp only
      split
      · exact h
      · exact h.setSessionOK id _ ((h.getOK id ms hget).of_same rfl rfl)
  | kill id =>
    unfold Manager.Kill
    cases hget : mapGet id m.sessions with
    | none => exact h
    | some ms =>
      simp only
      split
      · exact h
      · split
        · exact h.setSessionOK id _ ((h.getOK id ms hget).of_same rfl rfl)
        · exact h
  | subscribe id subID =>
    unfold Manager.Subscribe Manager.subscribeSnapshot Manager.subscribeRegister
    cases hget : mapGet id m.sessions with
    | none => exact h
    | some ms =>
      simp only
      exact h.setSessionOK id _ ((h.getOK id ms hget).of_same rfl rfl)
  | unsubscribe _ id subID hu =>
    unfold Manager.Unsubscribe at hu
    cases hget : mapGet id m.sessions with
    | none => rw [hget] at hu; simp only [Option.some.injEq] at hu; rw [← hu]; exact h
    | some ms =>
      rw [hget] at hu
      simp only at hu
      cases hsub : mapGet subID ms.subscribers with
      | none => rw [hsub] at hu; simp only [Option.some.injEq] at hu; rw [← hu]; exact h
      | some ch =>
        rw [hsub] at hu
        simp only at hu
        cases hcl : ch.close with
        | none => rw [hcl] at hu; simp at hu
        | some ch1 =>
          rw [hcl] at hu
          simp only [Option.map_some', Option.some.injEq] at hu
          rw [← hu]
          exact h.setSessionOK id _ ((h.getOK id ms hget).of_same rfl rfl)
  | recv _ id subID e hr =>
    unfold Manager.recvAt at hr
    cases hget : mapGet id m.sessions with
    | none => rw [hget] at hr; simp at hr
    | some ms =>
      rw [hget] at hr
      simp only at hr
      cases hsub : mapGet subID ms.subscribers with
      | none => rw [hsub] at hr; simp at hr
      | some ch =>
        rw [hsub] at hr
        simp only at hr
        cases hrc : ch.recv with
        | none => rw [hrc] at hr; simp at hr
        | some r =>
          rw [hrc] at hr
          simp only [Option.map_some', Option.some.injEq, Prod.mk.injEq] at hr
          rw [← hr.2]
          exact h.setSessionOK id _ ((h.getOK id ms hget).of_same rfl rfl)

theorem Manager.Reachable.holds_exitInv {maxSessions : Int} {m : Manager}
    (hr : Manager.Reachable maxSessions m) : m.ExitInv := by
  induction hr with
  | init => intro p hp; simp [NewManager] at hp
  | step m m1 _ hs ih => exact hs.preserves_exitInv ih

theorem RingBuffer.mem_readAll (rb : RingBuffer) (h : rb.WF) (e : OutputEvent)
    (he : e ∈ rb.ReadAll) : e ∈ rb.buf := by
  rw [rb.readAll_eq h] at he
  split at he
  · rcases List.mem_append.mp he with h1 | h1
    · exact List.mem_of_mem_drop h1
    · exact List.mem_of_mem_take h1
  · exact List.mem_of_mem_take he

set_option maxRecDepth 100000 in
/-- C14 (counterexample): the state in which the reaper of session `s1` has
closed the stdin writer and set the state to `terminated`, and has not yet
written the exit event, is reachable; there the session is `terminated` and
its ring buffer holds no event at all. -/
theorem terminated_before_exit_event :
    Manager.Reachable 1 terminatingManager ∧
    (mapGet "s1" terminatingManager.sessions).map
        (fun ms => (ms.Session.State, ms.ringBuf.ReadAll))
      = some (StateTerminated, []) := by
  refine ⟨?_, by rfl⟩
  exact .step _ _ closingManager_reachable
    (.reaperSetTerminated closingManager "s1" _ (by rfl) (by rfl))

/-- C14 (amended): in every reachable state of the manager's step relation,
in which the reaper's steps are separate atomic steps, a session whose ring
buffer holds an exit event is in state `terminated`. (The converse is left
out: the reaper sets the state before it writes the event.) -/
theorem exit_event_implies_terminated (maxSessions : Int) (m : Manager)
    (hr : Manager.Reachable maxSessions m) (id : String) (ms : managedSession)
    (hget : mapGet id m.sessions = some ms) (e : OutputEvent)
    (he : e ∈ ms.ringBuf.ReadAll) (hexit : e.Typ = OutputExit) :
    ms.Session.State = StateTerminated := by
  have hok := hr.holds_exitInv.getOK id ms hget
  exact hok.2 e (ms.ringBuf.mem_readAll hok.1 e he) hexit

theorem Manager.mapGet_setSession_self (m : Manager) (id : String) (ms : managedSession) :
    mapGet id (m.setSession id ms).sessions = some ms :=
  mapGet_mapInsert_self id ms m.sessions

/-- The reaper, unfolded on a session that is in the map: the state after the
two state steps, on which the exit event is written and fanned out. -/
theorem Manager.waitForExit_eq (m : Manager) (id : String) (ms : managedSession)
    (res : WaitResult) (now : Nat) (hget : mapGet id m.sessions = some ms) :
    m.waitForExit id res now =
      (((m.reaperCloseStdin id).reaperSetTerminated id).ringWrite id
          (exitEvent ms (waitExitCode res) now)).bind
        (fun m3 => m3.fanOutAt id (exitEvent ms (waitExitCode res) now)) ∧
    mapGet id (m.reaperCloseStdin id).sessions = some { ms with stdin := ms.stdin.Close } ∧
    mapGet id ((m.reaperCloseStdin id).reaperSetTerminated id).sessions
      = some { ms with stdin := ms.stdin.Close,
                       Session := { ms.Session with State := StateTerminated } } := by
  have h1 : mapGet id (m.reaperCloseStdin id).sessions
      = some { ms with stdin := ms.stdin.Close } := by
    simp only [Manager.reaperCloseStdin, hget, Manager.mapGet_setSession_self]
  have h2 : mapGet id ((m.reaperCloseStdin id).reaperSetTerminated id).sessions
      = some { ms with stdin := ms.stdin.Close,
                       Session := { ms.Session with State := StateTerminated } } := by
    simp only [Manager.reaperSetTerminated, h1, Manager.mapGet_setSession_self]
  refine ⟨?_, h1, h2⟩
  simp only [Manager.waitForExit, h2]
  show (match ((m.reaperCloseStdin id).reaperSetTerminated id).ringWrite id
      (exitEvent ms (waitExitCode res) now) with
    | none => none
    | some m3 => m3.fanOutAt id (exitEvent ms (waitExitCode res) now)) = _
  cases ((m.reaperCloseStdin id).reaperSetTerminated id).ringWrite id
      (exitEvent ms (waitExitCode res) now) with
  | none => rfl
  | some m3 => rfl

/-- A run of the reaper on an active session is a sequence of four steps of
the transition system. -/
theorem Manager.waitForExit_reachable {maxSessions : Int} (m m1 : Manager)
    (hr : Manager.Reachable maxSessions m) (id : String) (ms : managedSession)
    (res : WaitResult) (now : Nat) (hget : mapGet id m.sessions = some ms)
    (hact : ms.Session.State = StateActive)
    (hw : m.waitForExit id res now = some m1) : Manager.Reachable maxSessions m1 := by
  obtain ⟨heq, h1, h2⟩ := m.waitForExit_eq id ms res now hget
  rw [heq] at hw
  cases hrw : ((m.reaperCloseStdin id).reaperSetTerminated id).ringWrite id
      (exitEvent ms (waitExitCode res) now) with
  | none => rw [hrw] at hw; simp at hw
  | some m3 =>
    rw [hrw] at hw
    simp only [Option.some_bind] at hw
    have r1 : Manager.Reachable maxSessions (m.reaperCloseStdin id) :=
      .step _ _ hr (.reaperCloseStdin m id ms hget hact)
    have r2 : Manager.Reachable maxSessions ((m.reaperCloseStdin id).reaperSetTerminated id) :=
      .step _ _ r1 (.reaperSetTerminated _ id _ h1 hact)
    have r3 : Manager.Reachable maxSessions m3 :=
      .step _ _ r2 (.reaperWrite _ m3 id _ (waitExitCode res) now h2 rfl hrw)
    exact .step _ _ r3 (.fanOut m3 m1 id _ hw)

/-- The reaper on a session whose ring buffer holds `prev` and whose
registered queues are open: it returns normally, the session ends with its
stdin writer closed and its state `terminated`, the ring buffer holds `prev`
followed by exactly one new event, the exit event with payload
`exit_code:<waitExitCode res>`, and that event is offered once to every
registered queue. -/
theorem Manager.waitForExit_spec (m : Manager) (id : String) (ms : managedSession)
    (res : WaitResult) (now : Nat) (prev : List OutputEvent)
    (hget : mapGet id m.sessions = some ms) (hring : ms.ringBuf.Holds prev)
    (hopen : ∀ p ∈ ms.subscribers, p.2.closed = false) :
    ∃ m1 ms1, m.waitForExit id res now = some m1 ∧ mapGet id m1.sessions = some ms1 ∧
      ms1.Session.State = StateTerminated ∧ ms1.stdin.closed = true ∧
      ms1.ringBuf.Holds (prev ++
        [{ SessionID := ms.Session.ID, Typ := OutputExit,
           Data := "exit_code:" ++ toString (waitExitCode res), Timestamp := now }]) ∧
      ms1.subscribers = ms.subscribers.map (fun p =>
        (p.1, if p.2.items.length < p.2.cap then
                { p.2 with items := p.2.items ++
                    [{ SessionID := ms.Session.ID, Typ := OutputExit,
                       Data := "exit_code:" ++ toString (waitExitCode res),
                       Timestamp := now }] }
              else p.2)) := by
  obtain ⟨heq, _, h2⟩ := m.waitForExit_eq id ms res now hget
  obtain ⟨rb, hwr, hholds⟩ := ms.ringBuf.write_holds prev
    (exitEvent ms (waitExitCode res) now) hring
  have hrw : ((m.reaperCloseStdin id).reaperSetTerminated id).ringWrite id
      (exitEvent ms (waitExitCode res) now)
      = some (((m.reaperCloseStdin id).reaperSetTerminated id).setSession id
          { ms with stdin := ms.stdin.Close,
                    Session := { ms.Session with State := StateTerminated },
                    ringBuf := rb }) := by
    simp only [Manager.ringWrite, h2, hwr, Option.map_some']
  have hsend := sendAll_spec (exitEvent ms (waitExitCode res) now) ms.subscribers hopen
  rw [heq, hrw]
  simp only [Option.some_bind, Manager.fanOutAt, Manager.mapGet_setSession_self, fanOut, hsend,
    Option.map_some']
  refine ⟨_, _, rfl, Manager.mapGet_setSession_self _ _ _, rfl, ?_, hholds, rfl⟩
  simp only [stdinWriter.Close]
  split <;> simp_all

/-- C14 (amended) at the demo manager after the reaper of session `s1` ran
for a process that exited with code 2: the state is reachable, the ring buffer
holds the exit event, and the session is `terminated`. -/
theorem exit_event_implies_terminated_witness :
    ∃ m1 ms1, demoSubscribed.waitForExit "s1" (.exitError 2) 10 = some m1 ∧
      Manager.Reachable 1 m1 ∧ mapGet "s1" m1.sessions = some ms1 ∧
      (∃ e ∈ ms1.ringBuf.ReadAll, e.Typ = OutputExit) ∧
      ms1.Session.State = StateTerminated := by
  have hget : mapGet "s1" demoSubscribed.sessions = some demoSubscribedSession := by rfl
  obtain ⟨m1, ms1, hw, hget1, _, _, hholds, _⟩ :=
    demoSubscribed.waitForExit_spec "s1" demoSubscribedSession (.exitError 2) 10 [] hget
      (NewRingBuffer_holds _ (by decide)) (by decide)
  have hreach : Manager.Reachable 1 m1 :=
    Manager.waitForExit_reachable demoSubscribed m1 demoSubscribed_reachable "s1"
      demoSubscribedSession (.exitError 2) 10 hget rfl hw
  have hread := ms1.ringBuf.readAll_of_holds _ hholds
  have hmem : (⟨"s1", OutputExit, "exit_code:" ++ toString (waitExitCode (.exitError 2)), 10⟩ :
      OutputEvent) ∈ ms1.ringBuf.ReadAll := by
    rw [hread]
    have hcap : 1 ≤ ms1.ringBuf.capacity := by
      have := hholds.1.2
      omega
    simp only [List.nil_append, List.length_singleton, lastN]
    rw [Nat.min_eq_left hcap]
    exact List.mem_singleton.mpr rfl
  exact ⟨m1, ms1, hw, hreach, hget1, ⟨_, hmem, rfl⟩,
    exit_event_implies_terminated 1 m1 hreach "s1" ms1 hget1 _ hmem rfl⟩

set_option maxRecDepth 100000 in
/-- C15 (counterexample): when the wait on the subprocess of session `s1`
returns an error that is not an exit error, the claim expects the payload
`exit_code:-1`; the reaper writes one exit event with payload `exit_code:0`. -/
theorem reaper_other_error_code_zero :
    claimedExitCode .otherError = -1 ∧
    ((demoSubscribed.waitForExit "s1" .otherError 10).bind
        (fun m1 => mapGet "s1" m1.sessions)).map
          (fun ms1 => ms1.ringBuf.ReadAll.map (fun e => (e.Typ, e.Data)))
      = some [("exit", "exit_code:0")] := by
  refine ⟨by rfl, by rfl⟩

/-- C15 (amended): for every outcome of waiting on the subprocess, the reaper,
run on a session whose ring buffer holds the history `prev` and whose
registered queues are open, returns normally and emits exactly one event: the
ring buffer then holds `prev` followed by one exit event, which is also
offered once to every registered queue, and whose payload is `exit_code:<N>`
where `N` is 0 when the wait returned no error, the code reported by the exit
error when it returned an exit error, and 0 when it returned any other
error. -/
theorem reaper_emits_one_exit_event (m : Manager) (id : String) (ms : managedSession)
    (res : WaitResult) (now : Nat) (prev : List OutputEvent)
    (hget : mapGet id m.sessions = some ms) (hring : ms.ringBuf.Holds prev)
    (hopen : ∀ p ∈ ms.subscribers, p.2.closed = false) :
    (waitExitCode .ok = 0 ∧ (∀ code, waitExitCode (.exitError code) = code) ∧
      waitExitCode .otherError = 0) ∧
    ∃ m1 ms1 ev, m.waitForExit id res now = some m1 ∧ mapGet id m1.sessions = some ms1 ∧
      ev = { SessionID := ms.Session.ID, Typ := OutputExit,
             Data := "exit_code:" ++ toString (waitExitCode res), Timestamp := now } ∧
      ms1.Session.State = StateTerminated ∧
      ms1.ringBuf.Holds (prev ++ [ev]) ∧
      ms1.ringBuf.ReadAll
        = (prev ++ [ev]).drop ((prev ++ [ev]).length
            - min (prev ++ [ev]).length ms1.ringBuf.capacity) ∧
      ms1.subscribers = ms.subscribers.map (fun p =>
        (p.1, if p.2.items.length < p.2.cap then { p.2 with items := p.2.items ++ [ev] }
              else p.2)) := by
  obtain ⟨m1, ms1, hw, hget1, hst, _, hholds, hsubs⟩ :=
    m.waitForExit_spec id ms res now prev hget hring hopen
  exact ⟨⟨rfl, fun _ => rfl, rfl⟩, m1, ms1, _, hw, hget1, rfl, hst, hholds,
    ms1.ringBuf.readAll_of_holds _ hholds, hsubs⟩

/-- C15 (amended) at the demo manager, for a process that exited with code 2. -/
theorem reaper_emits_one_exit_event_witness :
    ∃ m1 ms1, demoSubscribed.waitForExit "s1" (.exitError 2) 10 = some m1 ∧
      mapGet "s1" m1.sessions = some ms1 ∧
      ms1.ringBuf.Holds ([] ++ [⟨"s1", OutputExit, "exit_code:" ++ toString (2 : Int), 10⟩]) := by
  obtain ⟨_, m1, ms1, ev, hw, hget1, hev, _, hholds, _⟩ :=
    reaper_emits_one_exit_event demoSubscribed "s1" demoSubscribedSession (.exitError 2) 10 []
      (by rfl) (NewRingBuffer_holds _ (by decide)) (by decide)
  rw [hev] at hholds
  exact ⟨m1, ms1, hw, hget1, hholds⟩

/-! ## Subscription forwarding: claims C16, C17 and C18 -/

theorem Server.subscribeClient_eq (s : Server) (env : HubEnv) (c sessionID : String) :
    s.subscribeClient env c sessionID =
      if s.isSubscribed c sessionID then some s else s.subscribeClientRest env c sessionID :=
  rfl

theorem Server.sendOutputEvent_eq (s : Server) (env : HubEnv) (c : String)
    (event : OutputEvent) :
    s.sendOutputEvent env c event =
      if event.Typ = OutputExit then some s
      else s.trySend c (sessionOutputMessage env event) :=
  rfl

theorem RingBuffer.write_capacity (rb rb1 : RingBuffer) (e : OutputEvent)
    (hw : rb.Write e = some rb1) : rb1.capacity = rb.capacity := by
  unfold RingBuffer.Write at hw
  split at hw
  · split at hw
    · cases hw
    · simp only [Option.some.injEq] at hw
      rw [← hw]
  · cases hw

/-- The scanner writing the events `evs` to the ring buffer of a session that
is in the map: the writes succeed, the ring buffer holds the longer history
and keeps its capacity. -/
theorem Manager.writeLines_holds (id : String) (evs : List OutputEvent) :
    ∀ (m : Manager) (ms : managedSession) (prev : List OutputEvent),
      mapGet id m.sessions = some ms → ms.ringBuf.Holds prev →
      ∃ m1 ms1, m.writeLines id evs = some m1 ∧ mapGet id m1.sessions = some ms1 ∧
        ms1.ringBuf.Holds (prev ++ evs) ∧ ms1.ringBuf.capacity = ms.ringBuf.capacity := by
  induction evs with
  | nil =>
    intro m ms prev hget hh
    exact ⟨m, ms, rfl, hget, by simpa using hh, rfl⟩
  | cons e es ih =>
    intro m ms prev hget hh
    obtain ⟨rb1, hw, h1⟩ := ms.ringBuf.write_holds prev e hh
    obtain ⟨m2, ms2, hw2, hget2, hh2, hcap2⟩ :=
      ih (m.setSession id { ms with ringBuf := rb1 }) { ms with ringBuf := rb1 } (prev ++ [e])
        (Manager.mapGet_setSession_self _ _ _) h1
    refine ⟨m2, ms2, ?_, hget2, by simpa using hh2, ?_⟩
    · simp only [Manager.writeLines, Manager.ringWrite, hget, hw, Option.map_some',
        Option.some_bind]
      exact hw2
    · rw [hcap2]
      exact RingBuffer.write_capacity _ _ _ hw

theorem longHistory_length : longHistory.length = 300 := by
  simp [longHistory]

/-- The session `s1` of `longHistoryManager` is in the map and its ring buffer
reads back the 300 lines. -/
theorem longHistorySession_spec :
    mapGet "s1" longHistoryManager.sessions = some longHistorySession ∧
    longHistorySession.ringBuf.ReadAll = longHistory := by
  obtain ⟨ms0, hget0, hrb0⟩ : ∃ ms0, mapGet "s1" demoActive.sessions = some ms0 ∧
      ms0.ringBuf = NewRingBuffer defaultRingBufCapacity := ⟨_, rfl, rfl⟩
  have hh0 : ms0.ringBuf.Holds [] := by
    rw [hrb0]
    exact NewRingBuffer_holds _ (by decide)
  obtain ⟨m1, ms1, hw, hget1, hh1, hcap1⟩ :=
    Manager.writeLines_holds "s1" longHistory demoActive ms0 [] hget0 hh0
  have hm : longHistoryManager = m1 := by
    simp only [longHistoryManager, hw, Option.getD_some]
  have hs : longHistorySession = ms1 := by
    simp only [longHistorySession, hm, hget1, Option.getD_some]
  rw [hm, hs]
  refine ⟨hget1, ?_⟩
  rw [ms1.ringBuf.readAll_of_holds _ hh1, hcap1, hrb0]
  simp only [List.nil_append, longHistory_length]
  exact lastN_of_length_le _ _ (by rw [longHistory_length]; decide)

/-- The replay loop on an open queue: every event that is not an exit event
becomes one `session.output` message, and the messages are put on the queue of
client `c` in order as long as it has room; the rest is dropped; nothing else
changes. -/
theorem Server.sendHistory_open (env : HubEnv) (c : String) (history : List OutputEvent) :
    ∀ (s : Server) (cl : client), mapGet c s.clientObjs = some cl → cl.send.closed = false →
      (∀ e ∈ history, e.Typ ≠ OutputExit) →
      ∃ s1 cl1, s.sendHistory env c history = some s1 ∧
        s1.sessionMgr = s.sessionMgr ∧ s1.fileWatch = s.fileWatch ∧ s1.clients = s.clients ∧
        s1.subscriptions = s.subscriptions ∧ s1.forwarders = s.forwarders ∧
        s1.calls = s.calls ∧
        (∀ c2, c2 ≠ c → mapGet c2 s1.clientObjs = mapGet c2 s.clientObjs) ∧
        mapGet c s1.clientObjs = some cl1 ∧ cl1.send.cap = cl.send.cap ∧
        cl1.send.closed = false ∧
        cl1.send.items = cl.send.items ++
          (history.map (sessionOutputMessage env)).take (cl.send.cap - cl.send.items.length) := by
  induction history with
  | nil =>
    intro s cl hc hopen _
    exact ⟨s, cl, rfl, rfl, rfl, rfl, rfl, rfl, rfl, fun _ _ => rfl, hc, rfl, hopen,
      by simp⟩
  | cons e rest ih =>
    intro s cl hc hopen hkind
    have hne : e.Typ ≠ OutputExit := hkind e (List.mem_cons_self _ _)
    obtain ⟨cl1, hsend, hcap1, hopen1, hitems1⟩ :=
      Server.trySend_open s c (sessionOutputMessage env e) cl hc hopen
    obtain ⟨s2, cl2, hs2, h1, h2, h3, h4, h5, h6, h7, h8, h9, h10, h11⟩ :=
      ih { s with clientObjs := mapInsert c cl1 s.clientObjs } cl1
        (mapGet_mapInsert_self _ _ _) hopen1
        (fun x hx => hkind x (List.mem_cons_of_mem _ hx))
    refine ⟨s2, cl2, ?_, h1, h2, h3, h4, h5, h6, ?_, h8, by rw [h9, hcap1], h10, ?_⟩
    · simp only [Server.sendHistory, Server.sendOutputEvent_eq, hne, if_false, hsend]
      exact hs2
    · intro c2 hc2
      rw [h7 c2 hc2]
      exact mapGet_mapInsert_ne c c2 _ _ hc2
    · rw [h11, hcap1, hitems1]
      by_cases hroom : cl.send.items.length < cl.send.cap
      · rw [if_pos hroom, List.length_append, List.length_singleton, List.map_cons]
        have hk : cl.send.cap - cl.send.items.length
            = (cl.send.cap - (cl.send.items.length + 1)) + 1 := by omega
        rw [hk, List.take_succ_cons, List.append_assoc, List.singleton_append]
      · rw [if_neg hroom]
        have hk : cl.send.cap - cl.send.items.length = 0 := by omega
        rw [hk, List.take_zero, List.take_zero]

/-- The body of `subscribeClient` for a client without a subscription to the
session: the subscription is registered with an empty queue, the history is
replayed as far as the client's queue has room, and the forwarding task is
recorded last. -/
theorem Server.subscribeClient_new (s : Server) (env : HubEnv) (c sessionID : String)
    (ms : managedSession) (cl : client)
    (hnew : s.isSubscribed c sessionID = false)
    (hget : mapGet sessionID s.sessionMgr.sessions = some ms)
    (hexit : ∀ e ∈ ms.ringBuf.ReadAll, e.Typ ≠ OutputExit)
    (hc : mapGet c s.clientObjs = some cl) (hopen : cl.send.closed = false) :
    ∃ s1 cl1 ms1, s.subscribeClient env c sessionID = some s1 ∧
      mapGet c s1.clientObjs = some cl1 ∧
      cl1.send.items = cl.send.items ++
        (ms.ringBuf.ReadAll.map (sessionOutputMessage env)).take
          (cl.send.cap - cl.send.items.length) ∧
      (∀ c2, c2 ≠ c → mapGet c2 s1.clientObjs = mapGet c2 s.clientObjs) ∧
      s1.forwarders = (c, sessionID, env.subID c sessionID) :: s.forwarders ∧
      mapGet sessionID s1.sessionMgr.sessions = some ms1 ∧
      mapGet (env.subID c sessionID) ms1.subscribers
        = some (Chan.make defaultSubscriberBufCap) ∧
      ms1.ringBuf = ms.ringBuf := by
  obtain ⟨s1, cl1, hs1, h1, _, _, _, h5, _, h7, h8, _, _, h11⟩ :=
    Server.sendHistory_open env c ms.ringBuf.ReadAll
      { s with calls := s.calls ++ [Call.mgrSubscribe sessionID],
               sessionMgr := s.sessionMgr.subscribeRegister sessionID (env.subID c sessionID),
               subscriptions := mapInsert c
                 (mapInsert sessionID (env.subID c sessionID)
                   ((mapGet c s.subscriptions).getD [])) s.subscriptions }
      cl hc hopen hexit
  obtain ⟨ms1, hms1, hq, hring⟩ : ∃ ms1 : managedSession,
      mapGet sessionID (s.sessionMgr.subscribeRegister sessionID (env.subID c sessionID)).sessions
        = some ms1 ∧
      mapGet (env.subID c sessionID) ms1.subscribers
        = some (Chan.make defaultSubscriberBufCap) ∧
      ms1.ringBuf = ms.ringBuf := by
    simp only [Manager.subscribeRegister, hget, Manager.mapGet_setSession_self]
    exact ⟨_, rfl, mapGet_mapInsert_self _ _ _, rfl⟩
  obtain ⟨s2, hs2, hf, hobj, hmgr⟩ : ∃ s2 : Server,
      s.subscribeClient env c sessionID = some s2 ∧
      s2.forwarders = (c, sessionID, env.subID c sessionID) :: s1.forwarders ∧
      s2.clientObjs = s1.clientObjs ∧ s2.sessionMgr = s1.sessionMgr := by
    rw [Server.subscribeClient_eq, hnew]
    simp only [Bool.false_eq_true, if_false, Server.subscribeClientRest, Manager.Subscribe,
      Manager.subscribeSnapshot, hget, hs1]
    exact ⟨_, rfl, rfl, rfl, rfl⟩
  refine ⟨s2, cl1, ms1, hs2, ?_, ?_, ?_, ?_, ?_, hq, hring⟩
  · rw [hobj]; exact h8
  · rw [h11]
  · intro c2 hc2; rw [hobj]; exact h7 c2 hc2
  · rw [hf, h5]
  · rw [hmgr, h1]; exact hms1

set_option maxRecDepth 100000 in
/-- C16 (evaluation of the code at the failing input): client `c1` subscribes,
through `subscribeAllClients`, to session `s1` whose ring buffer holds the
history `[stdout L1, exit with code 2]`. The replay enqueues, after the
earlier `session.update`, one `session.output` for `L1` and no
`session.terminated`; the new subscription queue is empty, so the forwarding
task has nothing to handle and the client's queue stays as it is. The same
exit event, when it is handled by the forwarding task, gives one
`session.terminated` with exit code 2. -/
theorem history_exit_event_not_forwarded :
    (lateHistoryHub.bind (fun s => mapGet "s1" s.sessionMgr.sessions)).map
        (fun ms => (ms.ringBuf.ReadAll.map (fun e => (e.Typ, e.Data)),
                    ms.subscribers.map (fun p => (p.1, p.2.items))))
      = some ([("stdout", "L1"), ("exit", "exit_code:2")], [("sub-c1-s1", [])]) ∧
    lateHistoryHub.map (fun s => s.pending "c1")
      = some [demoUpdateMessage, sessionOutputMessage demoHubEnv lineL1] ∧
    (lateHistoryHub.bind (fun s => s.forwardStep demoHubEnv "c1" "s1" "sub-c1-s1")).map
        (fun s => s.pending "c1")
      = some [demoUpdateMessage, sessionOutputMessage demoHubEnv lineL1] ∧
    ((freshHub 1).forwardEvent demoHubEnv "c1" "s1"
        { SessionID := "s1", Typ := OutputExit, Data := "exit_code:2", Timestamp := 10 }).map
        (fun s => s.pending "c1")
      = some [sessionTerminatedMessage demoHubEnv "s1" 2] := by
  refine ⟨by rfl, by rfl, by rfl, by rfl⟩

theorem numberedLine_kind : ∀ e ∈ longHistory, e.Typ = OutputStdout := by
  intro e he
  simp only [longHistory, List.mem_map] at he
  obtain ⟨i, _, rfl⟩ := he
  rfl

/-- C17 (counterexample): session `s1` has produced 300 stdout lines, which
its ring buffer holds; client `c1` is connected, its outbound queue is open and
empty, so it has room for 256 messages, and it is not subscribed.
`subscribeClient` returns normally with the `session.output` messages of the
first 256 lines on the queue of `c1`: the messages of the last 44 lines are not
enqueued. -/
theorem subscribeClient_drops_history_beyond_room :
    mapGet "c1" longHistoryHub.clientObjs = some { send := Chan.make 256 } ∧
    longHistoryHub.isSubscribed "c1" "s1" = false ∧
    mapGet "s1" longHistoryHub.sessionMgr.sessions = some longHistorySession ∧
    longHistorySession.ringBuf.ReadAll = longHistory ∧
    longHistory.length = 300 ∧
    (∀ e ∈ longHistory, e.Typ = OutputStdout) ∧
    ∃ s1, longHistoryHub.subscribeClient demoHubEnv "c1" "s1" = some s1 ∧
      s1.pending "c1" = (longHistory.take 256).map (fun e =>
        { Typ := "session.output"
          Payload := some (.obj [("sessionId", .str e.SessionID), ("stream", .str "stdout"),
                                 ("data", .str e.Data)])
          Timestamp := some 9 }) ∧
      (s1.pending "c1").length = 256 := by
  obtain ⟨hget, hread⟩ := longHistorySession_spec
  have hexit : ∀ e ∈ longHistorySession.ringBuf.ReadAll, e.Typ ≠ OutputExit := by
    intro e he h
    rw [hread] at he
    rw [numberedLine_kind e he] at h
    exact absurd h (by decide)
  obtain ⟨s1, cl1, ms1, hs1, hc1, hitems, _⟩ :=
    Server.subscribeClient_new longHistoryHub demoHubEnv "c1" "s1" longHistorySession
      { send := Chan.make 256 } rfl hget hexit rfl rfl
  have hpend : s1.pending "c1" = (longHistory.take 256).map (fun e =>
        ({ Typ := "session.output"
           Payload := some (.obj [("sessionId", .str e.SessionID), ("stream", .str "stdout"),
                                  ("data", .str e.Data)])
           Timestamp := some 9 } : Message)) := by
    simp only [Server.pending, hc1, hitems, hread]
    have h0 : (Chan.make 256 : Chan Message).items = [] := rfl
    have hcap : (Chan.make 256 : Chan Message).cap = 256 := rfl
    rw [h0, hcap, List.nil_append, List.length_nil, Nat.sub_zero, ← List.map_take]
    apply List.map_congr_left
    intro e he
    have hk := numberedLine_kind e (List.mem_of_mem_take he)
    simp only [sessionOutputMessage, hk]
    rfl
  refine ⟨rfl, rfl, hget, hread, longHistory_length, numberedLine_kind, s1, hs1, hpend, ?_⟩
  rw [hpend, List.length_map, List.length_take, longHistory_length]
  rfl

/-- C17 (amended): for every client whose outbound queue is open and every
session whose ring buffer holds only stdout/stderr events `e1..en`,
`subscribeClient` returns normally. If the client already has a subscription
to the session, nothing changes. Otherwise it appends to that client's queue,
in ring-buffer order, the `session.output` messages of the first `k` events,
where `k` is the smaller of `n` and the number of free places of the queue
(all `n` when the queue has room for the whole history), each with the event's
session id, its kind as stream and its line as data; the messages of the
remaining events are dropped; no other client's queue changes; and only then
is the forwarding task recorded as started, while the subscription queue it
will read is registered and still empty. -/
theorem subscribeClient_replays_history (s : Server) (env : HubEnv) (c sessionID : String)
    (ms : managedSession) (cl : client)
    (hget : mapGet sessionID s.sessionMgr.sessions = some ms)
    (hkind : ∀ e ∈ ms.ringBuf.ReadAll, e.Typ = OutputStdout ∨ e.Typ = OutputStderr)
    (hc : mapGet c s.clientObjs = some cl) (hopen : cl.send.closed = false) :
    (s.isSubscribed c sessionID = true → s.subscribeClient env c sessionID = some s) ∧
    (s.isSubscribed c sessionID = false →
      ∃ s1 cl1 ms1, s.subscribeClient env c sessionID = some s1 ∧
        mapGet c s1.clientObjs = some cl1 ∧
        cl1.send.items = cl.send.items ++
          ((ms.ringBuf.ReadAll.take (cl.send.cap - cl.send.items.length)).map (fun e =>
            { Typ := "session.output"
              Payload := some (.obj [("sessionId", .str e.SessionID), ("stream", .str e.Typ),
                                     ("data", .str e.Data)])
              Timestamp := some env.now })) ∧
        (cl.send.items.length + ms.ringBuf.ReadAll.length ≤ cl.send.cap →
          cl1.send.items = cl.send.items ++
            (ms.ringBuf.ReadAll.map (fun e =>
              { Typ := "session.output"
                Payload := some (.obj [("sessionId", .str e.SessionID), ("stream", .str e.Typ),
                                       ("data", .str e.Data)])
                Timestamp := some env.now }))) ∧
        (∀ c2, c2 ≠ c → mapGet c2 s1.clientObjs = mapGet c2 s.clientObjs) ∧
        s1.forwarders = (c, sessionID, env.subID c sessionID) :: s.forwarders ∧
        mapGet sessionID s1.sessionMgr.sessions = some ms1 ∧
        mapGet (env.subID c sessionID) ms1.subscribers
          = some (Chan.make defaultSubscriberBufCap) ∧
        ms1.ringBuf = ms.ringBuf) := by
  refine ⟨?_, ?_⟩
  · intro hsub
    rw [Server.subscribeClient_eq, hsub]
    rfl
  intro hnew
  have hexit : ∀ e ∈ ms.ringBuf.ReadAll, e.Typ ≠ OutputExit := by
    intro e he h
    rcases hkind e he with h1 | h1
    · rw [h1] at h; exact absurd h (by decide)
    · rw [h1] at h; exact absurd h (by decide)
  have hmsgs : ∀ l : List OutputEvent, (∀ e ∈ l, e ∈ ms.ringBuf.ReadAll) →
      l.map (sessionOutputMessage env)
      = l.map (fun e =>
        ({ Typ := "session.output"
           Payload := some (.obj [("sessionId", .str e.SessionID), ("stream", .str e.Typ),
                                  ("data", .str e.Data)])
           Timestamp := some env.now } : Message)) := by
    intro l hl
    apply List.map_congr_left
    intro e he
    rcases hkind e (hl e he) with h1 | h1
    · simp only [sessionOutputMessage, h1]
      rfl
    · simp only [sessionOutputMessage, h1]
      rfl
  obtain ⟨s1, cl1, ms1, hs1, hc1, hitems, hother, hfw, hms1, hq, hring⟩ :=
    Server.subscribeClient_new s env c sessionID ms cl hnew hget hexit hc hopen
  have htake : cl1.send.items = cl.send.items ++
      ((ms.ringBuf.ReadAll.take (cl.send.cap - cl.send.items.length)).map (fun e =>
        ({ Typ := "session.output"
           Payload := some (.obj [("sessionId", .str e.SessionID), ("stream", .str e.Typ),
                                  ("data", .str e.Data)])
           Timestamp := some env.now } : Message))) := by
    rw [hitems, ← List.map_take, hmsgs _ (fun e he => List.mem_of_mem_take he)]
  refine ⟨s1, cl1, ms1, hs1, hc1, htake, ?_, hother, hfw, hms1, hq, hring⟩
  intro hroom
  rw [htake, List.take_of_length_le (by omega)]

set_option maxRecDepth 100000 in
/-- C17 (amended) at the scenario of the spec: session `s1` has produced the
stdout lines `L1, L2, L3` and client `c1`, connected with an empty queue of
capacity 256, is not subscribed; `subscribeClient` enqueues the three
`session.output` messages in that order and then records the forwarding task;
a later line `L4`, handled by the forwarding task, becomes the fourth
message. -/
theorem subscribeClient_replays_history_witness :
    threeLineSession.ringBuf.ReadAll.map (fun e => (e.Typ, e.Data))
      = [("stdout", "L1"), ("stdout", "L2"), ("stdout", "L3")] ∧
    fourthLineHub.map (fun s => (s.pending "c1").map (fun msg => (msg.Typ, msg.Payload)))
      = some (["L1", "L2", "L3", "L4"].map (fun line =>
          ("session.output",
           some (.obj [("sessionId", .str "s1"), ("stream", .str "stdout"),
                       ("data", .str line)])))) ∧
    ∃ s1 cl1 ms1, threeLineHub.subscribeClient demoHubEnv "c1" "s1" = some s1 ∧
      mapGet "c1" s1.clientObjs = some cl1 ∧
      cl1.send.items = ["L1", "L2", "L3"].map (fun line =>
          { Typ := "session.output"
            Payload := some (.obj [("sessionId", .str "s1"), ("stream", .str "stdout"),
                                   ("data", .str line)])
            Timestamp := some 9 }) ∧
      s1.forwarders = [("c1", "s1", "sub-c1-s1")] ∧
      mapGet "s1" s1.sessionMgr.sessions = some ms1 ∧
      mapGet "sub-c1-s1" ms1.subscribers = some (Chan.make defaultSubscriberBufCap) ∧
      ms1.ringBuf = threeLineSession.ringBuf := by
  have hall : threeLineSession.ringBuf.ReadAll
      = [lineL1, { lineL1 with Data := "L2" }, { lineL1 with Data := "L3" }] := by rfl
  refine ⟨by rw [hall]; rfl, by rfl, ?_⟩
  obtain ⟨s1, cl1, ms1, h1, h2, _, h4, _, h6, h7, h8, h9⟩ :=
    (subscribeClient_replays_history threeLineHub demoHubEnv "c1" "s1" threeLineSession
      { send := Chan.make 256 } (by rfl)
      (by
        rw [hall]
        intro e he
        simp only [List.mem_cons, List.mem_singleton, List.not_mem_nil, or_false] at he
        rcases he with h | h | h <;> (rw [h]; exact Or.inl rfl))
      (by rfl) (by rfl)).2 (by rfl)
  refine ⟨s1, cl1, ms1, h1, h2, ?_, ?_, h7, h8, h9⟩
  · rw [h4 (by rw [hall]; decide), hall]
    rfl
  · rw [h6]
    rfl

set_option maxRecDepth 100000 in
/-- C18 (evaluation of the code at the failing input): two tasks call
`subscribeClient(c1, s1)`, one from `subscribeClientToActiveSessions` of the
new connection `c1`, one from `subscribeAllClients` of a `session.create`
handled for `c2`. The first makes its test when `c1` has no subscription to
`s1` and releases the lock; the second then runs completely; the first
continues past its test. Client `c1` ends with two forwarding tasks for `s1`
and, after the single exit event of the session (code 0) was fanned out and
handled by both, with two `session.terminated` messages for `s1` in its
outbound queue, while `c2` has one forwarding task. -/
theorem subscribe_twice_two_terminated :
    raceHubAtCheck.map (fun s => s.isSubscribed "c1" "s1") = some false ∧
    raceHub.map (fun s => s.forwarders)
      = some [("c1", "s1", "sub2-c1-s1"), ("c1", "s1", "sub-c1-s1"),
              ("c2", "s1", "sub-c2-s1")] ∧
    (raceHub.bind (fun s => mapGet "s1" s.sessionMgr.sessions)).map
        (fun ms => (ms.ringBuf.ReadAll.filter (fun e => e.Typ == OutputExit)).length)
      = some 1 ∧
    raceHub.map (fun s => (s.pending "c1").filter (fun msg => msg.Typ == TypeSessionTerminated))
      = some [sessionTerminatedMessage demoHubEnv "s1" 0,
              sessionTerminatedMessage demoHubEnv "s1" 0] := by
  refine ⟨by rfl, by rfl, by rfl, by rfl⟩

/-! ## The directory observer: claims C19 and C20 -/

/-- On a directory the walk function of `CountFiles` leaves the count as it
is. -/
theorem countFilesFn_dir (below : List String) (name : String) (entries : List FsNode)
    (count : Int) : (countFilesFn below (.dir name entries) count).1 = count := by
  simp only [countFilesFn, FsNode.IsDir, if_true]
  split
  · rfl
  · split <;> rfl

/-- On an entry that is not a directory the walk function of `CountFiles`
answers `nil` and adds at most one. -/
theorem countFilesFn_file (below : List String) (name : String) (size : Int)
    (content : Option String) (count : Int) :
    countFilesFn below (.file name size content) count
      = (if isHidden name && !(HasPrefix (relPath below) ".claude") then count else count + 1,
         WalkResult.nil) := by
  simp only [countFilesFn, FsNode.IsDir, Bool.false_eq_true, if_false, FsNode.Name]
  split <;> rfl

mutual
/-- The walk of `CountFiles` never lowers the count. -/
theorem walkDir_count_le (below : List String) (d : FsNode) (count : Int) :
    count ≤ (walkDir countFilesFn below d count).1 := by
  match d with
  | .file name size content =>
    rw [walkDir, countFilesFn_file]
    split <;> simp
  | .dir name entries =>
    have hd := countFilesFn_dir below name entries count
    rw [walkDir]
    rcases hfn : countFilesFn below (.dir name entries) count with ⟨st1, r⟩
    rw [hfn] at hd
    simp only at hd
    subst hd
    cases r
    · exact walkEntries_count_le below entries st1
    · exact le_refl _
/-- The loop over the entries never lowers the count. -/
theorem walkEntries_count_le (below : List String) (dirs : List FsNode) (count : Int) :
    count ≤ walkEntries countFilesFn below dirs count := by
  match dirs with
  | [] => simp [walkEntries]
  | d1 :: rest =>
    have h1 := walkDir_count_le (below ++ [d1.Name]) d1 count
    rw [walkEntries]
    rcases hw : walkDir countFilesFn (below ++ [d1.Name]) d1 count with ⟨st1, r⟩
    rw [hw] at h1
    cases r
    · exact le_trans h1 (walkEntries_count_le below rest st1)
    · exact h1
end

theorem CountFiles_nonneg (root : Option FsNode) : 0 ≤ CountFiles root := by
  cases root with
  | none => simp [CountFiles, WalkDir]
  | some d => exact walkDir_count_le [] d 0

theorem goDiv_nonneg (a b : Int) (ha : 0 ≤ a) (hb : b ≠ 0) : goDiv a b = some (Int.tdiv a b) := by
  have h : ¬ (a = -9223372036854775808 ∧ b = -1) := by
    rintro ⟨h1, _⟩
    omega
  simp only [goDiv, hb, if_false, h]

theorem tdiv_bounds (a b : Int) (ha : 0 ≤ a) (hb : 0 < b) :
    Int.tdiv a b * b ≤ a ∧ a < (Int.tdiv a b + 1) * b := by
  rw [Int.tdiv_eq_ediv ha (le_of_lt hb)]
  exact ⟨Int.ediv_mul_le a (ne_of_gt hb), Int.lt_ediv_add_one_mul_self a hb⟩

/-- The loop of `broadcast` over the clients `cs`, none of which has a closed
queue, returns normally, keeps the queues of `cs` open, leaves the records of
the clients outside `cs` alone, and appends the message to the queue of every
client of `cs` that has room. -/
theorem Server.sendEach_registered (msg : Message) : ∀ (cs : List String) (s : Server),
    (∀ c ∈ cs, ∀ cl, mapGet c s.clientObjs = some cl → cl.send.closed = false) →
    ∃ s1, s.sendEach msg cs = some s1 ∧
      (∀ c ∈ cs, ∀ cl, mapGet c s1.clientObjs = some cl → cl.send.closed = false) ∧
      (∀ c, c ∉ cs → mapGet c s1.clientObjs = mapGet c s.clientObjs) ∧
      (∀ c cl, c ∈ cs → cs.Nodup → mapGet c s.clientObjs = some cl →
        cl.send.items.length < cl.send.cap →
        ∃ cl1, mapGet c s1.clientObjs = some cl1 ∧ cl1.send.items = cl.send.items ++ [msg]) ∧
      s1.clients = s.clients := by
  intro cs
  induction cs with
  | nil =>
    intro s _
    exact ⟨s, rfl, fun c hc => absurd hc (List.not_mem_nil c), fun _ _ => rfl,
      fun c cl hc => absurd hc (List.not_mem_nil c), rfl⟩
  | cons c0 rest ih =>
    intro s hopen
    cases h0 : mapGet c0 s.clientObjs with
    | none =>
      obtain ⟨s1, hs1, ho1, hout, hin, hcl⟩ :=
        ih s (fun c hc => hopen c (List.mem_cons_of_mem _ hc))
      refine ⟨s1, ?_, ?_, ?_, ?_, hcl⟩
      · simp only [Server.sendEach, Server.trySend, h0, hs1]
      · intro c hc cl hget
        by_cases hr : c ∈ rest
        · exact ho1 c hr cl hget
        · rw [hout c hr] at hget
          exact hopen c hc cl hget
      · intro c hc
        exact hout c (fun h => hc (List.mem_cons_of_mem _ h))
      · intro c cl hc hnd hget hroom
        rcases List.mem_cons.mp hc with h | h
        · rw [h, h0] at hget
          cases hget
        · exact hin c cl h (List.nodup_cons.mp hnd).2 hget hroom
    | some cl0 =>
      obtain ⟨cl1, hsend, _, hopen1, hitems⟩ :=
        Server.trySend_open s c0 msg cl0 h0 (hopen c0 (List.mem_cons_self _ _) cl0 h0)
      have hopen2 : ∀ c ∈ rest, ∀ cl,
          mapGet c ({ s with clientObjs := mapInsert c0 cl1 s.clientObjs } : Server).clientObjs
            = some cl → cl.send.closed = false := by
        intro c hmem cl hget
        by_cases hc : c = c0
        · subst hc
          have h2 : mapGet c (mapInsert c cl1 s.clientObjs) = some cl := hget
          rw [mapGet_mapInsert_self] at h2
          cases h2
          exact hopen1
        · have h2 : mapGet c (mapInsert c0 cl1 s.clientObjs) = some cl := hget
          rw [mapGet_mapInsert_ne c0 c cl1 s.clientObjs hc] at h2
          exact hopen c (List.mem_cons_of_mem _ hmem) cl h2
      obtain ⟨s1, hs1, ho1, hout, hin, hcl⟩ := ih _ hopen2
      refine ⟨s1, ?_, ?_, ?_, ?_, hcl⟩
      · simp only [Server.sendEach, hsend, hs1]
      · intro c hc cl hget
        by_cases hr : c ∈ rest
        · exact ho1 c hr cl hget
        · have hcc : c = c0 := by
            rcases List.mem_cons.mp hc with h | h
            · exact h
            · exact absurd h hr
          subst hcc
          rw [hout c hr] at hget
          have h2 : mapGet c (mapInsert c cl1 s.clientObjs) = some cl := hget
          rw [mapGet_mapInsert_self] at h2
          cases h2
          exact hopen1
      · intro c hc
        have hne : c ≠ c0 := fun h => hc (h ▸ List.mem_cons_self _ _)
        rw [hout c (fun h => hc (List.mem_cons_of_mem _ h))]
        exact mapGet_mapInsert_ne c0 c cl1 s.clientObjs hne
      · intro c cl hc hnd hget hroom
        have hnd2 := List.nodup_cons.mp hnd
        by_cases hcc : c = c0
        · subst hcc
          rw [h0] at hget
          cases hget
          refine ⟨cl1, ?_, ?_⟩
          · rw [hout c hnd2.1]
            exact mapGet_mapInsert_self c cl1 s.clientObjs
          · rw [hitems, if_pos hroom]
        · have hmem : c ∈ rest := by
            rcases List.mem_cons.mp hc with h | h
            · exact absurd h hcc
            · exact h
          exact hin c cl hmem hnd2.2
            ((mapGet_mapInsert_ne c0 c cl1 s.clientObjs hcc).trans hget) hroom

theorem hubAfterDisconnect_eq : twoClientHub.removeClient "c1" = some hubAfterDisconnect := by
  rfl

/-- C19: with a non-zero ratio, the initial count of `Watch` and `recount`
return normally, and every callback invocation they make passes the session
id of the watched session, `fileCount = CountFiles(workDir)`, which is not
negative, and `drinkCount` equal to `fileCount / ratio` truncated toward zero;
so for a positive ratio `drinkCount * ratio ≤ fileCount < (drinkCount + 1) *
ratio`. With the callback set, the initial count makes exactly one invocation
and `recount` makes one exactly when the count differs from the last one.
The rows of `TestDrinkCountFormula` hold (142 and 20 give 7). `OnFileUpdate`
returns normally on a hub whose registered clients have open queues, whatever
records of disconnected clients with closed queues are still around; it
appends to the queue of every registered client with room the `files.update`
message whose payload holds the three values unchanged, and leaves the record
of every client outside the registry as it was. -/
theorem files_update_drink_count (w : Watcher) (fs : String → Option FsNode)
    (sw : sessionWatcher) (hr : w.fileCountRatio ≠ 0) :
    (∃ r, w.initialCount fs sw = some r ∧ (w.callback = true → r.2.length = 1) ∧
      ∀ call ∈ r.2, call.sessionID = sw.sessionID ∧
        call.fileCount = CountFiles (fs sw.workDir) ∧ 0 ≤ call.fileCount ∧
        call.drinkCount = Int.tdiv call.fileCount w.fileCountRatio ∧
        (0 < w.fileCountRatio →
          call.drinkCount * w.fileCountRatio ≤ call.fileCount ∧
          call.fileCount < (call.drinkCount + 1) * w.fileCountRatio)) ∧
    (∃ r, w.recount fs sw = some r ∧
      (w.callback = true →
        r.2.length = if CountFiles (fs sw.workDir) = sw.lastCount then 0 else 1) ∧
      ∀ call ∈ r.2, call.sessionID = sw.sessionID ∧
        call.fileCount = CountFiles (fs sw.workDir) ∧ 0 ≤ call.fileCount ∧
        call.drinkCount = Int.tdiv call.fileCount w.fileCountRatio ∧
        (0 < w.fileCountRatio →
          call.drinkCount * w.fileCountRatio ≤ call.fileCount ∧
          call.fileCount < (call.drinkCount + 1) * w.fileCountRatio)) ∧
    ([(0, 20), (19, 20), (20, 20), (39, 20), (40, 20), (100, 20), (142, 20)].map
        (fun p => goDiv p.1 p.2)
      = [some 0, some 0, some 1, some 1, some 2, some 5, some 7]) ∧
    (∀ (s : Server) (env : HubEnv) (sessionID : String) (fileCount drinkCount : Int),
      (∀ c ∈ s.clients, ∀ cl, mapGet c s.clientObjs = some cl → cl.send.closed = false) →
      ∃ s1, s.OnFileUpdate env sessionID fileCount drinkCount = some s1 ∧
        (∀ c cl, c ∈ s.clients → s.clients.Nodup → mapGet c s.clientObjs = some cl →
          cl.send.items.length < cl.send.cap →
          s1.pending c = s.pending c ++
            [{ Typ := "files.update"
               Payload := some (.obj [("sessionId", .str sessionID),
                                      ("fileCount", .num (toString fileCount)),
                                      ("drinkCount", .num (toString drinkCount))])
               Timestamp := some env.now }]) ∧
        (∀ c, c ∉ s.clients → mapGet c s1.clientObjs = mapGet c s.clientObjs) ∧
        s1.clients = s.clients) := by
  have hnn := CountFiles_nonneg (fs sw.workDir)
  have hdiv := goDiv_nonneg (CountFiles (fs sw.workDir)) w.fileCountRatio hnn hr
  have hcall : ∀ call : UpdateCall,
      call = { sessionID := sw.sessionID, fileCount := CountFiles (fs sw.workDir),
               drinkCount := Int.tdiv (CountFiles (fs sw.workDir)) w.fileCountRatio } →
      call.sessionID = sw.sessionID ∧
        call.fileCount = CountFiles (fs sw.workDir) ∧ 0 ≤ call.fileCount ∧
        call.drinkCount = Int.tdiv call.fileCount w.fileCountRatio ∧
        (0 < w.fileCountRatio →
          call.drinkCount * w.fileCountRatio ≤ call.fileCount ∧
          call.fileCount < (call.drinkCount + 1) * w.fileCountRatio) := by
    intro call h
    subst h
    exact ⟨rfl, rfl, hnn, rfl, fun hpos => tdiv_bounds _ _ hnn hpos⟩
  refine ⟨?_, ?_, by decide, ?_⟩
  · simp only [Watcher.initialCount, hdiv]
    cases hcb : w.callback
    · exact ⟨_, rfl, fun h => absurd h (by decide), fun call hc => absurd hc (List.not_mem_nil _)⟩
    · refine ⟨_, rfl, fun _ => rfl, fun call hc => hcall call ?_⟩
      simpa using hc
  · simp only [Watcher.recount, hdiv]
    by_cases hsame : CountFiles (fs sw.workDir) = sw.lastCount
    · simp only [hsame, ne_eq, not_true_eq_false, if_false, if_true]
      exact ⟨_, rfl, fun _ => rfl, fun call hc => absurd hc (List.not_mem_nil _)⟩
    · simp only [ne_eq, hsame, not_false_eq_true, if_true, if_false]
      cases hcb : w.callback
      · exact ⟨_, rfl, fun h => absurd h (by decide),
          fun call hc => absurd hc (List.not_mem_nil _)⟩
      · refine ⟨_, rfl, fun _ => rfl, fun call hc => hcall call ?_⟩
        simpa using hc
  · intro s env sessionID fileCount drinkCount hopen
    obtain ⟨s1, hs1, _, hout, hin, hcl⟩ := Server.sendEach_registered
      (NewMessage TypeFilesUpdate
        (.obj [("sessionId", .str sessionID), ("fileCount", .num (toString fileCount)),
               ("drinkCount", .num (toString drinkCount))]) env.now) s.clients s hopen
    refine ⟨s1, hs1, ?_, hout, hcl⟩
    intro c cl hc hnd hget hroom
    obtain ⟨cl1, hget1, hitems⟩ := hin c cl hc hnd hget hroom
    simp only [Server.pending, hget1, hget, hitems]
    rfl

set_option maxRecDepth 100000 in
/-- C19 at the observer of `main` (ratio 20) watching `/work`, which holds two
countable files: the initial count calls back with `("s1", 2, 0)`; and at the
hub from which client `c1` disconnected while `c2` stays connected: the record
of `c1` has a closed queue, `OnFileUpdate("s1", 142, 7)` returns normally,
puts the message with the three values on the queue of `c2` and leaves the
record of `c1` alone. -/
theorem files_update_drink_count_witness :
    demoWatcher.fileCountRatio ≠ 0 ∧
    demoWatcher.initialCount (fun _ => some (projectTree "work")) demoSessionWatcher
      = some ({ demoSessionWatcher with lastCount := 2 },
              [{ sessionID := "s1", fileCount := 2, drinkCount := 0 }]) ∧
    (∃ r, demoWatcher.recount (fun _ => some (projectTree "work")) demoSessionWatcher = some r ∧
      (demoWatcher.callback = true →
        r.2.length = if CountFiles (some (projectTree "work")) = demoSessionWatcher.lastCount
          then 0 else 1) ∧
      ∀ call ∈ r.2, call.sessionID = demoSessionWatcher.sessionID ∧
        call.fileCount = CountFiles (some (projectTree "work")) ∧ 0 ≤ call.fileCount ∧
        call.drinkCount = Int.tdiv call.fileCount demoWatcher.fileCountRatio ∧
        (0 < demoWatcher.fileCountRatio →
          call.drinkCount * demoWatcher.fileCountRatio ≤ call.fileCount ∧
          call.fileCount < (call.drinkCount + 1) * demoWatcher.fileCountRatio)) ∧
    twoClientHub.removeClient "c1" = some hubAfterDisconnect ∧
    hubAfterDisconnect.clients = ["c2"] ∧
    mapGet "c1" hubAfterDisconnect.clientObjs
      = some { send := { items := [], cap := 256, closed := true } } ∧
    ∃ s1, hubAfterDisconnect.OnFileUpdate demoHubEnv "s1" 142 7 = some s1 ∧
      s1.pending "c2" =
        [{ Typ := "files.update"
           Payload := some (.obj [("sessionId", .str "s1"), ("fileCount", .num "142"),
                                  ("drinkCount", .num "7")])
           Timestamp := some 9 }] ∧
      mapGet "c1" s1.clientObjs
        = some { send := { items := [], cap := 256, closed := true } } := by
  have hw := files_update_drink_count demoWatcher (fun _ => some (projectTree "work"))
    demoSessionWatcher (by decide)
  have hopen : ∀ c ∈ hubAfterDisconnect.clients, ∀ cl,
      mapGet c hubAfterDisconnect.clientObjs = some cl → cl.send.closed = false := by
    intro c hc cl hget
    have hc2 : c = "c2" := by simpa [hubAfterDisconnect] using hc
    subst hc2
    have h2 : mapGet "c2" hubAfterDisconnect.clientObjs = some { send := Chan.make 256 } := rfl
    rw [h2] at hget
    cases hget
    rfl
  obtain ⟨s1, h1, hin, hout, _⟩ := hw.2.2.2 hubAfterDisconnect demoHubEnv "s1" 142 7 hopen
  refine ⟨by decide, by decide, hw.2.1, rfl, rfl, rfl, s1, h1, ?_, ?_⟩
  · rw [hin "c2" { send := Chan.make 256 } (by decide) (by decide) rfl (by decide)]
    rfl
  · rw [hout "c1" (by decide)]
    rfl

/-- C20 (evaluation of the code at the failing input): the same directory
contents, `main.go` and `src/app.go`, count 2 under a working directory with
the base name `work` and 0 under one with the base name `vendor`,
`node_modules` or `.git`: the walk function answers `SkipDir` for the root
itself. Below the root the rule works: `work/vendor/...` adds nothing. A root
with a hidden name counts 2, as the test for hidden directories spares the
root. -/
theorem countFiles_excluded_root_name :
    CountFiles (some (projectTree "work")) = 2 ∧
    CountFiles (some (projectTree "vendor")) = 0 ∧
    CountFiles (some (projectTree "node_modules")) = 0 ∧
    CountFiles (some (projectTree ".git")) = 0 ∧
    countFilesFn [] (projectTree "vendor") 0 = (0, WalkResult.SkipDir) ∧
    CountFiles (some (.dir "work" [projectTree "vendor", .file "main.go" 4 (some "test")])) = 1 ∧
    CountFiles (some (projectTree ".hidden")) = 2 := by
  decide

/-! ## Counting files: claim C21 -/

/-- The walk of `CountFiles` never asks its caller to skip the rest of a
directory. -/
theorem walkDir_countFiles_nil (below : List String) (d : FsNode) (count : Int) :
    (walkDir countFilesFn below d count).2 = WalkResult.nil := by
  cases d with
  | file name size content => rw [walkDir, countFilesFn_file]
  | dir name entries =>
    rw [walkDir]
    rcases countFilesFn below (.dir name entries) count with ⟨st1, r⟩
    cases r <;> rfl

theorem filesBelow_file (above : List String) (name : String) (size : Int)
    (content : Option String) (rest : List FsNode) :
    filesBelow above (.file name size content :: rest)
      = (above ++ [name], content) :: filesBelow above rest := by
  rw [filesBelow, FsNode.files]
  rfl

theorem filesBelow_dir (above : List String) (name : String) (entries rest : List FsNode) :
    filesBelow above (.dir name entries :: rest)
      = filesBelow (above ++ [name]) entries ++ filesBelow above rest := by
  rw [filesBelow, FsNode.files]

/-- Every path listed by `filesBelow above` extends `above` by at least one
name. -/
theorem filesBelow_path : ∀ (entries : List FsNode) (above : List String)
    (p : List String × Option String), p ∈ filesBelow above entries →
    ∃ suf, suf ≠ [] ∧ p.1 = above ++ suf
  | [], _, p, h => by simp [filesBelow] at h
  | .file name size content :: rest, above, p, h => by
    rw [filesBelow_file] at h
    rcases List.mem_cons.mp h with h1 | h1
    · exact ⟨[name], by simp, by rw [h1]⟩
    · exact filesBelow_path rest above p h1
  | .dir name entries :: rest, above, p, h => by
    rw [filesBelow_dir] at h
    rcases List.mem_append.mp h with h1 | h1
    · obtain ⟨suf, hne, hp⟩ := filesBelow_path entries (above ++ [name]) p h1
      exact ⟨name :: suf, by simp, by rw [hp]; simp⟩
    · exact filesBelow_path rest above p h1

/-- No path beneath a directory whose name does not pass the exclusion rules
is counted. -/
theorem countedPath_below_excluded (entries : List FsNode) (below : List String) (name : String)
    (hname : namePasses name = false) :
    (filesBelow (below ++ [name]) entries).filter (fun p => countedPath p.1) = [] := by
  rw [List.filter_eq_nil_iff]
  intro p hp
  obtain ⟨suf, hne, hpath⟩ := filesBelow_path entries (below ++ [name]) p hp
  have hdrop : p.1.dropLast = (below ++ [name]) ++ suf.dropLast := by
    rw [hpath, List.dropLast_append_of_ne_nil _ hne]
  simp only [countedPath, hdrop, List.all_append, List.all_cons, hname, Bool.false_and,
    Bool.and_false, Bool.false_eq_true, not_false_eq_true]

/-- The loop of the walk of `CountFiles` over the entries of a directory all
of whose names on the way from the root pass the exclusion rules adds the
number of counted paths beneath it. -/
theorem walkEntries_countFiles : ∀ (entries : List FsNode) (below : List String) (count : Int),
    below.all namePasses = true →
    walkEntries countFilesFn below entries count
      = count + (((filesBelow below entries).filter (fun p => countedPath p.1)).length : Int)
  | [], below, count, _ => by simp [walkEntries, filesBelow]
  | .file name size content :: rest, below, count, hb => by
    have ih := walkEntries_countFiles rest below
    rw [walkEntries]
    simp only [FsNode.Name]
    rw [walkDir, countFilesFn_file]
    simp only
    rw [ih _ hb, filesBelow_file, List.filter_cons]
    have hc : countedPath (below ++ [name])
        = (!isHidden name || HasPrefix (relPath (below ++ [name])) ".claude") := by
      simp only [countedPath, List.dropLast_concat, hb, Bool.true_and, List.getLastD_concat]
    simp only [hc]
    cases h1 : isHidden name <;> cases h2 : HasPrefix (relPath (below ++ [name])) ".claude" <;>
      simp <;> omega
  | .dir name entries :: rest, below, count, hb => by
    have ih := walkEntries_countFiles rest below
    have ihd := walkEntries_countFiles entries (below ++ [name])
    have hnil := walkDir_countFiles_nil (below ++ [name]) (.dir name entries) count
    rw [walkEntries]
    simp only [FsNode.Name]
    rw [filesBelow_dir, List.filter_append, List.length_append]
    rcases hw : walkDir countFilesFn (below ++ [name]) (.dir name entries) count with ⟨st1, r⟩
    rw [hw] at hnil
    simp only at hnil
    subst hnil
    simp only
    rw [ih _ hb]
    have hst : st1 = count +
        (((filesBelow (below ++ [name]) entries).filter (fun p => countedPath p.1)).length
          : Int) := by
      rw [walkDir] at hw
      by_cases hp : namePasses name = true
      · have hb2 : (below ++ [name]).all namePasses = true := by
          simp only [List.all_append, hb, List.all_cons, hp, List.all_nil, Bool.and_self]
        have hfn : countFilesFn (below ++ [name]) (.dir name entries) count
            = (count, WalkResult.nil) := by
          simp only [namePasses, Bool.and_eq_true, Bool.not_eq_true', Bool.or_eq_true,
            beq_iff_eq] at hp
          simp only [countFilesFn, FsNode.IsDir, if_true, FsNode.Name, hp.1,
            Bool.false_eq_true, if_false]
          rcases hp.2 with h | h
          · simp [h]
          · simp [h]
        rw [hfn] at hw
        simp only [Prod.mk.injEq, and_true] at hw
        rw [← hw, ihd _ hb2]
      · have hp2 : namePasses name = false := by simpa using hp
        have hfn : countFilesFn (below ++ [name]) (.dir name entries) count
            = (count, WalkResult.SkipDir) := by
          simp only [countFilesFn, FsNode.IsDir, if_true, FsNode.Name]
          simp only [namePasses, Bool.and_eq_false_imp, Bool.not_eq_true', Bool.or_eq_false_iff,
            Bool.not_eq_false', beq_eq_false_iff_ne, ne_eq] at hp2
          by_cases hex : excludedDirs name = true
          · simp [hex]
          · have hex2 : excludedDirs name = false := by simpa using hex
            have h3 := hp2 hex2
            simp [hex2, h3.1, h3.2]
        rw [hfn] at hw
        simp only [Prod.mk.injEq, and_true] at hw
        rw [← hw, countedPath_below_excluded entries below name hp2]
        simp
    rw [hst]
    push_cast
    omega

/-- C21 (counterexample): under `work`, which holds `.env`, `main.go`,
`.claude/CLAUDE.md` and `.claude/.secret`, `CountFiles` returns 3: the hidden
file `.secret` inside `.claude` is counted, although its own name begins with
a dot and is not `.claude`; the rule of the claim counts 2 files. -/
theorem countFiles_counts_hidden_in_claude :
    CountFiles (some (.dir "work" claudeEntries)) = 3 ∧
    (filesBelow [] claudeEntries).map (fun p => (p.1, countedPath p.1, claimedCountedPath p.1))
      = [([".env"], false, false), (["main.go"], true, true),
         ([".claude", "CLAUDE.md"], true, true), ([".claude", ".secret"], true, false)] ∧
    ((filesBelow [] claudeEntries).filter (fun p => claimedCountedPath p.1)).length = 2 := by
  decide

theorem intercalate_go_prefix (sep : String) : ∀ (l : List String) (acc : String),
    ∃ t, String.intercalate.go acc sep l = acc ++ t ∧ (l ≠ [] → ∃ u, t = sep ++ u)
  | [], acc => ⟨"", by simp [String.intercalate.go], fun h => absurd rfl h⟩
  | a :: l, acc => by
    obtain ⟨t, ht, _⟩ := intercalate_go_prefix sep l (acc ++ sep ++ a)
    refine ⟨sep ++ a ++ t, ?_, fun _ => ⟨a ++ t, by simp [String.append_assoc]⟩⟩
    rw [String.intercalate.go, ht]
    simp only [String.append_assoc]

/-- The relative path of an entry at least two names below the root starts
with the first name and a separator. -/
theorem relPath_data (a b : String) (rest : List String) :
    ∃ u, (relPath (a :: b :: rest)).data = a.data ++ '/' :: u := by
  obtain ⟨t, ht, hsep⟩ := intercalate_go_prefix "/" (b :: rest) a
  obtain ⟨u, hu⟩ := hsep (by simp)
  refine ⟨u.data, ?_⟩
  have h1 : relPath (a :: b :: rest) = String.intercalate.go a "/" (b :: rest) := by
    simp [relPath, String.intercalate]
  rw [h1, ht, hu]
  simp [String.data_append]

/-- Beneath a directory that passes the exclusion rules, the relative path
begins with the characters `.claude` exactly when that directory is `.claude`. -/
theorem hasPrefix_relPath (a b : String) (rest : List String) (ha : namePasses a = true) :
    HasPrefix (relPath (a :: b :: rest)) ".claude" = (a == ".claude") := by
  obtain ⟨u, hu⟩ := relPath_data a b rest
  have hd : (".claude" : String).data = ['.', 'c', 'l', 'a', 'u', 'd', 'e'] := rfl
  by_cases hc : a = ".claude"
  · subst hc
    simp only [HasPrefix, hu, hd, beq_self_eq_true]
    rfl
  · have hne : (a == ".claude") = false := by simpa using hc
    simp only [namePasses, Bool.and_eq_true, Bool.not_eq_true', Bool.or_eq_true, hne,
      Bool.false_eq_true, or_false] at ha
    have hh := ha.2
    rw [hne]
    simp only [HasPrefix, hu, hd]
    unfold isHidden at hh
    cases hdata : a.data with
    | nil => simp [List.isPrefixOf]
    | cons c t =>
      rw [hdata] at hh
      simp only [beq_eq_false_iff_ne, ne_eq] at hh
      simp only [List.cons_append, List.isPrefixOf]
      have : ('.' == c) = false := by
        simp only [beq_eq_false_iff_ne, ne_eq]
        exact fun h => hh h.symm
      rw [this, Bool.false_and]

/-- A path of one name listed by `filesBelow []` names a non-directory entry
of the list. -/
theorem filesBelow_single : ∀ (entries : List FsNode) (f : String) (content : Option String),
    ([f], content) ∈ filesBelow [] entries → ∃ size, FsNode.file f size content ∈ entries
  | [], f, content, h => by simp [filesBelow] at h
  | .file name size c :: rest, f, content, h => by
    rw [filesBelow_file] at h
    rcases List.mem_cons.mp h with h1 | h1
    · simp only [List.nil_append, Prod.mk.injEq, List.cons.injEq, and_true] at h1
      obtain ⟨hf, hc⟩ := h1
      subst hf; subst hc
      exact ⟨size, List.mem_cons_self _ _⟩
    · obtain ⟨sz, hm⟩ := filesBelow_single rest f content h1
      exact ⟨sz, List.mem_cons_of_mem _ hm⟩
  | .dir name entries :: rest, f, content, h => by
    rw [filesBelow_dir] at h
    rcases List.mem_append.mp h with h1 | h1
    · obtain ⟨suf, hne, hp⟩ := filesBelow_path entries ([] ++ [name]) _ h1
      cases suf with
      | nil => exact absurd rfl hne
      | cons x xs => simp at hp
    · obtain ⟨sz, hm⟩ := filesBelow_single rest f content h1
      exact ⟨sz, List.mem_cons_of_mem _ hm⟩

/-- Where no hidden file at the top of the tree has a name that begins with
the characters `.claude`, the test of the code on a listed path is the rule
`ruleCounts`. -/
theorem countedPath_eq_ruleCounts (entries : List FsNode)
    (hslip : ∀ f size content, FsNode.file f size content ∈ entries → isHidden f = true →
      HasPrefix f ".claude" = false)
    (p : List String × Option String) (hp : p ∈ filesBelow [] entries) :
    countedPath p.1 = ruleCounts p.1 := by
  obtain ⟨suf, hne, hpath⟩ := filesBelow_path entries [] p hp
  rw [List.nil_append] at hpath
  obtain ⟨path, content⟩ := p
  simp only at hpath
  subst hpath
  show countedPath path = ruleCounts path
  cases path with
  | nil => exact absurd rfl hne
  | cons a rest =>
    cases rest with
    | nil =>
      obtain ⟨size, hm⟩ := filesBelow_single entries a content hp
      have hrel : relPath [a] = a := by simp [relPath, String.intercalate, String.intercalate.go]
      simp only [countedPath, ruleCounts, List.dropLast_single, List.all_nil, Bool.true_and,
        List.getLastD_cons, List.getLastD_nil, hrel, List.head?_nil]
      cases hh : isHidden a
      · rfl
      · rw [hslip a size content hm hh]
        rfl
    | cons b rest =>
      have hdl : (a :: b :: rest).dropLast = a :: (b :: rest).dropLast := rfl
      simp only [countedPath, ruleCounts, hdl, List.all_cons, List.head?_cons]
      cases ha : namePasses a
      · simp
      · rw [hasPrefix_relPath a b rest ha]
        simp only [Bool.true_and]
        by_cases hc : a = ".claude"
        · simp [hc]
        · have hne : (a == ".claude") = false := by simpa using hc
          simp [hne, hc]

/-- The number `CountFiles` computes, by the tests of its walk function: 0 for
a root directory whose own name is excluded, otherwise the number of listed
paths that pass `countedPath`, whose last test looks at the characters of the
relative path; 1 for a root that is not a directory, unless its name is
hidden; 0 for a missing root. -/
theorem CountFiles_walk :
    (∀ (name : String) (entries : List FsNode),
      CountFiles (some (.dir name entries))
        = if excludedDirs name then 0
          else (((filesBelow [] entries).filter (fun p => countedPath p.1)).length : Int)) ∧
    (∀ (name : String) (size : Int) (content : Option String),
      CountFiles (some (.file name size content)) = if isHidden name then 0 else 1) ∧
    CountFiles none = 0 := by
  refine ⟨?_, ?_, by rfl⟩
  · intro name entries
    by_cases hex : excludedDirs name = true
    · simp only [CountFiles, WalkDir, walkDir, countFilesFn, FsNode.IsDir, if_true, FsNode.Name,
        hex]
    · have hex2 : excludedDirs name = false := by simpa using hex
      have hw := walkEntries_countFiles entries [] 0 (by rfl)
      simp only [CountFiles, WalkDir, walkDir, countFilesFn, FsNode.IsDir, if_true, FsNode.Name,
        hex2, Bool.false_eq_true, if_false, bne_self_eq_false, Bool.and_false, hw, zero_add]
  · intro name size content
    have hrel : HasPrefix (relPath []) ".claude" = false := by decide
    simp only [CountFiles, WalkDir, walkDir, countFilesFn_file, hrel, Bool.not_false,
      Bool.and_true, zero_add]

/-- C21 (amended): for every directory tree whose root has a name that is not
excluded and that holds, directly under the root, no hidden file whose name
begins with the characters `.claude`, `CountFiles` returns the number of
entries beneath the root that are not directories and for which every
directory on the way from the root passes the exclusion rules (not excluded,
not hidden unless named `.claude`) and the entry's own name does not begin
with a dot or the entry lies beneath the directory `.claude` at the top of the
tree. The excluded names apply to directories only. So `.env` at the root is
not counted, `.claude/CLAUDE.md` is counted and so is the hidden file
`.claude/.secret`, a file named `vendor` is counted while the files beneath a
directory `vendor` or a hidden directory are not, and an empty directory
counts 0. -/
theorem countFiles_counts_exactly (name : String) (entries : List FsNode)
    (hroot : excludedDirs name = false)
    (hslip : ∀ f size content, FsNode.file f size content ∈ entries → isHidden f = true →
      HasPrefix f ".claude" = false) :
    CountFiles (some (.dir name entries))
      = (((filesBelow [] entries).filter (fun p => ruleCounts p.1)).length : Int) ∧
    CountFiles (some (.dir name [])) = 0 ∧
    ruleCounts [".env"] = false ∧ ruleCounts [".claude", "CLAUDE.md"] = true ∧
    ruleCounts [".claude", ".secret"] = true ∧ ruleCounts [".claude", "rules", ".draft"] = true ∧
    ruleCounts ["vendor"] = true ∧ ruleCounts ["vendor", "lib.go"] = false ∧
    ruleCounts [".cache", "data"] = false ∧ ruleCounts ["src", ".secret"] = false ∧
    ruleCounts ["src", "app.go"] = true := by
  have hdir := CountFiles_walk.1
  refine ⟨?_, ?_, by decide, by decide, by decide, by decide, by decide, by decide, by decide,
    by decide, by decide⟩
  · rw [hdir name entries, hroot]
    simp only [Bool.false_eq_true, if_false]
    congr 2
    apply List.filter_congr
    intro p hp
    exact countedPath_eq_ruleCounts entries hslip p hp
  · rw [hdir name [], hroot]
    rfl

/-- C21 (amended) at the working directory `work` that holds `.env`,
`main.go`, `.claude/CLAUDE.md` and `.claude/.secret`: the rule counts the last
three, and `CountFiles` returns 3. -/
theorem countFiles_counts_exactly_witness :
    excludedDirs "work" = false ∧
    (filesBelow [] claudeEntries).map (fun p => (p.1, ruleCounts p.1))
      = [([".env"], false), (["main.go"], true), ([".claude", "CLAUDE.md"], true),
         ([".claude", ".secret"], true)] ∧
    CountFiles (some (.dir "work" claudeEntries)) = 3 :=
  ⟨by decide, by decide,
   ((countFiles_counts_exactly "work" claudeEntries (by decide)
      (by
        intro f size content hm hh
        simp only [claudeEntries, List.mem_cons, FsNode.file.injEq, List.mem_singleton,
          List.not_mem_nil, or_false] at hm
        rcases hm with ⟨h, _, _⟩ | ⟨h, _, _⟩ | h
        · rw [h]; decide
        · rw [h] at hh; exact absurd hh (by decide)
        · cases h)).1).trans (by decide)⟩

/-- Outside the domain of the rule: a hidden file at the root whose name
begins with the characters `.claude`, here `.claude.json`, is counted, since
the walk function tests the characters of the relative path; the comment in
the code reads "Skip hidden files (except inside .claude)", and the rule does
not count the file. -/
theorem countFiles_hidden_claude_prefix :
    CountFiles (some (.dir "work" [.file ".claude.json" 2 (some "{}")])) = 1 ∧
    ruleCounts [".claude.json"] = false := by
  decide

/-! ## Tree snapshots: claims C22 and C23 -/

/-- The first loop of `buildTreeRecursive` appends to `dirs` the directories
and to `files` the other entries whose names pass the exclusion rules, each in
listing order. -/
theorem partitionEntries_eq : ∀ (entries dirs files : List FsNode),
    partitionEntries entries (dirs, files)
      = (dirs ++ entries.filter (fun e => namePasses e.Name && e.IsDir),
         files ++ entries.filter (fun e => namePasses e.Name && !e.IsDir))
  | [], dirs, files => by simp [partitionEntries]
  | entry :: rest, dirs, files => by
    rw [partitionEntries]
    simp only [List.filter_cons, namePasses]
    cases hex : excludedDirs entry.Name
    · cases hh : (isHidden entry.Name && entry.Name != ".claude")
      · have hp : (!isHidden entry.Name || entry.Name == ".claude") = true := by
          cases h1 : isHidden entry.Name <;> cases h2 : (entry.Name == ".claude") <;>
            simp_all [bne]
        cases hd : entry.IsDir
        · simp only [Bool.false_eq_true, if_false, Bool.not_false, Bool.true_and, hp,
            Bool.and_false, Bool.not_false, Bool.and_true, if_true]
          rw [partitionEntries_eq rest]
          simp [namePasses]
        · simp only [Bool.false_eq_true, if_false, Bool.not_false, Bool.true_and, hp,
            Bool.and_true, if_true, Bool.not_true, Bool.and_false]
          rw [partitionEntries_eq rest]
          simp [namePasses]
      · have hp : (!isHidden entry.Name || entry.Name == ".claude") = false := by
          cases h1 : isHidden entry.Name <;> cases h2 : (entry.Name == ".claude") <;>
            simp_all [bne]
        simp only [Bool.false_eq_true, if_false, if_true, Bool.not_false, Bool.true_and, hp,
          Bool.false_and]
        rw [partitionEntries_eq rest]
        simp [namePasses]
    · simp only [if_true, Bool.not_true, Bool.false_and, Bool.false_eq_true, if_false]
      rw [partitionEntries_eq rest]
      simp [namePasses]

theorem buildTreeRecursive_stop (below : List String) (current : FsNode) (depth maxDepth : Int)
    (h : depth ≥ maxDepth) : buildTreeRecursive below current depth maxDepth = [] := by
  rw [buildTreeRecursive, dif_pos h]

theorem buildTreeRecursive_file (below : List String) (name : String) (size : Int)
    (content : Option String) (depth maxDepth : Int) :
    buildTreeRecursive below (.file name size content) depth maxDepth = [] := by
  rw [buildTreeRecursive]
  split
  · rfl
  · rfl

/-- The forest built for a directory while the depth limit is not reached. -/
theorem buildTreeRecursive_dir (below : List String) (name : String) (entries : List FsNode)
    (depth maxDepth : Int) (h : depth < maxDepth) :
    buildTreeRecursive below (.dir name entries) depth maxDepth
      = (entries.filter (fun e => namePasses e.Name && e.IsDir)).map (fun d =>
          FileNode.mk d.Name (relPath (below ++ [d.Name])) true
            (buildTreeRecursive (below ++ [d.Name]) d (depth + 1) maxDepth) 0) ++
        (entries.filter (fun e => namePasses e.Name && !e.IsDir)).map (fun f =>
          FileNode.mk f.Name (relPath (below ++ [f.Name])) false [] f.Size) := by
  rw [buildTreeRecursive, dif_neg (by omega)]
  simp only [FsNode.ReadDir, partitionEntries_eq, List.nil_append]

theorem nodesAtLevel_nil (k : Nat) : nodesAtLevel k [] = [] := by
  induction k using Nat.strong_induction_on with
  | _ k ih =>
    match k with
    | 0 => rfl
    | 1 => rfl
    | k + 2 =>
      rw [nodesAtLevel]
      exact ih (k + 1) (by omega)

theorem nodesAtLevel_append (k : Nat) : ∀ (a b : List FileNode),
    nodesAtLevel k (a ++ b) = nodesAtLevel k a ++ nodesAtLevel k b := by
  induction k using Nat.strong_induction_on with
  | _ k ih =>
    intro a b
    match k with
    | 0 => rfl
    | 1 => rfl
    | k + 2 =>
      rw [nodesAtLevel, nodesAtLevel, nodesAtLevel, List.flatMap_append]
      exact ih (k + 1) (by omega) _ _

theorem nodesAtLevel_flatMap_nil {α : Type} (k : Nat) (g : α → List FileNode) :
    ∀ (l : List α), (∀ x ∈ l, nodesAtLevel k (g x) = []) → nodesAtLevel k (l.flatMap g) = []
  | [], _ => by simp [nodesAtLevel_nil]
  | x :: rest, h => by
    rw [List.flatMap_cons, nodesAtLevel_append, h x (List.mem_cons_self _ _),
      nodesAtLevel_flatMap_nil k g rest (fun y hy => h y (List.mem_cons_of_mem _ hy))]
    rfl

/-- The nodes one level further down are the children of the nodes of a
level. -/
theorem nodesAtLevel_succ (k : Nat) : ∀ (forest : List FileNode),
    nodesAtLevel (k + 2) forest = (nodesAtLevel (k + 1) forest).flatMap FileNode.Children := by
  induction k with
  | zero => intro forest; rfl
  | succ k ih =>
    intro forest
    rw [nodesAtLevel, ih]
    rfl

/-- A forest built at depth `depth` has no node more than `maxDepth - depth`
levels down. -/
theorem buildTreeRecursive_levels (maxDepth : Int) : ∀ (j : Nat) (below : List String)
    (current : FsNode) (depth : Int), maxDepth ≤ depth + j →
    nodesAtLevel (j + 1) (buildTreeRecursive below current depth maxDepth) = [] := by
  intro j
  induction j with
  | zero =>
    intro below current depth h
    rw [buildTreeRecursive_stop below current depth maxDepth (by omega)]
    rfl
  | succ j ih =>
    intro below current depth h
    by_cases hd : depth ≥ maxDepth
    · rw [buildTreeRecursive_stop below current depth maxDepth hd]
      exact nodesAtLevel_nil _
    · cases current with
      | file name size content =>
        rw [buildTreeRecursive_file]
        exact nodesAtLevel_nil _
      | dir name entries =>
        rw [buildTreeRecursive_dir below name entries depth maxDepth (by omega), nodesAtLevel,
          List.flatMap_append, nodesAtLevel_append]
        have h1 : nodesAtLevel (j + 1)
            (((entries.filter (fun e => namePasses e.Name && e.IsDir)).map (fun d =>
              FileNode.mk d.Name (relPath (below ++ [d.Name])) true
                (buildTreeRecursive (below ++ [d.Name]) d (depth + 1) maxDepth) 0)).flatMap
              FileNode.Children) = [] := by
          rw [List.flatMap_map]
          apply nodesAtLevel_flatMap_nil
          intro d _
          exact ih (below ++ [d.Name]) d (depth + 1) (by push_cast at h ⊢; omega)
        have h2 : nodesAtLevel (j + 1)
            (((entries.filter (fun e => namePasses e.Name && !e.IsDir)).map (fun f =>
              FileNode.mk f.Name (relPath (below ++ [f.Name])) false [] f.Size)).flatMap
              FileNode.Children) = [] := by
          rw [List.flatMap_map]
          apply nodesAtLevel_flatMap_nil
          intro f _
          exact nodesAtLevel_nil _
        rw [h1, h2]
        rfl

/-- The snapshot of `a/b/c/d/deep.txt` with `maxDepth = 3`. -/
theorem buildFileTree_deepTree :
    BuildFileTree (some deepTree) 3
      = [.mk "a" "a" true [.mk "b" "a/b" true [.mk "c" "a/b/c" true [] 0] 0] 0] := by
  have h3 : ∀ (below : List String) (current : FsNode),
      buildTreeRecursive below current (0 + 1 + 1 + 1) 3 = [] :=
    fun below current => buildTreeRecursive_stop below current _ 3 (by decide)
  rw [BuildFileTree, deepTree, buildTreeRecursive_dir _ _ _ _ _ (by decide)]
  simp only [List.filter, namePasses, excludedDirs, isHidden, FsNode.Name, FsNode.IsDir,
    List.map, List.append_nil, List.nil_append]
  rw [buildTreeRecursive_dir _ _ _ _ _ (by decide)]
  simp only [List.filter, namePasses, excludedDirs, isHidden, FsNode.Name, FsNode.IsDir,
    List.map, List.append_nil, List.nil_append]
  rw [buildTreeRecursive_dir _ _ _ _ _ (by decide)]
  simp only [List.filter, namePasses, excludedDirs, isHidden, FsNode.Name, FsNode.IsDir,
    List.map, List.append_nil, List.nil_append, h3]
  rfl

/-- No node of a tree snapshot lies deeper than `maxDepth` levels. -/
theorem buildFileTree_levels (root : Option FsNode) (maxDepth : Int) (k : Nat)
    (h : maxDepth < k) : nodesAtLevel k (BuildFileTree root maxDepth) = [] := by
  cases root with
  | none => exact nodesAtLevel_nil k
  | some d =>
    cases k with
    | zero => rfl
    | succ j =>
      exact buildTreeRecursive_levels maxDepth j [] d 0 (by push_cast at h; omega)

/-- C22: for every directory, present or not, and every `maxDepth`:
`maxDepth ≤ 0` gives the empty forest; the forest `BuildFileTree(dir,
maxDepth)` has no node at a nesting level above `maxDepth` (the top-level
nodes are level 1); and every node at level `maxDepth` has an empty child
list, whatever the directory holds. For `a/b/c/d/deep.txt` and `maxDepth = 3`
the forest is the chain `a`, `b`, `c`, and `c` has no children. -/
theorem buildFileTree_depth_limit (root : Option FsNode) (maxDepth : Int) :
    (maxDepth ≤ 0 → BuildFileTree root maxDepth = []) ∧
    (∀ k : Nat, maxDepth < k → nodesAtLevel k (BuildFileTree root maxDepth) = []) ∧
    (∀ n ∈ nodesAtLevel maxDepth.toNat (BuildFileTree root maxDepth), n.Children = []) ∧
    BuildFileTree (some deepTree) 3
      = [.mk "a" "a" true [.mk "b" "a/b" true [.mk "c" "a/b/c" true [] 0] 0] 0] := by
  refine ⟨?_, fun k hk => buildFileTree_levels root maxDepth k hk, ?_, buildFileTree_deepTree⟩
  · intro h
    cases root with
    | none => rfl
    | some d => exact buildTreeRecursive_stop [] d 0 maxDepth (by omega)
  · intro n hn
    cases hK : maxDepth.toNat with
    | zero =>
      rw [hK] at hn
      simp [nodesAtLevel] at hn
    | succ k =>
      rw [hK] at hn
      have hnil := buildFileTree_levels root maxDepth (k + 2) (by omega)
      rw [nodesAtLevel_succ, List.flatMap_eq_nil_iff] at hnil
      exact hnil n hn

/-- C23: while the depth limit is not reached, the forest built for a
directory is the map of a stable partition of its entries whose names pass the
exclusion rules: first the directories, then the other entries, each group in
listing order. Each node carries the entry's name and the entry's path
relative to the tree root; a directory node carries as children the forest
built for that directory one level down, to which the same applies; the other
nodes carry no children and the entry's size. -/
theorem buildTree_stable_partition (below : List String) (name : String)
    (entries : List FsNode) (depth maxDepth : Int) (h : depth < maxDepth) :
    buildTreeRecursive below (.dir name entries) depth maxDepth
      = ((entries.filter (fun e => namePasses e.Name)).filter (fun e => e.IsDir)).map (fun d =>
          FileNode.mk d.Name (relPath (below ++ [d.Name])) true
            (buildTreeRecursive (below ++ [d.Name]) d (depth + 1) maxDepth) 0) ++
        ((entries.filter (fun e => namePasses e.Name)).filter (fun e => !e.IsDir)).map (fun f =>
          FileNode.mk f.Name (relPath (below ++ [f.Name])) false [] f.Size) ∧
    (buildTreeRecursive below (.dir name entries) depth maxDepth).map FileNode.IsDir
      = List.replicate
          ((entries.filter (fun e => namePasses e.Name)).filter (fun e => e.IsDir)).length true ++
        List.replicate
          ((entries.filter (fun e => namePasses e.Name)).filter (fun e => !e.IsDir)).length
          false ∧
    (∀ (nm : String), namePasses nm = true ↔
      (nm ≠ "node_modules" ∧ nm ≠ ".git" ∧ nm ≠ "vendor") ∧
        (isHidden nm = true → nm = ".claude")) := by
  have hd : (entries.filter (fun e => namePasses e.Name)).filter (fun e => e.IsDir)
      = entries.filter (fun e => namePasses e.Name && e.IsDir) := by
    rw [List.filter_filter]
    apply List.filter_congr
    intro e _
    exact Bool.and_comm _ _
  have hf : (entries.filter (fun e => namePasses e.Name)).filter (fun e => !e.IsDir)
      = entries.filter (fun e => namePasses e.Name && !e.IsDir) := by
    rw [List.filter_filter]
    apply List.filter_congr
    intro e _
    exact Bool.and_comm _ _
  refine ⟨?_, ?_, ?_⟩
  · rw [hd, hf]
    exact buildTreeRecursive_dir below name entries depth maxDepth h
  · rw [hd, hf, buildTreeRecursive_dir below name entries depth maxDepth h, List.map_append,
      List.map_map, List.map_map]
    congr 1
    · rw [List.eq_replicate_iff]
      refine ⟨by simp, ?_⟩
      intro b hb
      simp only [List.mem_map, Function.comp] at hb
      obtain ⟨_, _, hb⟩ := hb
      exact hb.symm
    · rw [List.eq_replicate_iff]
      refine ⟨by simp, ?_⟩
      intro b hb
      simp only [List.mem_map, Function.comp] at hb
      obtain ⟨_, _, hb⟩ := hb
      exact hb.symm
  · intro nm
    simp only [namePasses, excludedDirs, Bool.and_eq_true, Bool.not_eq_true', Bool.or_eq_false_iff,
      beq_eq_false_iff_ne, ne_eq, Bool.or_eq_true, beq_iff_eq, and_assoc]
    constructor
    · rintro ⟨h1, h2, h3, h4⟩
      refine ⟨h1, h2, h3, fun hh => ?_⟩
      rcases h4 with h4 | h4
      · rw [h4] at hh; cases hh
      · exact h4
    · rintro ⟨h1, h2, h3, h4⟩
      refine ⟨h1, h2, h3, ?_⟩
      cases hh : isHidden nm
      · exact Or.inl rfl
      · exact Or.inr (h4 hh)

/-- C23 at the working directory listed as `.env`, `main.go`,
`node_modules/`, `sub/`, `zlib/`, with `maxDepth = 3`: the forest is `sub`
(with `helper.go`), `zlib`, `main.go`. -/
theorem buildTree_stable_partition_witness :
    (0 : Int) < 3 ∧
    buildTreeRecursive [] mixedTree 0 3
      = [.mk "sub" "sub" true [.mk "helper.go" "sub/helper.go" false [] 11] 0,
         .mk "zlib" "zlib" true [] 0,
         .mk "main.go" "main.go" false [] 12] := by
  refine ⟨by decide, ?_⟩
  have h := (buildTree_stable_partition [] "work"
    [.file ".env" 6 (some "SECRET"), .file "main.go" 12 (some "package main"),
     .dir "node_modules" [.file "package.json" 2 (some "{}")],
     .dir "sub" [.file "helper.go" 11 (some "package sub")], .dir "zlib" []] 0 3 (by decide)).1
  rw [mixedTree, h]
  simp only [List.filter, namePasses, excludedDirs, isHidden, FsNode.Name, FsNode.IsDir,
    List.map, List.append_nil, List.nil_append, FsNode.Size]
  rw [buildTreeRecursive_dir _ _ _ _ _ (by decide), buildTreeRecursive_dir _ _ _ _ _ (by decide)]
  simp only [List.filter, namePasses, excludedDirs, isHidden, FsNode.Name, FsNode.IsDir,
    List.map, List.append_nil, List.nil_append, FsNode.Size]
  rfl

/-! ## The configuration reader: claim C24 -/

theorem intercalate_go_concat (sep : String) : ∀ (l : List String) (acc x : String),
    String.intercalate.go acc sep (l ++ [x]) = String.intercalate.go acc sep l ++ sep ++ x
  | [], acc, x => by simp [String.intercalate.go]
  | a :: l, acc, x => by
    simp only [List.cons_append, String.intercalate.go]
    exact intercalate_go_concat sep l (acc ++ sep ++ a) x

/-- Joining one more name: `filepath`-style paths grow by a separator and the
name. -/
theorem intercalate_concat (sep : String) (l : List String) (x : String) (h : l ≠ []) :
    String.intercalate sep (l ++ [x]) = String.intercalate sep l ++ sep ++ x := by
  cases l with
  | nil => exact absurd rfl h
  | cons a l =>
    simp only [List.cons_append, String.intercalate]
    exact intercalate_go_concat sep l a x

theorem string_append_ne_empty (a b : String) (h : a ≠ "") : a ++ b ≠ "" := by
  intro hab
  apply h
  have h1 : (a ++ b).length = 0 := by rw [hab]; rfl
  rw [String.length_append] at h1
  have h2 : a.length = 0 := by omega
  exact String.ext (List.length_eq_zero.mp h2)

/-- The loop of `readConfigDir` appends, in depth-first listing order, the
entries of the readable `.md` files beneath the directory; `pre` is the path
of the directory relative to `.claude`. -/
theorem readConfigLoop_eq : ∀ (entries : List FsNode) (above : List String) (pre : String)
    (configs : List ConfigFile),
    pre = String.intercalate "/" above → (above ≠ [] → pre ≠ "") →
    (above = [] → ∀ e ∈ entries, e.Name ≠ "") →
    readConfigLoop entries pre configs
      = configs ++ (filesBelow above entries).filterMap configEntry
  | [], above, pre, configs, _, _, _ => by simp [readConfigLoop, filesBelow]
  | .file name size content :: rest, above, pre, configs, hpre, hne, hnames => by
    have ih := readConfigLoop_eq rest above pre
    have hrest : above = [] → ∀ e ∈ rest, e.Name ≠ "" :=
      fun ha e he => hnames ha e (List.mem_cons_of_mem _ he)
    have hrel : (if (pre != "") = true then pre ++ "/" ++ name else name)
        = String.intercalate "/" (above ++ [name]) := by
      by_cases ha : above = []
      · subst ha
        have hp : pre = "" := hpre
        subst hp
        rfl
      · rw [intercalate_concat "/" above name ha, ← hpre, if_pos]
        simpa using hne ha
    rw [readConfigLoop, filesBelow_file, List.filterMap_cons]
    simp only [FsNode.IsDir, Bool.false_eq_true, if_false, FsNode.Name, FsNode.ReadFile, hrel,
      configEntry, List.getLastD_concat]
    cases hs : HasSuffix name ".md"
    · simp only [Bool.false_eq_true, if_false]
      exact ih configs hpre hne hrest
    · simp only [if_true]
      cases content with
      | none =>
        simp only [Option.map_none']
        exact ih configs hpre hne hrest
      | some data =>
        simp only [Option.map_some']
        rw [ih _ hpre hne hrest, List.append_assoc]
        rfl
  | .dir name entries :: rest, above, pre, configs, hpre, hne, hnames => by
    have ih := readConfigLoop_eq rest above pre
    have ihd := readConfigLoop_eq entries (above ++ [name])
    have hrest : above = [] → ∀ e ∈ rest, e.Name ≠ "" :=
      fun ha e he => hnames ha e (List.mem_cons_of_mem _ he)
    have hrel : (if (pre != "") = true then pre ++ "/" ++ name else name)
        = String.intercalate "/" (above ++ [name]) := by
      by_cases ha : above = []
      · subst ha
        have hp : pre = "" := hpre
        subst hp
        rfl
      · rw [intercalate_concat "/" above name ha, ← hpre, if_pos]
        simpa using hne ha
    have hrelne : String.intercalate "/" (above ++ [name]) ≠ "" := by
      by_cases ha : above = []
      · subst ha
        exact hnames rfl (.dir name entries) (List.mem_cons_self _ _)
      · rw [intercalate_concat "/" above name ha, String.append_assoc]
        exact string_append_ne_empty _ _ (by rw [← hpre]; exact hne ha)
    rw [readConfigLoop, filesBelow_dir, List.filterMap_append]
    simp only [FsNode.IsDir, if_true, FsNode.Name, hrel]
    rw [readConfigDir, ihd _ _ rfl (fun _ => hrelne) (fun h => absurd h (by simp)),
      ih _ hpre hne hrest, List.append_assoc]

/-- C24: `ReadClaudeConfig` returns nothing when `workDir/.claude` is missing
or is not a directory. When it is a directory (whose entries have non-empty
names), the result holds, in depth-first listing order, exactly one entry for
each entry beneath `.claude`, at any depth, that is not a directory, whose
name ends with `.md` and whose reading succeeds, with the path relative to
`.claude` joined by `/` as name and the bytes read as content, and nothing
else. In the working directory of the test, with an unreadable
`rules/locked.md` added, the result is `CLAUDE.md` and `rules/rule1.md`. -/
theorem readClaudeConfig_spec (root : Option FsNode) :
    (statChild root ".claude" = none → ReadClaudeConfig root = []) ∧
    (∀ info, statChild root ".claude" = some info → info.IsDir = false →
      ReadClaudeConfig root = []) ∧
    (∀ name entries, statChild root ".claude" = some (.dir name entries) →
      (∀ e ∈ entries, e.Name ≠ "") →
      ReadClaudeConfig root = (filesBelow [] entries).filterMap configEntry) ∧
    ReadClaudeConfig (some configTree)
      = [{ Name := "CLAUDE.md", Content := "# Config" },
         { Name := "rules/rule1.md", Content := "# Rule 1" }] ∧
    ReadClaudeConfig (some (.dir "work" [.file ".claude" 1 (some "x")])) = [] ∧
    ReadClaudeConfig (some (.dir "work" [.file "CLAUDE.md" 1 (some "x")])) = [] := by
  refine ⟨?_, ?_, ?_, by decide, by decide, by decide⟩
  · intro h
    simp only [ReadClaudeConfig, h]
  · intro info h hd
    simp only [ReadClaudeConfig, h, hd, Bool.not_false, if_true]
  · intro name entries h hnames
    simp only [ReadClaudeConfig, h, FsNode.IsDir, Bool.not_true, Bool.false_eq_true, if_false]
    rw [readConfigDir, readConfigLoop_eq entries [] "" [] rfl (fun h => absurd rfl h)
      (fun _ => hnames), List.nil_append]

/-! ## Watched directories: claim C25 -/

/-- C25 (evaluation of the code at the failing input): the initial recursive
subscription watches the subdirectory `.claude` (and `.claude/rules`, `src`),
but the watch loop, on the `Create` event of a new directory `.claude`, leaves
the watch set as it is, while it adds a new directory `src`. In general
`addDirsRecursive` adds a subdirectory exactly when its name passes the
exclusion rules (not excluded, not hidden unless `.claude`), and the watch
loop adds a new directory exactly when its name passes them and is not
`.claude`. -/
theorem watchLoop_skips_new_claude_dir :
    addDirsRecursive (some (.dir "work" [.dir ".claude" [.dir "rules" []], .dir "src" []]))
      = [[], [".claude"], [".claude", "rules"], ["src"]] ∧
    watchLoopCreate [[]] [] ".claude" (some true) = [[]] ∧
    watchLoopCreate [[]] [] "src" (some true) = [[], ["src"]] ∧
    (∀ (parent : List String) (name : String) (entries : List FsNode)
        (watched : List (List String)),
      addDirsFn (parent ++ [name]) (.dir name entries) watched
        = if namePasses name then (watched ++ [parent ++ [name]], WalkResult.nil)
          else (watched, WalkResult.SkipDir)) ∧
    (∀ (watched : List (List String)) (parent : List String) (name : String),
      watchLoopCreate watched parent name (some true)
        = if namePasses name && name != ".claude" then watched ++ [parent ++ [name]]
          else watched) := by
  refine ⟨by decide, by decide, by decide, ?_, ?_⟩
  · intro parent name entries watched
    have hne : (parent ++ [name] == []) = false := by simp
    have hbool : ∀ (a b c : Bool) (x y : List (List String) × WalkResult),
        (if a = true then x else if (b && !c) = true then x else y)
          = if (!a && (!b || c)) = true then y else x := by
      intro a b c x y
      cases a <;> cases b <;> cases c <;> rfl
    simp only [addDirsFn, FsNode.IsDir, Bool.not_true, Bool.false_eq_true, if_false,
      FsNode.Name, namePasses, bne, hne, Bool.not_false, Bool.and_true]
    exact hbool _ _ _ _ _
  · intro watched parent name
    have hcl : isHidden name = false → (name == ".claude") = false := by
      intro hh
      cases hc : (name == ".claude")
      · rfl
      · rw [beq_iff_eq] at hc
        rw [hc] at hh
        exact absurd hh (by decide)
    have hbool : ∀ (a b c : Bool) (x y : List (List String)), (b = false → c = false) →
        (if (!a && !b) = true then x else y)
          = if (!a && (!b || c) && !c) = true then x else y := by
      intro a b c x y h
      cases a <;> cases b <;> cases c <;> first | rfl | exact absurd (h rfl) (by decide)
    simp only [watchLoopCreate, namePasses, bne]
    exact hbool _ _ _ _ _ hcl

/-! ## Counting against tree snapshots: claim C28 -/

theorem fileCountList_append : ∀ (a b : List FileNode),
    fileCountList (a ++ b) = fileCountList a + fileCountList b
  | [], b => by simp [fileCountList]
  | n :: a, b => by
    rw [List.cons_append, fileCountList, fileCountList, fileCountList_append a b]
    omega

/-- The paths listed by `filesBelow above` are those listed by `filesBelow []`
with `above` put in front. -/
theorem filesBelow_map : ∀ (entries : List FsNode) (above : List String),
    filesBelow above entries = (filesBelow [] entries).map (fun p => (above ++ p.1, p.2))
  | [], _ => by simp [filesBelow]
  | .file name size content :: rest, above => by
    rw [filesBelow_file, filesBelow_file, filesBelow_map rest above]
    simp
  | .dir name entries :: rest, above => by
    rw [filesBelow_dir, filesBelow_dir, filesBelow_map rest above,
      filesBelow_map entries (above ++ [name]), filesBelow_map entries ([] ++ [name]),
      List.map_append, List.map_map]
    simp

/-- The number of nodes that are not directories in the forest built for a
directory all of whose files lie within the depth limit: the number of files
beneath it all of whose names on the way pass the exclusion rules. -/
theorem fileCount_forest (maxDepth : Int) : ∀ (entries : List FsNode) (below : List String)
    (depth : Int),
    (∀ p ∈ filesBelow [] entries, depth + (p.1.length : Int) ≤ maxDepth) →
    fileCountList ((entries.filter (fun e => namePasses e.Name && e.IsDir)).map (fun d =>
        FileNode.mk d.Name (relPath (below ++ [d.Name])) true
          (buildTreeRecursive (below ++ [d.Name]) d (depth + 1) maxDepth) 0)) +
      fileCountList ((entries.filter (fun e => namePasses e.Name && !e.IsDir)).map (fun f =>
        FileNode.mk f.Name (relPath (below ++ [f.Name])) false [] f.Size))
      = ((filesBelow [] entries).filter (fun p => p.1.all namePasses)).length
  | [], _, _, _ => by simp [fileCountList, filesBelow]
  | .file name size content :: rest, below, depth, h => by
    have ih := fileCount_forest maxDepth rest below depth (fun p hp => h p (by
      rw [filesBelow_file]; exact List.mem_cons_of_mem _ hp))
    have hIs : (FsNode.file name size content).IsDir = false := rfl
    have hNm : (FsNode.file name size content).Name = name := rfl
    rw [filesBelow_file, List.filter_cons, List.filter_cons, List.filter_cons]
    simp only [hIs, hNm, Bool.and_false, Bool.false_eq_true, if_false, Bool.not_false,
      Bool.and_true, List.nil_append, List.all_cons, List.all_nil]
    cases hp : namePasses name
    · simp only [Bool.false_eq_true, if_false]
      exact ih
    · simp only [if_true, List.map_cons, List.length_cons]
      rw [fileCountList, FileNode.fileCount]
      simp only [Bool.false_eq_true, if_false, fileCountList]
      omega
  | .dir name entries :: rest, below, depth, h => by
    have ih := fileCount_forest maxDepth rest below depth (fun p hp => h p (by
      rw [filesBelow_dir]; exact List.mem_append_right _ hp))
    have hsub : ∀ p ∈ filesBelow [] entries, depth + 1 + (p.1.length : Int) ≤ maxDepth := by
      intro p hp
      have hmem : (([] ++ [name]) ++ p.1, p.2) ∈ filesBelow [] (.dir name entries :: rest) := by
        rw [filesBelow_dir, filesBelow_map entries ([] ++ [name])]
        exact List.mem_append_left _ (List.mem_map.mpr ⟨p, hp, rfl⟩)
      have := h _ hmem
      simp only [List.nil_append, List.singleton_append, List.length_cons] at this
      push_cast at this
      omega
    have ihd := fileCount_forest maxDepth entries (below ++ [name]) (depth + 1) hsub
    have hchild : fileCountList
        (buildTreeRecursive (below ++ [name]) (.dir name entries) (depth + 1) maxDepth)
        = ((filesBelow [] entries).filter (fun p => p.1.all namePasses)).length := by
      by_cases hd : depth + 1 < maxDepth
      · rw [buildTreeRecursive_dir _ _ _ _ _ hd, fileCountList_append]
        exact ihd
      · rw [buildTreeRecursive_stop _ _ _ _ (by omega)]
        have hnil : filesBelow [] entries = [] := by
          cases hl : filesBelow [] entries with
          | nil => rfl
          | cons p l =>
            have hp : p ∈ filesBelow [] entries := by rw [hl]; exact List.mem_cons_self _ _
            obtain ⟨suf, hne, hpath⟩ := filesBelow_path entries [] p hp
            have h1 := hsub p hp
            have h2 : 0 < p.1.length := by
              rw [hpath, List.nil_append]
              exact List.length_pos.mpr hne
            omega
        rw [hnil]
        rfl
    rw [filesBelow_dir, filesBelow_map entries ([] ++ [name]), List.filter_append,
      List.length_append, List.filter_map, List.length_map, List.filter_cons, List.filter_cons]
    have hIs : (FsNode.dir name entries).IsDir = true := rfl
    have hNm : (FsNode.dir name entries).Name = name := rfl
    simp only [hIs, hNm, Bool.and_true, Bool.not_true, Bool.and_false, Bool.false_eq_true,
      if_false]
    cases hp : namePasses name
    · simp only [Bool.false_eq_true, if_false]
      rw [ih]
      have hnone : (filesBelow [] entries).filter
          ((fun p : List String × Option String => p.1.all namePasses) ∘
            fun p => (([] ++ [name]) ++ p.1, p.2)) = [] := by
        rw [List.filter_eq_nil_iff]
        intro p _
        simp [hp]
      rw [hnone]
      simp
    · simp only [if_true, List.map_cons]
      rw [fileCountList, FileNode.fileCount]
      simp only [hNm, if_true, zero_add]
      rw [hchild]
      have hsame : (filesBelow [] entries).filter
          ((fun p : List String × Option String => p.1.all namePasses) ∘
            fun p => (([] ++ [name]) ++ p.1, p.2))
          = (filesBelow [] entries).filter (fun p => p.1.all namePasses) := by
        apply List.filter_congr
        intro p _
        simp [hp]
      rw [hsame]
      omega

/-- The snapshot of a working directory that holds `main.go` and an entry
`vendor` that is not a directory. -/
theorem buildFileTree_vendor_file :
    BuildFileTree (some (.dir "work" [.file "main.go" 4 (some "test"),
                                       .file "vendor" 7 (some "modules")])) 3
      = [.mk "main.go" "main.go" false [] 4] := by
  rw [BuildFileTree, buildTreeRecursive_dir _ _ _ _ _ (by decide)]
  simp only [List.filter, namePasses, excludedDirs, isHidden, FsNode.Name, FsNode.IsDir,
    List.map, List.append_nil, List.nil_append, FsNode.Size]
  rfl

/-- C28 (evaluation of the code at the failing input): a working directory of
nesting depth 0 holds the regular files `main.go` and `vendor`. `CountFiles`
returns 2, while `BuildFileTree` with `maxDepth = 3` returns the single node
`main.go`, so the snapshot has one file node: `buildTreeRecursive` tests
`excludedDirs[name]` before it looks at `entry.IsDir()` and drops the regular
file named `vendor`, although the excluded names are names of directories. -/
theorem tree_snapshot_count_differs :
    CountFiles (some (.dir "work" [.file "main.go" 4 (some "test"),
                                   .file "vendor" 7 (some "modules")])) = 2 ∧
    BuildFileTree (some (.dir "work" [.file "main.go" 4 (some "test"),
                                      .file "vendor" 7 (some "modules")])) 3
      = [.mk "main.go" "main.go" false [] 4] ∧
    fileCountList (BuildFileTree (some (.dir "work" [.file "main.go" 4 (some "test"),
                                                     .file "vendor" 7 (some "modules")])) 3)
      = 1 := by
  refine ⟨by decide, buildFileTree_vendor_file, ?_⟩
  rw [buildFileTree_vendor_file]
  rfl

/-- Where the two functions agree: for every directory tree whose root has a
name that is not excluded, in which every entry that is not a directory lies
at most `maxDepth` names below the root and has a name that is neither
excluded nor hidden, the number of nodes of `BuildFileTree(dir, maxDepth)`
that are not directories equals `CountFiles(dir)`. -/
theorem tree_file_count_eq_countFiles (name : String) (entries : List FsNode) (maxDepth : Int)
    (hroot : excludedDirs name = false)
    (hdepth : ∀ p ∈ filesBelow [] entries, (p.1.length : Int) ≤ maxDepth)
    (hnames : ∀ p ∈ filesBelow [] entries,
      excludedDirs (p.1.getLastD "") = false ∧ isHidden (p.1.getLastD "") = false) :
    (fileCountList (BuildFileTree (some (.dir name entries)) maxDepth) : Int)
      = CountFiles (some (.dir name entries)) := by
  have hcount : CountFiles (some (.dir name entries))
      = (((filesBelow [] entries).filter (fun p => countedPath p.1)).length : Int) := by
    have hw := walkEntries_countFiles entries [] 0 (by rfl)
    simp only [CountFiles, WalkDir, walkDir, countFilesFn, FsNode.IsDir, if_true, FsNode.Name,
      hroot, Bool.false_eq_true, if_false, bne_self_eq_false, Bool.and_false, hw, zero_add]
  have hsame : (filesBelow [] entries).filter (fun p => countedPath p.1)
      = (filesBelow [] entries).filter (fun p => p.1.all namePasses) := by
    apply List.filter_congr
    intro p hp
    obtain ⟨suf, hne, hpath⟩ := filesBelow_path entries [] p hp
    obtain ⟨hex, hhid⟩ := hnames p hp
    have hsplit : p.1 = p.1.dropLast ++ [p.1.getLastD ""] := by
      rw [hpath, List.nil_append]
      cases suf using List.reverseRecOn with
      | nil => exact absurd rfl hne
      | append_singleton l a => simp
    have hall : p.1.all namePasses
        = (p.1.dropLast.all namePasses && namePasses (p.1.getLastD "")) := by
      conv_lhs => rw [hsplit]
      simp only [List.all_append, List.all_cons, List.all_nil, Bool.and_true]
    rw [hall]
    simp only [countedPath, namePasses, hex, hhid, Bool.not_false, Bool.true_or, Bool.and_true,
      Bool.true_and]
  rw [hcount, hsame]
  by_cases hd : (0 : Int) < maxDepth
  · rw [BuildFileTree, buildTreeRecursive_dir _ _ _ _ _ hd, fileCountList_append]
    have := fileCount_forest maxDepth entries [] 0 (fun p hp => by
      have := hdepth p hp
      omega)
    rw [← this]
  · rw [BuildFileTree, buildTreeRecursive_stop _ _ _ _ (by omega)]
    have hnil : filesBelow [] entries = [] := by
      cases hl : filesBelow [] entries with
      | nil => rfl
      | cons p l =>
        have hp : p ∈ filesBelow [] entries := by rw [hl]; exact List.mem_cons_self _ _
        obtain ⟨suf, hne, hpath⟩ := filesBelow_path entries [] p hp
        have h1 := hdepth p hp
        have h2 : 0 < p.1.length := by
          rw [hpath, List.nil_append]
          exact List.length_pos.mpr hne
        omega
    rw [hnil]
    rfl

/-- The agreement at the working directory with `main.go` and `src/app.go`
and `maxDepth = 3`: both numbers are 2. -/
theorem tree_file_count_eq_countFiles_project :
    excludedDirs "work" = false ∧
    (∀ p ∈ filesBelow [] [.file "main.go" 4 (some "test"),
                          .dir "src" [.file "app.go" 4 (some "test")]],
      (p.1.length : Int) ≤ 3) ∧
    (∀ p ∈ filesBelow [] [.file "main.go" 4 (some "test"),
                          .dir "src" [.file "app.go" 4 (some "test")]],
      excludedDirs (p.1.getLastD "") = false ∧ isHidden (p.1.getLastD "") = false) ∧
    CountFiles (some (projectTree "work")) = 2 ∧
    (fileCountList (BuildFileTree (some (projectTree "work")) 3) : Int)
      = CountFiles (some (projectTree "work")) :=
  ⟨by decide, by decide, by decide, by decide,
   tree_file_count_eq_countFiles "work"
     [.file "main.go" 4 (some "test"), .dir "src" [.file "app.go" 4 (some "test")]] 3
     (by decide) (by decide) (by decide)⟩

/-! ## The stdin writer: claim C26 -/

/-- A closed stdin writer ignores every further call. -/
theorem stdinWriter.run_closed (sw : stdinWriter) (h : sw.closed = true) :
    ∀ (calls : List StdinCall), sw.run calls = sw
  | [] => rfl
  | .Write data :: rest => by
    have hw : (sw.Write data).1 = sw := by simp only [stdinWriter.Write, h, if_true]
    rw [stdinWriter.run, hw]
    exact stdinWriter.run_closed sw h rest
  | .Close :: rest => by
    have hc : sw.Close = sw := by
      simp only [stdinWriter.Close, h, Bool.not_true, Bool.false_eq_true, if_false]
    rw [stdinWriter.run, hc]
    exact stdinWriter.run_closed sw h rest

/-- The state of an open stdin writer after a sequence of calls. -/
theorem stdinWriter.run_open : ∀ (calls : List StdinCall) (sw : stdinWriter),
    sw.closed = false →
    (sw.run calls).closed = decide (StdinCall.Close ∈ calls) ∧
    (sw.run calls).writer.closeCalls
      = sw.writer.closeCalls + (if StdinCall.Close ∈ calls then 1 else 0) ∧
    (sw.writer.closed = false → sw.writer.readerGone = false →
      (sw.run calls).writer.written = sw.writer.written ++ writesBeforeClose calls)
  | [], sw, h => by simp [stdinWriter.run, writesBeforeClose, h]
  | .Write data :: rest, sw, h => by
    have hw : (sw.Write data).1 = { sw with writer := (sw.writer.Write data).1 } := by
      simp only [stdinWriter.Write, h, Bool.false_eq_true, if_false]
    obtain ⟨h1, h2, h3⟩ := stdinWriter.run_open rest (sw.Write data).1 (by rw [hw]; exact h)
    have hcc : (sw.Write data).1.writer.closeCalls = sw.writer.closeCalls := by
      rw [hw]
      simp only [OSFile.Write]
      split
      · rfl
      · split <;> rfl
    have hmem : (StdinCall.Close ∈ StdinCall.Write data :: rest) ↔ StdinCall.Close ∈ rest := by
      simp
    refine ⟨?_, ?_, ?_⟩
    · rw [stdinWriter.run, h1]
      simp only [hmem]
    · rw [stdinWriter.run, h2, hcc]
      simp only [hmem]
    · intro hopen hreader
      have hwr : (sw.Write data).1.writer
          = { sw.writer with written := sw.writer.written ++ [data] } := by
        rw [hw]
        simp only [OSFile.Write, hopen, hreader, Bool.false_eq_true, if_false]
      rw [stdinWriter.run, h3 (by rw [hwr]; exact hopen) (by rw [hwr]; exact hreader), hwr,
        writesBeforeClose]
      simp
  | .Close :: rest, sw, h => by
    have hc : sw.Close = { writer := sw.writer.Close, closed := true } := by
      simp only [stdinWriter.Close, h, Bool.not_false, if_true]
    rw [stdinWriter.run, stdinWriter.run_closed sw.Close (by rw [hc]) rest, hc]
    refine ⟨by simp, by simp [OSFile.Close], ?_⟩
    intro _ _
    simp [OSFile.Close, writesBeforeClose]

/-- C26: for every stdin writer that is not closed and every sequence of
`Write` and `Close` calls on it: the underlying pipe has been closed once if
the sequence holds a `Close` and not at all otherwise; after a `Close` a
further `Close` changes nothing, and a further `Write` returns the error
`stdin pipe closed` and leaves the writer and the pipe as they are; before any
`Close` a `Write` hands exactly its data to the pipe's own `Write` and returns
its result; so on a pipe that is open with its reader present the pipe has
received exactly the data of the `Write` calls made before the first `Close`,
in order. -/
theorem stdinWriter_close_once (sw0 : stdinWriter) (calls : List StdinCall)
    (h0 : sw0.closed = false) :
    (sw0.run calls).writer.closeCalls
      = sw0.writer.closeCalls + (if StdinCall.Close ∈ calls then 1 else 0) ∧
    (StdinCall.Close ∈ calls →
      (sw0.run calls).Close = sw0.run calls ∧
      ∀ data, (sw0.run calls).Write data = (sw0.run calls, some "stdin pipe closed")) ∧
    (StdinCall.Close ∉ calls →
      ∀ data, (sw0.run calls).Write data
        = ({ writer := ((sw0.run calls).writer.Write data).1, closed := false },
           ((sw0.run calls).writer.Write data).2)) ∧
    (sw0.writer.closed = false → sw0.writer.readerGone = false →
      (sw0.run calls).writer.written = sw0.writer.written ++ writesBeforeClose calls) := by
  obtain ⟨h1, h2, h3⟩ := stdinWriter.run_open calls sw0 h0
  refine ⟨h2, ?_, ?_, h3⟩
  · intro hmem
    have hcl : (sw0.run calls).closed = true := by rw [h1]; simpa using hmem
    refine ⟨?_, fun data => ?_⟩
    · simp only [stdinWriter.Close, hcl, Bool.not_true, Bool.false_eq_true, if_false]
    · simp only [stdinWriter.Write, hcl, if_true]
  · intro hmem data
    have hcl : (sw0.run calls).closed = false := by rw [h1]; simpa using hmem
    simp only [stdinWriter.Write, hcl, Bool.false_eq_true, if_false]

/-- C26 at the writer `Create` builds and the calls `Write a`, `Close`,
`Write b`, `Close`: the pipe received `a` only and was closed once. -/
theorem stdinWriter_close_once_witness :
    freshStdin.closed = false ∧
    (freshStdin.run [.Write "a", .Close, .Write "b", .Close]).writer
      = { written := ["a"], closed := true, closeCalls := 1, readerGone := false } ∧
    (freshStdin.run [.Write "a", .Close, .Write "b", .Close]).writer.closeCalls
      = freshStdin.writer.closeCalls
        + (if StdinCall.Close ∈ [StdinCall.Write "a", .Close, .Write "b", .Close] then 1
           else 0) :=
  ⟨by decide, by decide,
   (stdinWriter_close_once freshStdin [.Write "a", .Close, .Write "b", .Close] (by decide)).1⟩

/-! ## The exit code on the wire: claim C29 -/

theorem digitChar_facts (d : Nat) (h : d < 10) :
    (Nat.digitChar d).isDigit = true ∧ (Nat.digitChar d).toNat - '0'.toNat = d ∧
    goIsSpace (Nat.digitChar d) = false ∧ Nat.digitChar d ≠ '\n' ∧
    Nat.digitChar d ≠ '-' ∧ Nat.digitChar d ≠ '+' := by
  interval_cases d <;> decide

/-- With enough fuel, `Nat.toDigitsCore` puts the decimal digits of `n` in front
of `ds`. -/
theorem toDigitsCore_spec : ∀ (fuel n : Nat) (ds : List Char), n < fuel →
    ∃ l, Nat.toDigitsCore 10 fuel n ds = l ++ ds ∧ l ≠ [] ∧
      (∀ c ∈ l, ∃ d, d < 10 ∧ c = Nat.digitChar d) ∧ digitsValue l = n
  | 0, n, ds, h => absurd h (Nat.not_lt_zero n)
  | fuel + 1, n, ds, h => by
    rw [Nat.toDigitsCore]
    by_cases h0 : n / 10 = 0
    · simp only [h0, if_true]
      refine ⟨[Nat.digitChar (n % 10)], rfl, by simp, ?_, ?_⟩
      · intro c hc
        exact ⟨n % 10, Nat.mod_lt _ (by decide), by simpa using hc⟩
      · have := (digitChar_facts (n % 10) (Nat.mod_lt _ (by decide))).2.1
        simp only [digitsValue, List.foldl, Nat.zero_mul, Nat.zero_add, this]
        omega
    · simp only [h0, if_false]
      obtain ⟨l, hl, hne, hall, hval⟩ :=
        toDigitsCore_spec fuel (n / 10) (Nat.digitChar (n % 10) :: ds) (by omega)
      refine ⟨l ++ [Nat.digitChar (n % 10)], by rw [hl]; simp, by simp, ?_, ?_⟩
      · intro c hc
        rcases List.mem_append.mp hc with h1 | h1
        · exact hall c h1
        · exact ⟨n % 10, Nat.mod_lt _ (by decide), by simpa using h1⟩
      · have := (digitChar_facts (n % 10) (Nat.mod_lt _ (by decide))).2.1
        simp only [digitsValue] at hval ⊢
        rw [List.foldl_append, hval]
        simp only [List.foldl, this]
        omega


theorem scanLiteral_append : ∀ (lit rest : List Char), scanLiteral lit (lit ++ rest) = some rest
  | [], rest => by cases rest <;> rfl
  | f :: fs, rest => by
    simp only [List.cons_append, scanLiteral, if_true]
    exact scanLiteral_append fs rest

theorem takeWhile_digits (l : List Char) (h : ∀ c ∈ l, ∃ d, d < 10 ∧ c = Nat.digitChar d) :
    l.takeWhile Char.isDigit = l := by
  rw [List.takeWhile_eq_self_iff]
  intro c hc
  obtain ⟨d, hd, rfl⟩ := h c hc
  exact (digitChar_facts d hd).1

/-- The scan of the digits of a natural number, after the literal was matched. -/
theorem sscan_nat (m : Nat) :
    ∃ l, Nat.toDigits 10 m = l ∧ l ≠ [] ∧ scanSkipSpace l = some l ∧
      (∀ t, l ≠ '-' :: t) ∧ (∀ t, l ≠ '+' :: t) ∧ l.takeWhile Char.isDigit = l ∧
      digitsValue l = m := by
  obtain ⟨l, hl, hne, hall, hval⟩ := toDigitsCore_spec (m + 1) m [] (Nat.lt_succ_self m)
  rw [List.append_nil] at hl
  refine ⟨l, hl, hne, ?_, ?_, ?_, takeWhile_digits l hall, hval⟩
  · cases l with
    | nil => exact absurd rfl hne
    | cons c t =>
      obtain ⟨d, hd, rfl⟩ := hall c (List.mem_cons_self _ _)
      have hf := digitChar_facts d hd
      simp only [scanSkipSpace, hf.2.2.2.1, if_false, hf.2.2.1, Bool.false_eq_true]
  · intro t ht
    rw [ht] at hall
    obtain ⟨d, hd, hc⟩ := hall '-' (List.mem_cons_self _ _)
    exact (digitChar_facts d hd).2.2.2.2.1 hc.symm
  · intro t ht
    rw [ht] at hall
    obtain ⟨d, hd, hc⟩ := hall '+' (List.mem_cons_self _ _)
    exact (digitChar_facts d hd).2.2.2.2.2 hc.symm

theorem sscanExitCode_format (n : Int) (hlo : -(2 : Int) ^ 63 ≤ n) (hhi : n < (2 : Int) ^ 63) :
    sscanExitCode ("exit_code:" ++ toString n) = n := by
  have hdata : ("exit_code:" ++ toString n).toList = "exit_code:".toList ++ (toString n).toList :=
    String.data_append _ _
  cases n with
  | ofNat m =>
    obtain ⟨l, hl, hne, hskip, hminus, hplus, htake, hval⟩ := sscan_nat m
    have hs : (toString (Int.ofNat m)).toList = l := by rw [← hl]; rfl
    have hemp : l.isEmpty = false := by
      cases l with
      | nil => exact absurd rfl hne
      | cons c t => rfl
    have hr : -(2 : Int) ^ 63 ≤ (m : Int) ∧ (m : Int) < (2 : Int) ^ 63 := ⟨hlo, hhi⟩
    simp only [sscanExitCode, hdata, scanLiteral_append, hs, hskip, htake, hval, hemp,
      Bool.false_eq_true, if_false, hr, and_self, if_true]
    rfl
  | negSucc m =>
    obtain ⟨l, hl, hne, hskip, hminus, hplus, htake, hval⟩ := sscan_nat (m + 1)
    have hs : (toString (Int.negSucc m)).toList = '-' :: l := by rw [← hl]; rfl
    have hemp : l.isEmpty = false := by
      cases l with
      | nil => exact absurd rfl hne
      | cons c t => rfl
    have hsk : scanSkipSpace ('-' :: l) = some ('-' :: l) := by
      simp only [scanSkipSpace]
      rfl
    have hneg : Int.negSucc m = -((m + 1 : Nat) : Int) := rfl
    have hr : -(2 : Int) ^ 63 ≤ -((m + 1 : Nat) : Int) ∧ -((m + 1 : Nat) : Int) < (2 : Int) ^ 63 := by
      rw [← hneg]; exact ⟨hlo, hhi⟩
    simp only [sscanExitCode, hdata, scanLiteral_append, hs, hsk, htake, hval, hemp,
      Bool.false_eq_true, if_false, hr, and_self, if_true]
    rfl


/-- C29: for every exit code `n` of the 64-bit integer range, the payload of
the reaper's exit event is `exit_code:` followed by the decimal numeral of
`n`, and scanning it with the pattern of the hub gives `n`; so the forwarding
task, handling that event for the session `sessionID`, sends the message of
type `session.terminated` whose payload is
`sessionId: sessionID, exitCode: n` and nothing else: a client whose queue is
open and has room finds exactly this message appended to its queue. -/
theorem exit_code_round_trip (ms : managedSession) (n : Int) (now : Nat)
    (hlo : -(2 : Int) ^ 63 ≤ n) (hhi : n < (2 : Int) ^ 63) :
    (exitEvent ms n now).Typ = "exit" ∧
    (exitEvent ms n now).Data = "exit_code:" ++ toString n ∧
    sscanExitCode (exitEvent ms n now).Data = n ∧
    ∀ (s : Server) (env : HubEnv) (c sessionID : String),
      s.forwardEvent env c sessionID (exitEvent ms n now)
        = s.trySend c
            { Typ := "session.terminated"
              Payload := some (.obj [("sessionId", .str sessionID),
                                     ("exitCode", .num (toString n))])
              Timestamp := some env.now } ∧
      ∀ cl, mapGet c s.clientObjs = some cl → cl.send.closed = false →
        cl.send.items.length < cl.send.cap →
        ∃ s1 cl1, s.forwardEvent env c sessionID (exitEvent ms n now) = some s1 ∧
          mapGet c s1.clientObjs = some cl1 ∧
          cl1.send.items = cl.send.items ++
            [{ Typ := "session.terminated"
               Payload := some (.obj [("sessionId", .str sessionID),
                                      ("exitCode", .num (toString n))])
               Timestamp := some env.now }] := by
  have h : sscanExitCode (exitEvent ms n now).Data = n := sscanExitCode_format n hlo hhi
  refine ⟨rfl, rfl, h, ?_⟩
  intro s env c sessionID
  have hty : (exitEvent ms n now).Typ = OutputExit := rfl
  have hfw : s.forwardEvent env c sessionID (exitEvent ms n now)
      = s.trySend c
          { Typ := "session.terminated"
            Payload := some (.obj [("sessionId", .str sessionID),
                                   ("exitCode", .num (toString n))])
            Timestamp := some env.now } := by
    simp only [Server.forwardEvent, Server.sendOutputEvent, hty, if_true, h]
    rfl
  refine ⟨hfw, ?_⟩
  intro cl hc hopen hroom
  obtain ⟨cl1, h1, _, _, h4⟩ := Server.trySend_open s c
    { Typ := "session.terminated"
      Payload := some (.obj [("sessionId", .str sessionID),
                             ("exitCode", .num (toString n))])
      Timestamp := some env.now } cl hc hopen
  refine ⟨_, cl1, hfw.trans h1, mapGet_mapInsert_self _ _ _, ?_⟩
  rw [h4, if_pos hroom]

/-- C29 at the exit code -1 of session `s1`, forwarded to client `c1` of a
fresh hub, and the scan at the payloads of the exit codes 0 and 2. -/
theorem exit_code_round_trip_witness :
    (-(2 : Int) ^ 63 ≤ -1 ∧ (-1 : Int) < (2 : Int) ^ 63) ∧
    (exitEvent demoSubscribedSession (-1) 10).Data = "exit_code:-1" ∧
    sscanExitCode (exitEvent demoSubscribedSession (-1) 10).Data = -1 ∧
    (∃ s1 cl1, (freshHub 10).forwardEvent demoHubEnv "c1" "s1"
        (exitEvent demoSubscribedSession (-1) 10) = some s1 ∧
      mapGet "c1" s1.clientObjs = some cl1 ∧
      cl1.send.items =
        [{ Typ := "session.terminated"
           Payload := some (.obj [("sessionId", .str "s1"), ("exitCode", .num "-1")])
           Timestamp := some 9 }]) ∧
    sscanExitCode "exit_code:0" = 0 ∧ sscanExitCode "exit_code:2" = 2 := by
  have hw := exit_code_round_trip demoSubscribedSession (-1) 10 (by decide) (by decide)
  obtain ⟨s1, cl1, h1, h2, h3⟩ :=
    (hw.2.2.2 (freshHub 10) demoHubEnv "c1" "s1").2 { send := Chan.make 256 } rfl rfl
      (by decide)
  exact ⟨⟨by decide, by decide⟩, by decide, hw.2.2.1, ⟨s1, cl1, h1, h2, h3.trans (by rfl)⟩,
    by decide, by decide⟩

/-! ## The ring buffer on the heap: claim C27 -/

theorem Heap.getD_write_ne (h : Heap) (s : Slice) (elems : List OutputEvent) (a : Nat)
    (ha : a ≠ s.arr) : (h.write s elems).getD a [] = h.getD a [] := by
  simp only [Heap.write, List.getD_eq_getElem?_getD]
  rw [List.getElem?_set_ne (Ne.symm ha)]

theorem Heap.getD_write_eq (h : Heap) (s : Slice) (elems : List OutputEvent)
    (hs : s.arr < h.length) :
    (h.write s elems).getD s.arr []
      = (h.getD s.arr []).take s.off ++ elems ++ (h.getD s.arr []).drop (s.off + elems.length) := by
  simp only [Heap.write, List.getD_eq_getElem?_getD]
  rw [List.getElem?_set_self hs]
  rfl

theorem Heap.getD_make_old (h : Heap) (n a : Nat) (ha : a < h.length) :
    (h.make n).1.getD a [] = h.getD a [] := by
  simp only [Heap.make, List.getD_eq_getElem?_getD]
  rw [List.getElem?_append_left ha]

theorem Heap.getD_make_new (h : Heap) (n : Nat) :
    (h.make n).1.getD h.length [] = List.replicate n OutputEvent.zero := by
  simp [Heap.make, List.getD_eq_getElem?_getD]

theorem copySlice_length {α : Type} (dst src : List α) :
    (copySlice dst src).length = dst.length := by
  simp only [copySlice, List.length_append, List.length_take, List.length_drop]
  omega


theorem Heap.read_write_other (h : Heap) (s t : Slice) (elems : List OutputEvent)
    (hne : t.arr ≠ s.arr) : (h.write s elems).read t = h.read t := by
  simp only [Heap.read, Heap.getD_write_ne h s elems t.arr hne]

theorem Heap.read_make_old (h : Heap) (n : Nat) (t : Slice) (ht : t.arr < h.length) :
    (h.make n).1.read t = h.read t := by
  simp only [Heap.read, Heap.getD_make_old h n t.arr ht]

theorem Heap.read_make_new (h : Heap) (n : Nat) :
    (h.make n).1.read (h.make n).2 = List.replicate n OutputEvent.zero := by
  have h2 : (h.make n).2 = { arr := h.length, off := 0, len := n } := rfl
  simp only [Heap.read, h2, Heap.getD_make_new, List.drop_zero, List.take_replicate, Nat.min_self]

/-- Reading a whole array after its tail window was overwritten. -/
theorem Heap.read_write_tail (h : Heap) (a k n : Nat) (elems : List OutputEvent)
    (ha : a < h.length) (hlen : (h.getD a []).length = n) (hk : k ≤ n)
    (he : elems.length = n - k) :
    (h.write { arr := a, off := k, len := n - k } elems).read { arr := a, off := 0, len := n }
      = (h.getD a []).take k ++ elems := by
  simp only [Heap.read, List.drop_zero]
  rw [Heap.getD_write_eq h { arr := a, off := k, len := n - k } elems ha]
  simp only
  have hd : (h.getD a []).drop (k + elems.length) = [] := by
    rw [List.drop_eq_nil_iff]
    omega
  rw [hd, List.append_nil, List.take_of_length_le]
  simp only [List.length_append, List.length_take]
  omega

/-- One call of `ReadAll` on an allocated, well-formed ring buffer. -/
theorem RingBufferObj.readAll_step (rb : RingBufferObj) (h : Heap)
    (halloc : rb.buf.arr < h.length)
    (hcap : rb.buf.len = rb.capacity) (hpos : rb.pos ≤ rb.capacity) :
    ∃ h1 result, rb.ReadAll h = some (h1, rb, result) ∧
      h1.length = h.length + 1 ∧ result.arr = h.length ∧
      (∀ a, a < h.length → h1.getD a [] = h.getD a []) ∧
      h1.read result = (rb.view h).ReadAll := by
  have hne : rb.buf.arr ≠ h.length := by omega
  cases hfull : rb.full
  · have hsl : rb.buf.slice 0 rb.pos
        = some { arr := rb.buf.arr, off := rb.buf.off + 0, len := rb.pos - 0 } := by
      simp only [Slice.slice, Nat.zero_le, true_and, hcap, hpos, if_true]
    have hres := Heap.read_make_new h rb.pos
    have hsrc : (h.make rb.pos).1.read
        { arr := rb.buf.arr, off := rb.buf.off + 0, len := rb.pos - 0 }
        = (h.read rb.buf).take rb.pos := by
      rw [Heap.read_make_old h rb.pos
        { arr := rb.buf.arr, off := rb.buf.off + 0, len := rb.pos - 0 } halloc]
      simp only [Heap.read, Nat.add_zero, Nat.sub_zero, List.take_take, hcap,
        Nat.min_eq_left hpos]
    refine ⟨(h.make rb.pos).1.copy (h.make rb.pos).2
        { arr := rb.buf.arr, off := rb.buf.off + 0, len := rb.pos - 0 },
      (h.make rb.pos).2, ?_, ?_, rfl, ?_, ?_⟩
    · simp only [RingBufferObj.ReadAll, hfull, Bool.not_false, if_true, hsl]
    · simp [Heap.copy, Heap.write, Heap.make]
    · intro a ha
      rw [Heap.copy, Heap.getD_write_ne _ _ _ _ (by simp only [Heap.make]; omega),
        Heap.getD_make_old h _ a ha]
    · rw [Heap.copy, hres, hsrc]
      have hw := Heap.read_write_tail (h.make rb.pos).1 h.length 0 rb.pos
        (copySlice (List.replicate rb.pos OutputEvent.zero) ((h.read rb.buf).take rb.pos))
        (by simp [Heap.make]) (by rw [Heap.getD_make_new]; simp) (Nat.zero_le _)
        (by rw [copySlice_length]; simp)
      simp only [Nat.sub_zero, List.take_zero, List.nil_append] at hw
      rw [show (h.make rb.pos).2 = { arr := h.length, off := 0, len := rb.pos } from rfl, hw]
      simp only [RingBufferObj.view, RingBuffer.ReadAll, hfull, Bool.not_false, if_true]
  · have hsl1 : rb.buf.slice rb.pos rb.buf.len
        = some { arr := rb.buf.arr, off := rb.buf.off + rb.pos, len := rb.buf.len - rb.pos } := by
      simp only [Slice.slice, hcap, hpos, le_refl, and_self, if_true]
    have hsl2 : rb.buf.slice 0 rb.pos
        = some { arr := rb.buf.arr, off := rb.buf.off + 0, len := rb.pos - 0 } := by
      simp only [Slice.slice, Nat.zero_le, true_and, hcap, hpos, if_true]
    have hr2 : (h.make rb.capacity).2 = { arr := h.length, off := 0, len := rb.capacity } := rfl
    have hsl3 : (h.make rb.capacity).2.slice (rb.capacity - rb.pos) (h.make rb.capacity).2.len
        = some { arr := h.length, off := 0 + (rb.capacity - rb.pos),
                 len := rb.capacity - (rb.capacity - rb.pos) } := by
      simp only [hr2, Slice.slice, Nat.sub_le, le_refl, and_self, if_true]
    have hlt : ¬ rb.capacity < rb.pos := by omega
    have hsrc1 : (h.make rb.capacity).1.read
        { arr := rb.buf.arr, off := rb.buf.off + rb.pos, len := rb.buf.len - rb.pos }
        = (h.read rb.buf).drop rb.pos := by
      rw [Heap.read_make_old h rb.capacity
        { arr := rb.buf.arr, off := rb.buf.off + rb.pos, len := rb.buf.len - rb.pos } halloc]
      simp only [Heap.read, List.drop_take, List.drop_drop]
    -- the heap after the first copy
    have hE1 : ((h.make rb.capacity).1.copy (h.make rb.capacity).2
        { arr := rb.buf.arr, off := rb.buf.off + rb.pos,
          len := rb.buf.len - rb.pos }).getD h.length []
        = copySlice (List.replicate rb.capacity OutputEvent.zero)
            ((h.read rb.buf).drop rb.pos) := by
      rw [Heap.copy, Heap.read_make_new, hsrc1, hr2,
        Heap.getD_write_eq _ { arr := h.length, off := 0, len := rb.capacity } _
          (by simp [Heap.make]),
        Heap.getD_make_new]
      simp only [List.take_zero, List.nil_append, Nat.zero_add, copySlice_length,
        List.length_replicate, List.drop_replicate, Nat.sub_self, List.replicate_zero,
        List.append_nil]
    have hlen2 : ((h.make rb.capacity).1.copy (h.make rb.capacity).2
        { arr := rb.buf.arr, off := rb.buf.off + rb.pos,
          len := rb.buf.len - rb.pos }).length = h.length + 1 := by
      simp [Heap.copy, Heap.write, Heap.make]
    have hold2 : ∀ a, a < h.length →
        ((h.make rb.capacity).1.copy (h.make rb.capacity).2
          { arr := rb.buf.arr, off := rb.buf.off + rb.pos,
            len := rb.buf.len - rb.pos }).getD a [] = h.getD a [] := by
      intro a ha
      rw [Heap.copy, Heap.getD_write_ne _ _ _ _ (by simp only [Heap.make]; omega),
        Heap.getD_make_old h _ a ha]
    refine ⟨((h.make rb.capacity).1.copy (h.make rb.capacity).2
          { arr := rb.buf.arr, off := rb.buf.off + rb.pos, len := rb.buf.len - rb.pos }).copy
        { arr := h.length, off := 0 + (rb.capacity - rb.pos),
          len := rb.capacity - (rb.capacity - rb.pos) }
        { arr := rb.buf.arr, off := rb.buf.off + 0, len := rb.pos - 0 },
      (h.make rb.capacity).2, ?_, ?_, rfl, ?_, ?_⟩
    · simp only [RingBufferObj.ReadAll, hfull, Bool.not_true, Bool.false_eq_true, if_false,
        hsl1, hlt, hsl3, hsl2]
    · rw [Heap.copy, Heap.write, List.length_set, hlen2]
    · intro a ha
      rw [Heap.copy, Heap.getD_write_ne _ _ _ _ (by show a ≠ h.length; omega), hold2 a ha]
    · have hdst : ((h.make rb.capacity).1.copy (h.make rb.capacity).2
          { arr := rb.buf.arr, off := rb.buf.off + rb.pos,
            len := rb.buf.len - rb.pos }).read
          { arr := h.length, off := 0 + (rb.capacity - rb.pos),
            len := rb.capacity - (rb.capacity - rb.pos) }
          = (copySlice (List.replicate rb.capacity OutputEvent.zero)
              ((h.read rb.buf).drop rb.pos)).drop (rb.capacity - rb.pos) := by
        simp only [Heap.read, hE1, Nat.zero_add]
        rw [List.take_of_length_le]
        simp only [List.length_drop, copySlice_length, List.length_replicate]
        omega
      have hsrc2 : ((h.make rb.capacity).1.copy (h.make rb.capacity).2
          { arr := rb.buf.arr, off := rb.buf.off + rb.pos,
            len := rb.buf.len - rb.pos }).read
          { arr := rb.buf.arr, off := rb.buf.off + 0, len := rb.pos - 0 }
          = (h.read rb.buf).take rb.pos := by
        simp only [Heap.read]
        rw [hold2 rb.buf.arr halloc]
        simp only [Nat.add_zero, Nat.sub_zero, List.take_take, hcap, Nat.min_eq_left hpos]
      rw [Heap.copy, hdst, hsrc2, hr2]
      have hw := Heap.read_write_tail
        ((h.make rb.capacity).1.copy { arr := h.length, off := 0, len := rb.capacity }
          { arr := rb.buf.arr, off := rb.buf.off + rb.pos, len := rb.buf.len - rb.pos })
        h.length (rb.capacity - rb.pos) rb.capacity
        (copySlice
          ((copySlice (List.replicate rb.capacity OutputEvent.zero)
            ((h.read rb.buf).drop rb.pos)).drop (rb.capacity - rb.pos))
          ((h.read rb.buf).take rb.pos))
        (by rw [← hr2, hlen2]; exact Nat.lt_succ_self _)
        (by rw [← hr2, hE1, copySlice_length, List.length_replicate]) (Nat.sub_le _ _)
        (by simp only [copySlice_length, List.length_drop, List.length_replicate])
      rw [← hr2] at hw
      rw [hE1] at hw
      simp only [Nat.zero_add]
      rw [← hr2, hw]
      simp only [RingBufferObj.view, RingBuffer.ReadAll, hfull, Bool.not_true,
        Bool.false_eq_true, if_false]


/-- C27: on every heap, for every ring buffer whose slot array is allocated,
has `capacity` slots and whose cursor is within them, `ReadAll` returns
normally; it leaves the buffer record (slice header, capacity, write cursor,
full flag) as it is and every array that existed before the call, the slots of
the buffer among them, unchanged, writing only to the array it has freshly
made; the returned slice holds what `ReadAll` of the buffer's value gives. So
a second `ReadAll` with no `Write` in between returns a slice with equal
contents, and leaves the contents of the first result and the slots
unchanged. -/
theorem readAll_frame (rb : RingBufferObj) (h : Heap) (halloc : rb.buf.arr < h.length)
    (hcap : rb.buf.len = rb.capacity) (hpos : rb.pos ≤ rb.capacity) :
    ∃ h1 result, rb.ReadAll h = some (h1, rb, result) ∧
      (∀ a, a < h.length → h1.getD a [] = h.getD a []) ∧
      h1.read rb.buf = h.read rb.buf ∧
      h1.read result = (rb.view h).ReadAll ∧
      ∃ h2 result2, rb.ReadAll h1 = some (h2, rb, result2) ∧
        h2.read result2 = h1.read result ∧ h2.read result = h1.read result ∧
        h2.read rb.buf = h.read rb.buf := by
  obtain ⟨h1, result, hr, hlen, harr, hold, hres⟩ :=
    RingBufferObj.readAll_step rb h halloc hcap hpos
  have hbuf1 : h1.read rb.buf = h.read rb.buf := by
    simp only [Heap.read, hold rb.buf.arr halloc]
  obtain ⟨h2, result2, hr2, _, _, hold2, hres2⟩ :=
    RingBufferObj.readAll_step rb h1 (by omega) hcap hpos
  refine ⟨h1, result, hr, hold, hbuf1, hres, h2, result2, hr2, ?_, ?_, ?_⟩
  · rw [hres2, hres]
    simp only [RingBufferObj.view, hbuf1]
  · simp only [Heap.read, hold2 result.arr (by omega)]
  · simp only [Heap.read, hold2 rb.buf.arr (by omega), hold rb.buf.arr halloc]

/-- C27 at a full buffer of capacity 3 whose slots hold the events 4, 2, 3
with the cursor at slot 1: `ReadAll` returns the events 2, 3, 4 in a new
array and the slots are as before. -/
theorem readAll_frame_witness :
    (demoRing.buf.arr < demoHeap.length ∧ demoRing.buf.len = demoRing.capacity ∧
      demoRing.pos ≤ demoRing.capacity) ∧
    (demoRing.ReadAll demoHeap).map (fun r => (r.1.getD 0 [], r.2.1, (r.1.read r.2.2).map
        (fun e => e.Data)))
      = some (demoHeap.getD 0 [], demoRing, ["L2", "L3", "L4"]) ∧
    ∃ h1 result, demoRing.ReadAll demoHeap = some (h1, demoRing, result) ∧
      (∀ a, a < demoHeap.length → h1.getD a [] = demoHeap.getD a []) ∧
      h1.read demoRing.buf = demoHeap.read demoRing.buf ∧
      h1.read result = (demoRing.view demoHeap).ReadAll ∧
      ∃ h2 result2, demoRing.ReadAll h1 = some (h2, demoRing, result2) ∧
        h2.read result2 = h1.read result ∧ h2.read result = h1.read result ∧
        h2.read demoRing.buf = demoHeap.read demoRing.buf :=
  ⟨by decide, by decide, readAll_frame demoRing demoHeap (by decide) (by decide) (by decide)⟩

/-! ## Disconnecting a client: claim C30 -/

set_option maxRecDepth 100000 in
/-- C30 (evaluation of the code at the failing input): client `c1` is
subscribed to session `s1`; the line `L1` is fanned out to its subscription
queue; before its forwarding task takes the event, `removeClient(c1)` runs:
`c1` leaves the registry, `Unsubscribe` closes the subscription queue with
`L1` still buffered in it, and `close(c.send)` closes the outbound queue.
The forwarding task then receives `L1` from the closed queue and
`sendOutputEvent` sends on the closed outbound queue, which panics; the same
happens in the history replay of a `subscribeClient(c1, s1)` that a
`subscribeAllClients` pass over an older copy of the client list makes after
the removal. A broadcast after the removal does not reach `c1`. -/
theorem forwarder_sends_after_removeClient :
    disconnectedHub.map (fun s =>
        (s.clients, (mapGet "c1" s.clientObjs).map (fun cl => cl.send.closed),
         (mapGet "s1" s.sessionMgr.sessions).map (fun ms =>
            ms.detached.map (fun p => (p.1, p.2.closed, p.2.items)))))
      = some ([], some true, some [("sub-c1-s1", true, [lineL1])]) ∧
    (disconnectedHub.bind (fun s => mapGet "c1" s.clientObjs)).map (fun cl =>
        (cl.send.trySend (sessionOutputMessage demoHubEnv lineL1)).isSome) = some false ∧
    disconnectedHub.map (fun s =>
        (s.forwardStepDetached demoHubEnv "c1" "s1" "sub-c1-s1").isSome) = some false ∧
    disconnectedHub.map (fun s => (s.subscribeClient demoHubEnv "c1" "s1").isSome)
      = some false ∧
    disconnectedHub.map (fun s => (s.broadcast demoUpdateMessage).isSome) = some true := by
  refine ⟨by rfl, by rfl, by rfl, by rfl, by rfl⟩

end ClaudePunk
